import Mathlib

/-!
# Shallow embedding of the heap-visualizer allocator family

This file embeds, in Lean 4, the C allocator family of the heap-visualizer
repository (`heap_1.c`, the best-fit allocator of `part_000` a.k.a. heap_2,
the coalescing allocator of `part_001` a.k.a. heap_4, `heap_3.c`, `heap_5.c`
and the shared helpers of `heap_common.h`), and proves or refutes the frozen
claims about them.

Modelling conventions, stated once here:

* C `size_t`, `uint32_t` and `int` values are modelled as unbounded natural
  numbers.  All sizes and offsets that can actually reach these functions are
  bounded by the 64 KiB simulated heaps, far below any machine-word bound, so
  none of the modelled arithmetic can wrap; wrap-around behaviour of requests
  in the vicinity of `2^64` is outside the model.
* C pointers into a simulated heap buffer are modelled as byte offsets into
  that buffer (for `heap_5`, as a pair of region index and region-local byte
  offset), exactly the quantity the C code itself recovers by pointer
  subtraction.
* The allocators thread their free lists through the heap buffer itself: at
  the start offset of every block the code keeps one `size_t` (the allocation
  header written by `malloc`, or the `size` field of a `free_block_t` node).
  The model tracks exactly those words in an association list
  (`heap_memory` below); user payload bytes are never read by the allocator
  and are not modelled.  A read of an offset the allocator never wrote yields
  0, matching the zero-initialised C static buffer.
* The singly linked free list (`free_block_t* next` pointers) is modelled as
  a Lean list of `(offset, stored size)` pairs in list order; the `next`
  pointers are exactly the list structure.
* The C block-table sort (`common_sort_blocks`) is a comparison sort on the
  `offset` field alone.  It is modelled as `List.insertionSort` by `offset`;
  on tables with pairwise distinct offsets (which all reachable single-buffer
  tables with positive block sizes have) every comparison sort by offset
  yields the same list.
* The `float` fields `external_fragmentation` / `internal_fragmentation` of
  `heap_stats_t` are recomputed by `update_stats` before every read the code
  performs, and the only read that influences control flow is the
  `> FRAGMENTATION_THRESHOLD` test in heap_4's `heap_malloc`.  They are
  therefore modelled as the exact rational-valued function `extFragQ` of the
  same inputs (`free_bytes`, `largest_free_block`) instead of stored fields.
* `stats.free_block_count` is transiently decremented by the C coalescing
  code before `update_stats` recomputes it from the table at the end of each
  operation; the transient Nat subtraction is truncated at 0 (the C `uint32`
  would wrap, but every operation ends by recomputing the field, so no
  post-operation value depends on the transient).
-/

namespace HeapModel

/-- Block state, from `heap_common.h` (`block_state_t`). -/
inductive BlockState where
  | FREE
  | ALLOCATED
  | FREED
deriving DecidableEq, Repr

/-- One block-table row, from `heap_common.h` (`block_info_t`). -/
structure Block where
  offset : Nat
  size : Nat
  state : BlockState
  allocation_id : Nat
  timestamp : Nat
  requested_size : Nat
  region_id : Nat
deriving DecidableEq, Repr

/-- Log actions; the C code stores them as strings in `log_entry_t.action`. -/
inductive LogAction where
  | INIT
  | MALLOC
  | FREE
  | COALESCE
  | FULL_COALESCE
deriving DecidableEq, Repr

/-- One operation-log row, from `heap_common.h` (`log_entry_t`). -/
structure LogEntry where
  action : LogAction
  allocation_id : Nat
  size : Nat
  offset : Nat
  timestamp : Nat
  success : Bool
  region_id : Nat
  flags : Nat
deriving DecidableEq, Repr

/-- Aggregate statistics, from `heap_common.h` (`heap_stats_t`).  The two
derived `float` fragmentation fields are modelled by `extFragQ` (see the file
header) and are not stored. -/
structure Stats where
  total_size : Nat
  allocated_bytes : Nat
  free_bytes : Nat
  allocation_count : Nat
  free_block_count : Nat
  next_allocation_id : Nat
  timestamp_counter : Nat
  largest_free_block : Nat
  smallest_free_block : Nat
  min_free_bytes : Nat
deriving DecidableEq, Repr

/-- `MAX_HEAP_SIZE` from `heap_common.h`. -/
def MAX_HEAP_SIZE : Nat := 65536

/-- `MAX_BLOCKS` from `heap_common.h`. -/
def MAX_BLOCKS : Nat := 1000

/-- `MAX_LOG_ENTRIES` from `heap_common.h`. -/
def MAX_LOG_ENTRIES : Nat := 1000

/-- `sizeof(size_t)`: the per-block allocation header. -/
def headerSize : Nat := 8

/-- `sizeof(free_block_t)` for heap_2/heap_4: a `size_t` plus one pointer. -/
def freeNodeSize : Nat := 16

/-- `sizeof(free_block_t)` for heap_5: `size_t`, padded `uint8_t`, pointer. -/
def freeNodeSize5 : Nat := 24

/-- `(size + 7) & ~7`: round up to the next multiple of 8 (no wrap in the
modelled regime, see the file header). -/
def align8 (size : Nat) : Nat := (size + 7) / 8 * 8

/-- The zeroed statistics record produced by `memset(&stats, 0, ...)`. -/
def zeroStats : Stats :=
  ⟨0, 0, 0, 0, 0, 0, 0, 0, 0, 0⟩

/-- `common_add_log_with_region` from `heap_common.h`: append one log entry
unless the log is full; stamps and bumps the timestamp counter. -/
def common_add_log_with_region (logs : List LogEntry) (stats : Stats)
    (action : LogAction) (alloc_id size offset : Nat) (success : Bool)
    (region_id flags : Nat) : List LogEntry × Stats :=
  if MAX_LOG_ENTRIES ≤ logs.length then (logs, stats)
  else
    (logs ++ [⟨action, alloc_id, size, offset, stats.timestamp_counter,
               success, region_id, flags⟩],
     { stats with timestamp_counter := stats.timestamp_counter + 1 })

/-- `common_add_log` from `heap_common.h`. -/
def common_add_log (logs : List LogEntry) (stats : Stats) (action : LogAction)
    (alloc_id size offset : Nat) (success : Bool) : List LogEntry × Stats :=
  common_add_log_with_region logs stats action alloc_id size offset success 0 0

/-- Ordering used by `common_sort_blocks`: compare table rows by offset. -/
def blockLE (a b : Block) : Prop := a.offset ≤ b.offset

instance : DecidableRel blockLE := fun a b => Nat.decLe a.offset b.offset

/-- `common_sort_blocks` from `heap_common.h`: sort the table by offset
(see the file header for the tie-order convention). -/
def common_sort_blocks (bs : List Block) : List Block :=
  List.insertionSort blockLE bs

/-- Does this row count as free space (`BLOCK_FREE` or `BLOCK_FREED`)? -/
def isFreeish (b : Block) : Bool :=
  b.state = BlockState.FREE ∨ b.state = BlockState.FREED

/-- `common_update_stats` from `heap_common.h`: recompute every aggregate
field from the block table.  The single C loop is rendered as one filter /
fold per accumulated field; the results coincide. -/
def common_update_stats (bs : List Block) (stats : Stats) : Stats :=
  let allocSizes := (bs.filter fun b => b.state = BlockState.ALLOCATED).map Block.size
  let freeSizes := (bs.filter isFreeish).map Block.size
  let allocated_bytes := allocSizes.sum
  let free_bytes := freeSizes.sum
  let allocation_count := allocSizes.length
  let free_block_count := freeSizes.length
  let largest := freeSizes.foldl max 0
  let smallest0 := freeSizes.foldl min stats.total_size
  let smallest := if free_block_count = 0 then 0 else smallest0
  let min_free := if stats.min_free_bytes = 0 ∨ free_bytes < stats.min_free_bytes
    then free_bytes else stats.min_free_bytes
  { stats with
      allocated_bytes := allocated_bytes
      free_bytes := free_bytes
      allocation_count := allocation_count
      free_block_count := free_block_count
      largest_free_block := largest
      smallest_free_block := smallest
      min_free_bytes := min_free }

/-- The exact rational value of the C `external_fragmentation` formula
`(1.0f - largest/free) * 100.0f` (0 when there is no free space). -/
def extFragQ (free_bytes largest_free_block : Nat) : ℚ :=
  if 0 < free_bytes ∧ 0 < largest_free_block then
    (1 - (largest_free_block : ℚ) / (free_bytes : ℚ)) * 100
  else 0

/-- Read the metadata word stored at `off` (0 if never written). -/
def memRead (mem : List (Nat × Nat)) (off : Nat) : Nat :=
  match mem.find? fun e => e.1 = off with
  | some e => e.2
  | none => 0

/-- Write the metadata word at `off` (newest write shadows older ones). -/
def memWrite (mem : List (Nat × Nat)) (off v : Nat) : List (Nat × Nat) :=
  (off, v) :: mem

/-- The best-fit scan shared (textually duplicated) by heap_2, heap_4 and
heap_5's per-region loop: walk the whole list, remember the qualifying node
of strictly smallest size, hence the first-encountered one on ties.  Returns
the index and the node. -/
def bestFitAux (need : Nat) : List (Nat × Nat) → Nat →
    Option (Nat × (Nat × Nat)) → Option (Nat × (Nat × Nat))
  | [], _, best => best
  | nd :: rest, i, best =>
    let best' :=
      if need ≤ nd.2 ∧ (∀ b ∈ best, nd.2 < b.2.2) then some (i, nd) else best
    bestFitAux need rest (i + 1) best'

instance (need : Nat) (nd : Nat × Nat) (best : Option (Nat × (Nat × Nat))) :
    Decidable (∀ b ∈ best, nd.2 < b.2.2) := by
  cases best with
  | none => exact isTrue (by simp)
  | some b => simpa using (inferInstance : Decidable (nd.2 < b.2.2))

/-- Entry point of the best-fit scan. -/
def best_fit_search (fl : List (Nat × Nat)) (need : Nat) :
    Option (Nat × (Nat × Nat)) :=
  bestFitAux need fl 0 none

end HeapModel

namespace HeapModel.Heap1

/-- The global state of `heap_1.c`: the bump cursor `heap_offset`, the
`allocations` table, the log, and the statistics record. -/
structure H1State where
  heap_offset : Nat
  allocations : List Block
  logs : List LogEntry
  stats : Stats
deriving DecidableEq, Repr

/-- `update_stats` from `heap_1.c` (the bump allocator's own version). -/
def update_stats (s : H1State) : H1State :=
  let st := s.stats
  let allocated_bytes := s.heap_offset
  let free_bytes := st.total_size - s.heap_offset
  let allocation_count :=
    (s.allocations.filter fun b => b.state = BlockState.ALLOCATED).length
  let free_block_count :=
    if s.allocations.any fun b => b.state = BlockState.FREE then 1 else 0
  let largest := if 0 < free_bytes then free_bytes else 0
  let smallest := if 0 < free_bytes then free_bytes else 0
  let min_free := if st.min_free_bytes = 0 ∨ free_bytes < st.min_free_bytes
    then free_bytes else st.min_free_bytes
  { s with stats :=
    { st with
        allocated_bytes := allocated_bytes
        free_bytes := free_bytes
        allocation_count := allocation_count
        free_block_count := free_block_count
        largest_free_block := largest
        smallest_free_block := smallest
        min_free_bytes := min_free } }

/-- `heap_init` from `heap_1.c`. -/
def heap_init (size : Nat) : H1State :=
  let total := if MAX_HEAP_SIZE < size then MAX_HEAP_SIZE else size
  let st0 := { zeroStats with
      total_size := total
      next_allocation_id := 1
      min_free_bytes := total }
  let b0 : Block := ⟨0, total, BlockState.FREE, 0, st0.timestamp_counter, 0, 0⟩
  let st1 := { st0 with timestamp_counter := st0.timestamp_counter + 1 }
  let s := update_stats
    { heap_offset := 0
      allocations := [b0]
      logs := []
      stats := { st1 with free_block_count := 1 } }
  let logs_st2_p := common_add_log s.logs s.stats .INIT 0 size 0 true
  { s with logs := logs_st2_p.1, stats := logs_st2_p.2 }

/-- `heap_malloc` from `heap_1.c`.  Returns the C pointer (as an offset into
`heap_memory`) and the new state. -/
def heap_malloc (s : H1State) (size : Nat) : Option Nat × H1State :=
  let requested_size := size
  let aligned_size := align8 size
  if s.stats.total_size < s.heap_offset + aligned_size then
    let logs_st_p := common_add_log s.logs s.stats .MALLOC
      s.stats.next_allocation_id size 0 false
    (none, { s with logs := logs_st_p.1, stats := logs_st_p.2 })
  else
    let ptr := s.heap_offset
    let free_idx := s.allocations.findIdx? fun b => b.state = BlockState.FREE
    let s1 :=
      match free_idx with
      | some i =>
        if s.allocations.length < MAX_LOG_ENTRIES - 1 then
          let newBlock : Block :=
            ⟨s.heap_offset, aligned_size, BlockState.ALLOCATED,
             s.stats.next_allocation_id, s.stats.timestamp_counter,
             requested_size, 0⟩
          let st1 := { s.stats with
            timestamp_counter := s.stats.timestamp_counter + 1 }
          let withNew := s.allocations ++ [newBlock]
          let newFreeSize := s.stats.total_size - (s.heap_offset + aligned_size)
          let shrunk :=
            match withNew.get? i with
            | some fb => withNew.set i
                { fb with offset := s.heap_offset + aligned_size
                          size := newFreeSize }
            | none => withNew
          let final := if newFreeSize = 0 then shrunk.eraseIdx i else shrunk
          { s with allocations := final, stats := st1 }
        else s
      | none => s
    let logs_st2_p := common_add_log s1.logs s1.stats .MALLOC
      s1.stats.next_allocation_id size s.heap_offset true
    let st3 := { logs_st2_p.2 with next_allocation_id := logs_st2_p.2.next_allocation_id + 1 }
    let s2 := { s1 with
      logs := logs_st2_p.1
      stats := st3
      heap_offset := s.heap_offset + aligned_size }
    (some ptr, update_stats s2)

/-- `heap_free` from `heap_1.c` for a non-NULL pointer `p` (an offset into
`heap_memory`): log a `FREE` entry and change nothing else. -/
def heap_free (s : H1State) (p : Nat) : H1State :=
  let logs_st_p := common_add_log s.logs s.stats .FREE 0 0 p false
  { s with logs := logs_st_p.1, stats := logs_st_p.2 }

end HeapModel.Heap1

namespace HeapModel.Heap2

/-- The global state of the best-fit allocator (source file `part_000`,
"heap_2"): metadata words of `heap_memory`, the `blocks` table, the log, the
statistics, and the free list threaded through the buffer. -/
structure H2State where
  heap_memory : List (Nat × Nat)
  blocks : List Block
  logs : List LogEntry
  stats : Stats
  free_list : List (Nat × Nat)
deriving DecidableEq, Repr

/-- `heap_init` from `part_000`. -/
def heap_init (size : Nat) : H2State :=
  let total := if MAX_HEAP_SIZE < size then MAX_HEAP_SIZE else size
  let st0 := { zeroStats with
      total_size := total
      next_allocation_id := 1
      min_free_bytes := total }
  let b0 : Block := ⟨0, total, BlockState.FREE, 0, st0.timestamp_counter, 0, 0⟩
  let st1 := { st0 with timestamp_counter := st0.timestamp_counter + 1 }
  let blocks := [b0]
  let st2 := common_update_stats blocks st1
  let logs_st3_p := common_add_log [] st2 .INIT 0 size 0 true
  { heap_memory := memWrite [] 0 total
    blocks := blocks
    logs := logs_st3_p.1
    stats := logs_st3_p.2
    free_list := [(0, total)] }

/-- `heap_malloc` from `part_000`: best-fit search over the whole free list,
split when the remainder is worth keeping, mark the table row, log, sort,
recompute statistics. -/
def heap_malloc (s : H2State) (size : Nat) : Option Nat × H2State :=
  let requested_size := size
  let aligned_size := align8 size
  let total_size := aligned_size + headerSize
  match best_fit_search s.free_list total_size with
  | none =>
    let logs_st_p := common_add_log s.logs s.stats .MALLOC
      s.stats.next_allocation_id size 0 false
    (none, { s with logs := logs_st_p.1, stats := logs_st_p.2 })
  | some (i, nd) =>
    let off := nd.1
    let s1 : H2State := { s with
      free_list := s.free_list.eraseIdx i
      heap_memory := memWrite s.heap_memory off aligned_size }
    let s2 :=
      match s1.blocks.findIdx? fun b =>
          decide (b.offset = off) && isFreeish b with
      | none => s1
      | some j =>
        match s1.blocks.get? j with
        | none => s1
        | some b =>
          let sMid : H2State :=
            if total_size + freeNodeSize + 16 < b.size then
              if s1.blocks.length < MAX_BLOCKS then
                let rem : Block := ⟨off + total_size, b.size - total_size,
                  b.state, 0, s1.stats.timestamp_counter, 0, 0⟩
                { s1 with
                    blocks := s1.blocks ++ [rem]
                    stats := { s1.stats with
                      timestamp_counter := s1.stats.timestamp_counter + 1 }
                    free_list := (off + total_size, b.size - total_size) ::
                      s1.free_list
                    heap_memory := memWrite s1.heap_memory (off + total_size)
                      (b.size - total_size) }
              else s1
            else s1
          let marked : Block := { b with
              size := if total_size + freeNodeSize + 16 < b.size ∧
                  s1.blocks.length < MAX_BLOCKS then total_size else b.size
              state := BlockState.ALLOCATED
              allocation_id := sMid.stats.next_allocation_id
              timestamp := sMid.stats.timestamp_counter
              requested_size := requested_size }
          { sMid with
              blocks := sMid.blocks.set j marked
              stats := { sMid.stats with
                timestamp_counter := sMid.stats.timestamp_counter + 1 } }
    let logs_st_p := common_add_log s2.logs s2.stats .MALLOC
      s2.stats.next_allocation_id size off true
    let st2 := { logs_st_p.2 with next_allocation_id := logs_st_p.2.next_allocation_id + 1 }
    let sorted := common_sort_blocks s2.blocks
    (some (off + headerSize),
     { s2 with
        blocks := sorted
        logs := logs_st_p.1
        stats := common_update_stats sorted st2 })

/-- `heap_free` from `part_000` for a non-NULL pointer `p`: recover the block
start and size from the embedded header, mark the matching allocated row
`FREED`, push the span on the free list (no coalescing), log, sort,
recompute statistics. -/
def heap_free (s : H2State) (p : Nat) : H2State :=
  let block_start := p - headerSize
  let user_size := memRead s.heap_memory block_start
  let total_size := user_size + headerSize
  let blocks1_alloc_id_p :=
    match s.blocks.findIdx? fun b =>
        decide (b.offset = block_start) &&
        decide (b.state = BlockState.ALLOCATED) with
    | none => (s.blocks, 0)
    | some j =>
      match s.blocks.get? j with
      | none => (s.blocks, 0)
      | some b =>
        (s.blocks.set j { b with
            state := BlockState.FREED
            allocation_id := 0
            requested_size := 0 },
         b.allocation_id)
  let logs_st_p := common_add_log s.logs s.stats .FREE
    blocks1_alloc_id_p.2 0 block_start true
  let blocks2 := common_sort_blocks blocks1_alloc_id_p.1
  { s with
      blocks := blocks2
      free_list := (block_start, total_size) :: s.free_list
      heap_memory := memWrite s.heap_memory block_start total_size
      logs := logs_st_p.1
      stats := common_update_stats blocks2 logs_st_p.2 }

end HeapModel.Heap2

namespace HeapModel.Heap4

/-- The global state of the coalescing allocator (source file `part_001`,
"heap_4"): the heap_2 state plus the `coalesce_pending` flag. -/
structure H4State where
  heap_memory : List (Nat × Nat)
  blocks : List Block
  logs : List LogEntry
  stats : Stats
  free_list : List (Nat × Nat)
  coalesce_pending : Bool
deriving DecidableEq, Repr

/-- The `update_stats()` macro of `part_001` (`common_update_stats`). -/
def update_stats (s : H4State) : H4State :=
  { s with stats := common_update_stats s.blocks s.stats }

/-- The body of `full_coalesce`'s left-to-right sweep in `part_001`: walk the
sorted table; each row copied to the write cursor has `FREED` converted to
`FREE`; while the current row is `FREE` and the next row is free space
physically adjacent to it, absorb the next row.  The first component is the
compacted table, the second the number of merges performed
(`coalesce_count`). -/
def sweepGo : Option Block → List Block → List Block × Nat
  | none, [] => ([], 0)
  | some acc, [] => ([acc], 0)
  | none, b :: rest =>
    let b0 := if b.state = BlockState.FREED then
      { b with state := BlockState.FREE, allocation_id := 0 } else b
    sweepGo (some b0) rest
  | some acc, c :: rest =>
    if acc.state = BlockState.FREE ∧ isFreeish c ∧
        acc.offset + acc.size = c.offset then
      let r := sweepGo (some { acc with
        size := acc.size + c.size
        state := BlockState.FREE
        allocation_id := 0 }) rest
      (r.1, r.2 + 1)
    else
      let c0 := if c.state = BlockState.FREED then
        { c with state := BlockState.FREE, allocation_id := 0 } else c
      let r := sweepGo (some c0) rest
      (acc :: r.1, r.2)

/-- `full_coalesce` from `part_001`: sort, sweep-merge every adjacent free
run, log `FULL_COALESCE` when at least one merge happened, rebuild the free
list from the `FREE` rows (pushed in table order, so the head is the last
one), clear `coalesce_pending`. -/
def full_coalesce (s : H4State) : H4State :=
  let bs := common_sort_blocks s.blocks
  let swept := sweepGo none bs
  let st1 := { s.stats with
    free_block_count := s.stats.free_block_count - swept.2 }
  let logs_st2_p :=
    if 0 < swept.2 then
      common_add_log s.logs st1 .FULL_COALESCE 0 swept.2 0 true
    else (s.logs, st1)
  let fl := swept.1.foldl (fun acc b =>
    if b.state = BlockState.FREE then (b.offset, b.size) :: acc else acc) []
  let mem := swept.1.foldl (fun m b =>
    if b.state = BlockState.FREE then memWrite m b.offset b.size else m)
    s.heap_memory
  { s with
      blocks := swept.1
      logs := logs_st2_p.1
      stats := logs_st2_p.2
      free_list := fl
      heap_memory := mem
      coalesce_pending := false }

/-- The left-neighbor phase of `part_001`'s `immediate_neighbor_coalesce`:
if the row before `idx` is free space physically contiguous with row `idx`,
absorb row `idx` into it.  Returns the table, the index now holding the freed
span, the statistics, and whether a merge happened. -/
def coalesceLeft (bs : List Block) (idx : Nat) (st : Stats) :
    List Block × Nat × Stats × Bool :=
  if 0 < idx then
    match bs.get? (idx - 1), bs.get? idx with
    | some l, some cur =>
      if isFreeish l && decide (l.offset + l.size = cur.offset) then
        ((bs.set (idx - 1)
            { l with size := l.size + cur.size
                     state := BlockState.FREE }).eraseIdx idx,
         idx - 1,
         { st with free_block_count := st.free_block_count - 1 },
         true)
      else (bs, idx, st, false)
    | _, _ => (bs, idx, st, false)
  else (bs, idx, st, false)

/-- The right-neighbor phase of `part_001`'s `immediate_neighbor_coalesce`:
if the row after `idx1` is free space physically contiguous with row `idx1`,
absorb it.  Returns the table, the statistics, and whether a merge
happened. -/
def coalesceRight (bs1 : List Block) (idx1 : Nat) (st1 : Stats) :
    List Block × Stats × Bool :=
  if idx1 + 1 < bs1.length then
    match bs1.get? idx1, bs1.get? (idx1 + 1) with
    | some cur, some r =>
      if isFreeish r && decide (cur.offset + cur.size = r.offset) then
        ((bs1.set idx1
            { cur with size := cur.size + r.size
                       state := BlockState.FREE }).eraseIdx (idx1 + 1),
         { st1 with free_block_count := st1.free_block_count - 1 },
         true)
      else (bs1, st1, false)
    | _, _ => (bs1, st1, false)
  else (bs1, st1, false)

/-- `immediate_neighbor_coalesce` from `part_001`: sort, locate the freed
row, merge the physically adjacent left neighbor if it is free space, then
likewise the right neighbor, and log one `COALESCE` entry if anything
merged. -/
def immediate_neighbor_coalesce (s : H4State) (freed_offset : Nat) :
    H4State :=
  let bs := common_sort_blocks s.blocks
  match bs.findIdx? fun b => decide (b.offset = freed_offset) with
  | none => { s with blocks := bs }
  | some idx =>
    let leftStep := coalesceLeft bs idx s.stats
    let bs1 := leftStep.1
    let idx1 := leftStep.2.1
    let st1 := leftStep.2.2.1
    let co1 := leftStep.2.2.2
    let rightStep := coalesceRight bs1 idx1 st1
    let s1 := { s with blocks := rightStep.1, stats := rightStep.2.1 }
    if co1 || rightStep.2.2 then
      let logs_st_p := common_add_log s1.logs s1.stats .COALESCE 0 0
        freed_offset true
      { s1 with logs := logs_st_p.1, stats := logs_st_p.2 }
    else s1

/-- `heap_init` from `part_001`. -/
def heap_init (size : Nat) : H4State :=
  let total := if MAX_HEAP_SIZE < size then MAX_HEAP_SIZE else size
  let st0 := { zeroStats with
      total_size := total
      next_allocation_id := 1
      min_free_bytes := total }
  let b0 : Block := ⟨0, total, BlockState.FREE, 0, st0.timestamp_counter, 0, 0⟩
  let st1 := { st0 with
    timestamp_counter := st0.timestamp_counter + 1
    free_block_count := 1 }
  let blocks := [b0]
  let st2 := common_update_stats blocks st1
  let logs_st3_p := common_add_log [] st2 .INIT 0 size 0 true
  { heap_memory := memWrite [] 0 total
    blocks := blocks
    logs := logs_st3_p.1
    stats := logs_st3_p.2
    free_list := [(0, total)]
    coalesce_pending := false }

/-- The part of `part_001`'s `heap_malloc` that runs after a span has been
selected (`*best_prev = best_fit->next` onward): remove the node, write the
allocation header, split or consume the matching table row, log, bump the
allocation id, sort and recompute statistics. -/
def heap4_alloc_with (s1 : H4State) (i : Nat) (nd : Nat × Nat) (size : Nat) :
    Option Nat × H4State :=
  let requested_size := size
  let aligned_size := align8 size
  let total_size := aligned_size + headerSize
  let off := nd.1
  let sA := { s1 with
    free_list := s1.free_list.eraseIdx i
    heap_memory := memWrite s1.heap_memory off aligned_size }
  let sB :=
    match sA.blocks.findIdx? fun b =>
        decide (b.offset = off) && isFreeish b with
    | none => sA
    | some j =>
      match sA.blocks.get? j with
      | none => sA
      | some b =>
        let sMid :=
          if total_size + freeNodeSize + 16 < b.size then
            if sA.blocks.length < MAX_BLOCKS then
              { sA with
                  blocks := sA.blocks ++ [(⟨off + total_size,
                    b.size - total_size, b.state, 0,
                    sA.stats.timestamp_counter, 0, 0⟩ : Block)]
                  stats := { sA.stats with
                    timestamp_counter := sA.stats.timestamp_counter + 1 }
                  free_list := (off + total_size, b.size - total_size) ::
                    sA.free_list
                  heap_memory := memWrite sA.heap_memory (off + total_size)
                    (b.size - total_size) }
            else sA
          else { sA with stats := { sA.stats with
            free_block_count := sA.stats.free_block_count - 1 } }
        let marked := { b with
            size := if total_size + freeNodeSize + 16 < b.size ∧
                sA.blocks.length < MAX_BLOCKS then total_size else b.size
            state := BlockState.ALLOCATED
            allocation_id := sMid.stats.next_allocation_id
            timestamp := sMid.stats.timestamp_counter
            requested_size := requested_size }
        { sMid with
            blocks := sMid.blocks.set j marked
            stats := { sMid.stats with
              timestamp_counter := sMid.stats.timestamp_counter + 1 } }
  let logs_st_p := common_add_log sB.logs sB.stats .MALLOC
    sB.stats.next_allocation_id size off true
  let st2 := { logs_st_p.2 with next_allocation_id := logs_st_p.2.next_allocation_id + 1 }
  let sorted := common_sort_blocks sB.blocks
  (some (off + headerSize),
   { sB with
      blocks := sorted
      logs := logs_st_p.1
      stats := common_update_stats sorted st2 })

/-- The opening phase of `part_001`'s `heap_malloc`: recompute statistics
(`update_stats()`), and when a coalesce is pending with external
fragmentation above `FRAGMENTATION_THRESHOLD = 30`, run the full coalesce
and recompute again.  The first best-fit search runs on this state. -/
def searchState (s : H4State) : H4State :=
  let s0 := update_stats s
  if s0.coalesce_pending &&
      decide ((30 : ℚ) < extFragQ s0.stats.free_bytes
        s0.stats.largest_free_block) then
    update_stats (full_coalesce s0)
  else s0

/-- `heap_malloc` from `part_001`: recompute statistics; if a coalesce is
pending and external fragmentation exceeds the 30% threshold, run the full
coalesce first; best-fit search; if it fails while a coalesce is pending,
force a full coalesce and search once more; then allocate or log failure. -/
def heap_malloc (s : H4State) (size : Nat) : Option Nat × H4State :=
  let total_size := align8 size + headerSize
  let s1 := searchState s
  match best_fit_search s1.free_list total_size with
  | some (i, nd) => heap4_alloc_with s1 i nd size
  | none =>
    if s1.coalesce_pending then
      let s2 := full_coalesce s1
      match best_fit_search s2.free_list total_size with
      | some (i, nd) => heap4_alloc_with s2 i nd size
      | none =>
        let logs_st_p := common_add_log s2.logs s2.stats .MALLOC
          s2.stats.next_allocation_id size 0 false
        (none, { s2 with logs := logs_st_p.1, stats := logs_st_p.2 })
    else
      let logs_st_p := common_add_log s1.logs s1.stats .MALLOC
        s1.stats.next_allocation_id size 0 false
      (none, { s1 with logs := logs_st_p.1, stats := logs_st_p.2 })

/-- `heap_free` from `part_001` for a non-NULL pointer `p`: recover the span
from the header, mark the allocated row `FREED`, push the span on the free
list, run the immediate-neighbor coalesce, set `coalesce_pending`, log,
sort, recompute statistics. -/
def heap_free (s : H4State) (p : Nat) : H4State :=
  let block_start := p - headerSize
  let user_size := memRead s.heap_memory block_start
  let total_size := user_size + headerSize
  let (blocks1, alloc_id, st0) :=
    match s.blocks.findIdx? fun b =>
        decide (b.offset = block_start) &&
        decide (b.state = BlockState.ALLOCATED) with
    | none => (s.blocks, 0, s.stats)
    | some j =>
      match s.blocks.get? j with
      | none => (s.blocks, 0, s.stats)
      | some b =>
        (s.blocks.set j { b with
            state := BlockState.FREED
            allocation_id := 0
            requested_size := 0 },
         b.allocation_id,
         { s.stats with
            free_block_count := s.stats.free_block_count + 1 })
  let sMark : H4State := { s with
    blocks := blocks1
    stats := st0
    free_list := (block_start, total_size) :: s.free_list
    heap_memory := memWrite s.heap_memory block_start total_size }
  let sCo := immediate_neighbor_coalesce sMark block_start
  let sPend := { sCo with coalesce_pending := true }
  let logs_st_p := common_add_log sPend.logs sPend.stats .FREE alloc_id 0
    block_start true
  let blocks2 := common_sort_blocks sPend.blocks
  { sPend with
      blocks := blocks2
      logs := logs_st_p.1
      stats := common_update_stats blocks2 logs_st_p.2 }

end HeapModel.Heap4

namespace HeapModel.Heap3

/-- The bookkeeping state of the thread-safe passthrough allocator
(`heap_3.c`) that its `heap_init` touches: the shadow `blocks` table, the
log and the statistics.  The host-allocator delegation and the tracking list
play no role in the claims settled here. -/
structure H3State where
  blocks : List Block
  logs : List LogEntry
  stats : Stats
deriving DecidableEq, Repr

/-- `heap_init` from `heap_3.c`.  Note: unlike the buffer-based variants it
does not clamp `size` to `MAX_HEAP_SIZE`. -/
def heap_init (size : Nat) : H3State :=
  let st0 := { zeroStats with
      total_size := size
      next_allocation_id := 1
      min_free_bytes := size }
  let b0 : Block := ⟨0, size, BlockState.FREE, 0, st0.timestamp_counter, 0, 0⟩
  let st1 := { st0 with
    timestamp_counter := st0.timestamp_counter + 1
    free_block_count := 1
    free_bytes := size }
  let blocks := [b0]
  let st2 := common_update_stats blocks st1
  let logs_st3_p := common_add_log [] st2 .INIT 0 size 0 true
  { blocks := blocks, logs := logs_st3_p.1, stats := logs_st3_p.2 }

/-- One node of heap_3's host-allocation tracking list
(`allocation_node_t`); the host pointer is rendered as a number. -/
structure H3Node where
  ptr : Nat
  size : Nat
  requested_size : Nat
  id : Nat
  timestamp : Nat
deriving DecidableEq, Repr

/-- heap_3's full mutable state: the shadow bookkeeping (`blocks`, `logs`,
`stats`) plus the host-allocation tracking list (`allocation_list`). -/
structure H3Full where
  core : H3State
  allocation_list : List H3Node
deriving DecidableEq, Repr

/-- `heap_init` from `heap_3.c` including the cleared tracking list. -/
def heap_init_full (size : Nat) : H3Full :=
  ⟨heap_init size, []⟩

/-- `heap_malloc` from `heap_3.c`: the call delegates to the host
allocator — modelled by the oracle `ptr` (the host result, `none` = host
failure) and `nodeOk` (whether the tracking-node allocation succeeded) —
and mirrors a successful allocation into the shadow table: the first
`FREE` row with at least `align8(size)` bytes is re-tagged `ALLOCATED` at
the aligned size (when the table is below capacity), a remainder `FREE`
row is appended when more than `align8(size) + 64` bytes were available
and the table can still grow; the call is logged (offset = the low 16
pointer bits), the table sorted and the statistics recomputed. -/
def heap_malloc (s : H3Full) (ptr : Option Nat) (nodeOk : Bool)
    (size : Nat) : H3Full :=
  let aligned := align8 size
  match ptr with
  | none =>
    let logs_st_p := common_add_log s.core.logs s.core.stats .MALLOC
      s.core.stats.next_allocation_id size 0 false
    let blocks2 := common_sort_blocks s.core.blocks
    ⟨{ blocks := blocks2
       logs := logs_st_p.1
       stats := common_update_stats blocks2 logs_st_p.2 },
     s.allocation_list⟩
  | some pv =>
    let id := s.core.stats.next_allocation_id
    let st0 := { s.core.stats with next_allocation_id := id + 1 }
    let alist_st1 :=
      if nodeOk then
        ((⟨pv, aligned, size, id, st0.timestamp_counter⟩ : H3Node) ::
          s.allocation_list,
         { st0 with timestamp_counter := st0.timestamp_counter + 1 })
      else (s.allocation_list, st0)
    let alist := alist_st1.1
    let st1 := alist_st1.2
    let blocks1_st2 :=
      match s.core.blocks.findIdx? fun b =>
          decide (b.state = BlockState.FREE) &&
          decide (aligned ≤ b.size) with
      | none => (s.core.blocks, st1)
      | some i =>
        if s.core.blocks.length < MAX_BLOCKS then
          match s.core.blocks.get? i with
          | none => (s.core.blocks, st1)
          | some b =>
            let bsA := s.core.blocks.set i { b with
              size := aligned
              state := BlockState.ALLOCATED
              allocation_id := id
              timestamp := st1.timestamp_counter
              requested_size := size }
            let stA := { st1 with
              timestamp_counter := st1.timestamp_counter + 1 }
            if aligned + 64 < b.size ∧
                s.core.blocks.length < MAX_BLOCKS - 1 then
              (bsA ++ [(⟨b.offset + aligned, b.size - aligned,
                 BlockState.FREE, 0, stA.timestamp_counter, 0, 0⟩ : Block)],
               { stA with
                 timestamp_counter := stA.timestamp_counter + 1 })
            else (bsA, stA)
        else (s.core.blocks, st1)
    let logs_st_p := common_add_log s.core.logs blocks1_st2.2 .MALLOC id
      size (pv % 65536) true
    let blocks2 := common_sort_blocks blocks1_st2.1
    ⟨{ blocks := blocks2
       logs := logs_st_p.1
       stats := common_update_stats blocks2 logs_st_p.2 },
     alist⟩

/-- `heap_free` from `heap_3.c` for a non-NULL host pointer: look the
pointer up in the tracking list; when found, re-tag the first matching
`ALLOCATED` shadow row `FREED` and drop the node; the call is logged
(success, offset = the low 16 pointer bits) and the statistics
recomputed (heap_3's free does not sort). -/
def heap_free (s : H3Full) (ptr : Nat) : H3Full :=
  match s.allocation_list.find? fun nd2 => decide (nd2.ptr = ptr) with
  | none =>
    let logs_st_p := common_add_log s.core.logs s.core.stats .FREE 0 0
      (ptr % 65536) true
    ⟨{ blocks := s.core.blocks
       logs := logs_st_p.1
       stats := common_update_stats s.core.blocks logs_st_p.2 },
     s.allocation_list⟩
  | some node =>
    let blocks1_st1 :=
      match s.core.blocks.findIdx? fun b =>
          decide (b.allocation_id = node.id) &&
          decide (b.state = BlockState.ALLOCATED) with
      | none => (s.core.blocks, s.core.stats)
      | some i =>
        match s.core.blocks.get? i with
        | none => (s.core.blocks, s.core.stats)
        | some b =>
          (s.core.blocks.set i { b with
              state := BlockState.FREED
              allocation_id := 0
              requested_size := 0 },
           { s.core.stats with
              free_block_count := s.core.stats.free_block_count + 1 })
    let alist := s.allocation_list.eraseP fun nd2 => decide (nd2.ptr = ptr)
    let logs_st_p := common_add_log s.core.logs blocks1_st1.2 .FREE
      node.id 0 (ptr % 65536) true
    ⟨{ blocks := blocks1_st1.1
       logs := logs_st_p.1
       stats := common_update_stats blocks1_st1.1 logs_st_p.2 },
     alist⟩

end HeapModel.Heap3

namespace HeapModel.Heap5

/-- `REGION_0_SIZE`, `REGION_1_SIZE`, `REGION_2_SIZE` from `heap_5.c`
(software-simulation mode, `USE_PHYSICAL_MEM = 0`). -/
def region_sizes : List Nat := [10240, 13312, 9216]

/-- The capability flag of each region, from `region_configs`:
`FAST = 0x01`, `DMA = 0x02`, `UNCACHED = 0x04`. -/
def region_flags : List Nat := [1, 2, 4]

/-- `region_count` in software-simulation mode. -/
def region_count : Nat := 3

/-- Capacity of region `r`. -/
def regionSize (r : Nat) : Nat := region_sizes.getD r 0

/-- Capability mask of region `r` (`get_region_flags`). -/
def regionFlags (r : Nat) : Nat := region_flags.getD r 0

/-- The per-region statistics fields of `heap_region_t` (fragmentation
floats modelled per the file header). -/
structure RegionStats where
  allocated_bytes : Nat
  free_bytes : Nat
  allocation_count : Nat
  free_block_count : Nat
  largest_free_block : Nat
  smallest_free_block : Nat
  min_free_bytes : Nat
deriving DecidableEq, Repr

instance : Inhabited RegionStats := ⟨⟨0, 0, 0, 0, 0, 0, 0⟩⟩

/-- The global state of the multi-region allocator (`heap_5.c`): the shared
block table (with region-local offsets), log, global statistics, per-region
statistics, one free list per region, the metadata words of the three
region buffers keyed by `(region, local offset)`, and the pending flag. -/
structure H5State where
  blocks : List Block
  logs : List LogEntry
  stats : Stats
  regions : List RegionStats
  free_lists : List (List (Nat × Nat))
  heap_memory : List ((Nat × Nat) × Nat)
  coalesce_pending : Bool
deriving DecidableEq, Repr

/-- Read the metadata word at `(region, local offset)` (0 if never
written). -/
def mem5Read (mem : List ((Nat × Nat) × Nat)) (k : Nat × Nat) : Nat :=
  match mem.find? fun e => e.1 = k with
  | some e => e.2
  | none => 0

/-- Write the metadata word at `(region, local offset)`. -/
def mem5Write (mem : List ((Nat × Nat) × Nat)) (k : Nat × Nat) (v : Nat) :
    List ((Nat × Nat) × Nat) :=
  (k, v) :: mem

/-- `update_region_stats` from `heap_5.c`: recompute one region's statistics
from the rows of the shared table carrying its `region_id`. -/
def update_region_stats (bs : List Block) (r : Nat) (prev : RegionStats) :
    RegionStats :=
  let mine := bs.filter fun b => b.region_id = r
  let allocSizes :=
    (mine.filter fun b => b.state = BlockState.ALLOCATED).map Block.size
  let freeSizes := (mine.filter isFreeish).map Block.size
  let free_bytes := freeSizes.sum
  let largest := freeSizes.foldl max 0
  let smallest0 := freeSizes.foldl min (regionSize r)
  let smallest := if freeSizes.length = 0 then 0 else smallest0
  let min_free :=
    if prev.min_free_bytes = 0 ∨ free_bytes < prev.min_free_bytes
    then free_bytes else prev.min_free_bytes
  ⟨allocSizes.sum, free_bytes, allocSizes.length, freeSizes.length,
   largest, smallest, min_free⟩

/-- `update_global_stats` from `heap_5.c`: refresh every region's statistics
and aggregate them (sums for byte/counts, max for the largest free block,
min over regions that have free blocks for the smallest). -/
def update_global_stats (s : H5State) : H5State :=
  let regions' := (List.range region_count).map fun r =>
    update_region_stats s.blocks r (s.regions.getD r default)
  let allocated := (regions'.map RegionStats.allocated_bytes).sum
  let free := (regions'.map RegionStats.free_bytes).sum
  let acount := (regions'.map RegionStats.allocation_count).sum
  let fcount := (regions'.map RegionStats.free_block_count).sum
  let largest := (regions'.map RegionStats.largest_free_block).foldl max 0
  let smallest0 := regions'.foldl (fun acc rg =>
    if rg.smallest_free_block < acc ∧ 0 < rg.free_block_count
    then rg.smallest_free_block else acc) s.stats.total_size
  let smallest := if fcount = 0 then 0 else smallest0
  let min_free :=
    if s.stats.min_free_bytes = 0 ∨ free < s.stats.min_free_bytes
    then free else s.stats.min_free_bytes
  { s with
      regions := regions'
      stats := { s.stats with
        allocated_bytes := allocated
        free_bytes := free
        allocation_count := acount
        free_block_count := fcount
        largest_free_block := largest
        smallest_free_block := smallest
        min_free_bytes := min_free } }

/-- `heap_define_regions` plus the enclosing `heap_init` from `heap_5.c`
(first initialisation of a fresh instance; the requested `size` argument is
ignored — the total is the sum of the three fixed region sizes). -/
def heap_init (size : Nat) : H5State :=
  let _ := size
  let defined := (List.range region_count).foldl
    (fun (acc : List Block × List RegionStats × List (List (Nat × Nat)) ×
        List ((Nat × Nat) × Nat) × Nat) r =>
      let sz := regionSize r
      let b : Block := ⟨0, sz, BlockState.FREE, 0, acc.2.2.2.2, 0, r⟩
      (acc.1 ++ [b],
       acc.2.1 ++ [⟨0, sz, 0, 1, sz, sz, sz⟩],
       acc.2.2.1 ++ [[(0, sz)]],
       mem5Write acc.2.2.2.1 (r, 0) sz,
       acc.2.2.2.2 + 1))
    ([], [], [], [], 0)
  let total := region_sizes.sum
  let st0 := { zeroStats with
      timestamp_counter := defined.2.2.2.2
      total_size := total
      next_allocation_id := 1
      min_free_bytes := total }
  let s0 : H5State :=
    { blocks := defined.1
      logs := []
      stats := st0
      regions := defined.2.1
      free_lists := defined.2.2.1
      heap_memory := defined.2.2.2.1
      coalesce_pending := false }
  let s1 := update_global_stats s0
  let logs_st_p := common_add_log_with_region s1.logs s1.stats .INIT 0
    s1.stats.total_size 0 true 0 0
  { s1 with logs := logs_st_p.1, stats := logs_st_p.2 }

/-- The per-region best-fit scan inside `heap_malloc_flags`: walk one
region's free list carrying the globally best candidate so far
(`(region, index, node)`); a node replaces the candidate only when strictly
smaller, so the first-encountered one wins ties. -/
def scanRegion (need r : Nat) : List (Nat × Nat) → Nat →
    Option (Nat × Nat × (Nat × Nat)) → Option (Nat × Nat × (Nat × Nat))
  | [], _, best => best
  | nd :: rest, i, best =>
    let better : Bool :=
      match best with
      | none => true
      | some b => decide (nd.2 < b.2.2.2)
    let best' := if decide (need ≤ nd.2) && better then some (r, i, nd)
      else best
    scanRegion need r rest (i + 1) best'

/-- The region loop of `heap_malloc_flags`: regions are visited in index
order; a nonzero `flags` restricts the search to regions whose capability
mask shares at least one bit with it (`regions[r].flags & flags`). -/
def heap5_search (fls : List (List (Nat × Nat))) (flags need : Nat) :
    Option (Nat × Nat × (Nat × Nat)) :=
  (List.range region_count).foldl
    (fun best r =>
      if flags ≠ 0 ∧ regionFlags r &&& flags = 0 then best
      else scanRegion need r (fls.getD r []) 0 best)
    none

/-- `heap_malloc_flags` from `heap_5.c`.  Returns the user pointer as
`(region, local offset)`.  The split threshold uses heap_5's larger
`free_block_t` (24 bytes). -/
def heap_malloc_flags (s : H5State) (size flags : Nat) :
    Option (Nat × Nat) × H5State :=
  let requested_size := size
  let aligned_size := align8 size
  let total_size := aligned_size + headerSize
  match heap5_search s.free_lists flags total_size with
  | none =>
    let logs_st_p := common_add_log_with_region s.logs s.stats .MALLOC
      s.stats.next_allocation_id size 0 false 255 flags
    (none, { s with logs := logs_st_p.1, stats := logs_st_p.2 })
  | some (r, i, nd) =>
    let off := nd.1
    let sA := { s with
      free_lists := s.free_lists.set r ((s.free_lists.getD r []).eraseIdx i)
      heap_memory := mem5Write s.heap_memory (r, off) aligned_size }
    let sB :=
      match sA.blocks.findIdx? fun b =>
          decide (b.region_id = r) && decide (b.offset = off) &&
          isFreeish b with
      | none => sA
      | some j =>
        match sA.blocks.get? j with
        | none => sA
        | some b =>
          let canSplit := total_size + freeNodeSize5 + 16 < b.size ∧
            sA.blocks.length < MAX_BLOCKS
          let sMid :=
            if canSplit then
              { sA with
                  blocks := sA.blocks ++ [(⟨off + total_size,
                    b.size - total_size, b.state, 0,
                    sA.stats.timestamp_counter, 0, r⟩ : Block)]
                  stats := { sA.stats with
                    timestamp_counter := sA.stats.timestamp_counter + 1 }
                  free_lists := sA.free_lists.set r
                    ((off + total_size, b.size - total_size) ::
                      sA.free_lists.getD r [])
                  heap_memory := mem5Write sA.heap_memory
                    (r, off + total_size) (b.size - total_size) }
            else sA
          let marked := { b with
              size := if canSplit then total_size else b.size
              state := BlockState.ALLOCATED
              allocation_id := sMid.stats.next_allocation_id
              timestamp := sMid.stats.timestamp_counter
              requested_size := requested_size }
          { sMid with
              blocks := sMid.blocks.set j marked
              stats := { sMid.stats with
                timestamp_counter := sMid.stats.timestamp_counter + 1 } }
    let logs_st_p := common_add_log_with_region sB.logs sB.stats .MALLOC
      sB.stats.next_allocation_id size off true r flags
    let st2 := { logs_st_p.2 with next_allocation_id := logs_st_p.2.next_allocation_id + 1 }
    let sorted := common_sort_blocks sB.blocks
    (some (r, off + headerSize),
     update_global_stats { sB with
        blocks := sorted
        logs := logs_st_p.1
        stats := st2 })

/-- `heap_malloc` from `heap_5.c`: `heap_malloc_flags(size, 0)`. -/
def heap_malloc (s : H5State) (size : Nat) : Option (Nat × Nat) × H5State :=
  heap_malloc_flags s size 0

/-- The left-neighbor phase of `heap_5.c`'s `immediate_neighbor_coalesce`:
as heap_4's, but the neighbor must also carry the freed block's
`region_id`, and the global `free_block_count` is not touched.  Returns
the table, the index now holding the freed span, and whether a merge
happened. -/
def coalesceLeft (bs : List Block) (idx region_id : Nat) :
    List Block × Nat × Bool :=
  if 0 < idx then
    match bs.get? (idx - 1), bs.get? idx with
    | some l, some cur =>
      if decide (l.region_id = region_id) && isFreeish l &&
          decide (l.offset + l.size = cur.offset) then
        ((bs.set (idx - 1)
            { l with size := l.size + cur.size
                     state := BlockState.FREE }).eraseIdx idx,
         idx - 1, true)
      else (bs, idx, false)
    | _, _ => (bs, idx, false)
  else (bs, idx, false)

/-- The right-neighbor phase of `heap_5.c`'s `immediate_neighbor_coalesce`:
as heap_4's, but the neighbor must also carry the freed block's
`region_id`. -/
def coalesceRight (bs1 : List Block) (idx1 region_id : Nat) :
    List Block × Bool :=
  if idx1 + 1 < bs1.length then
    match bs1.get? idx1, bs1.get? (idx1 + 1) with
    | some cur, some rb =>
      if decide (rb.region_id = region_id) && isFreeish rb &&
          decide (cur.offset + cur.size = rb.offset) then
        ((bs1.set idx1
            { cur with size := cur.size + rb.size
                       state := BlockState.FREE }).eraseIdx (idx1 + 1),
         true)
      else (bs1, false)
    | _, _ => (bs1, false)
  else (bs1, false)

/-- `immediate_neighbor_coalesce` from `heap_5.c`: as heap_4's, but a
neighbor merges only when it carries the same `region_id`, and the global
`free_block_count` is not touched. -/
def immediate_neighbor_coalesce (s : H5State) (local_offset region_id : Nat) :
    H5State :=
  let bs := common_sort_blocks s.blocks
  match bs.findIdx? fun b =>
      decide (b.offset = local_offset) && decide (b.region_id = region_id)
      with
  | none => { s with blocks := bs }
  | some idx =>
    let leftStep := coalesceLeft bs idx region_id
    let bs1 := leftStep.1
    let idx1 := leftStep.2.1
    let rightStep := coalesceRight bs1 idx1 region_id
    let s1 := { s with blocks := rightStep.1 }
    if leftStep.2.2 || rightStep.2 then
      let logs_st_p := common_add_log_with_region s1.logs s1.stats .COALESCE
        0 0 local_offset true 0 0
      { s1 with logs := logs_st_p.1, stats := logs_st_p.2 }
    else s1

/-- `heap_free` from `heap_5.c` for a non-NULL pointer `p = (region array,
local user offset)`: recover the span from the header, identify the owning
region (`get_region_for_ptr`), mark the allocated row `FREED`, push the span
on that region's free list, run the per-region immediate-neighbor coalesce,
set `coalesce_pending`, log, sort, refresh statistics.  (For a pointer whose
local offset lies outside its own array the C scans would fall back to
region 0 with unspecified pointer arithmetic; the claims only concern valid
pointers.) -/
def heap_free (s : H5State) (p : Nat × Nat) : H5State :=
  let block_start := p.2 - headerSize
  let user_size := mem5Read s.heap_memory (p.1, block_start)
  let total_size := user_size + headerSize
  let region_id :=
    if p.1 < region_count ∧ block_start < regionSize p.1 then p.1 else 0
  let local_offset := block_start
  let blocks1_alloc_id_p :=
    match s.blocks.findIdx? fun b =>
        decide (b.offset = local_offset) &&
        decide (b.region_id = region_id) &&
        decide (b.state = BlockState.ALLOCATED) with
    | none => (s.blocks, 0)
    | some j =>
      match s.blocks.get? j with
      | none => (s.blocks, 0)
      | some b =>
        (s.blocks.set j { b with
            state := BlockState.FREED
            allocation_id := 0
            requested_size := 0 },
         b.allocation_id)
  let sMark : H5State := { s with
    blocks := blocks1_alloc_id_p.1
    free_lists := s.free_lists.set region_id
      ((block_start, total_size) :: s.free_lists.getD region_id [])
    heap_memory := mem5Write s.heap_memory (p.1, block_start) total_size }
  let sCo := immediate_neighbor_coalesce sMark local_offset region_id
  let sPend := { sCo with coalesce_pending := true }
  let logs_st_p := common_add_log_with_region sPend.logs sPend.stats .FREE
    blocks1_alloc_id_p.2 0 local_offset true region_id 0
  let sorted := common_sort_blocks sPend.blocks
  update_global_stats { sPend with blocks := sorted, logs := logs_st_p.1, stats := logs_st_p.2 }

end HeapModel.Heap5

namespace HeapModel

/-- One caller operation applied to an already-initialised allocator:
`malloc(n)` or `free(p)`, where `p` is the user pointer rendered as a byte
offset into the heap buffer. -/
inductive HOp where
  | malloc (n : Nat)
  | free (p : Nat)
deriving DecidableEq, Repr

/-- Apply one operation to a heap_1 state. -/
def Heap1.step (s : Heap1.H1State) : HOp → Heap1.H1State
  | .malloc n => (Heap1.heap_malloc s n).2
  | .free p => Heap1.heap_free s p

/-- `heap_init(size)` followed by a sequence of heap_1 operations. -/
def Heap1.run (size : Nat) (ops : List HOp) : Heap1.H1State :=
  ops.foldl Heap1.step (Heap1.heap_init size)

/-- Apply one operation to a heap_2 state. -/
def Heap2.step (s : Heap2.H2State) : HOp → Heap2.H2State
  | .malloc n => (Heap2.heap_malloc s n).2
  | .free p => Heap2.heap_free s p

/-- `heap_init(size)` followed by a sequence of heap_2 operations. -/
def Heap2.run (size : Nat) (ops : List HOp) : Heap2.H2State :=
  ops.foldl Heap2.step (Heap2.heap_init size)

/-- Apply one operation to a heap_4 state. -/
def Heap4.step (s : Heap4.H4State) : HOp → Heap4.H4State
  | .malloc n => (Heap4.heap_malloc s n).2
  | .free p => Heap4.heap_free s p

/-- `heap_init(size)` followed by a sequence of heap_4 operations. -/
def Heap4.run (size : Nat) (ops : List HOp) : Heap4.H4State :=
  ops.foldl Heap4.step (Heap4.heap_init size)

/-- One caller operation for heap_5: `heap_malloc_flags(n, flags)` (plain
`heap_malloc(n)` is the special case `flags = 0`) or `heap_free(p)` with
`p = (region array, local user offset)`. -/
inductive H5Op where
  | malloc (n flags : Nat)
  | free (p : Nat × Nat)
deriving DecidableEq, Repr

/-- Apply one operation to a heap_5 state. -/
def Heap5.step (s : Heap5.H5State) : H5Op → Heap5.H5State
  | .malloc n flags => (Heap5.heap_malloc_flags s n flags).2
  | .free p => Heap5.heap_free s p

/-- `heap_init(size)` followed by a sequence of heap_5 operations. -/
def Heap5.run (size : Nat) (ops : List H5Op) : Heap5.H5State :=
  ops.foldl Heap5.step (Heap5.heap_init size)

/-- One caller/host interaction for heap_3: a `malloc` carrying the host
allocator's oracle results, or a `free` of a non-NULL host pointer. -/
inductive H3Op where
  | malloc (ptr : Option Nat) (nodeOk : Bool) (n : Nat)
  | free (ptr : Nat)
deriving DecidableEq, Repr

/-- Apply one operation to a heap_3 state. -/
def Heap3.step (s : Heap3.H3Full) : H3Op → Heap3.H3Full
  | .malloc ptr nodeOk n => Heap3.heap_malloc s ptr nodeOk n
  | .free ptr => Heap3.heap_free s ptr

/-- `heap_init(size)` followed by a sequence of heap_3 operations. -/
def Heap3.run (size : Nat) (ops : List H3Op) : Heap3.H3Full :=
  ops.foldl Heap3.step (Heap3.heap_init_full size)

/-! ### Spec-side predicates used by the claims -/

/-- Spec-side predicate: region `r` participates in the search for a request
with capability mask `flags` (the code's skip guard, negated). -/
def Heap5.regionConsidered (flags r : Nat) : Prop :=
  flags = 0 ∨ Heap5.regionFlags r &&& flags ≠ 0

instance (flags r : Nat) : Decidable (Heap5.regionConsidered flags r) :=
  instDecidableOr

/-- The rows of `l`, in the given order, tile the address range `[lo, hi)`
contiguously: each row starts where the previous one ended. -/
def ChainCover : List Block → Nat → Nat → Prop
  | [], lo, hi => lo = hi
  | b :: rest, lo, hi => b.offset = lo ∧ ChainCover rest (lo + b.size) hi

/-- Spec-side rendering of the partition invariant: some ordering of the
block table rows by offset tiles `[0, total)` with no gaps and no overlaps
(a `ChainCover` forces offsets to be nondecreasing, so such an ordering is
an offset-sorted one). -/
def IsPartition (bs : List Block) (total : Nat) : Prop :=
  ∃ l, bs.Perm l ∧ ChainCover l 0 total

/-- All block sizes positive, except that a lone row (the freshly
initialised table of a zero-size heap) may be empty. -/
def PosSizes (bs : List Block) : Prop :=
  ∀ b ∈ bs, 0 < b.size ∨ bs.length = 1

/-- No two consecutive rows are both free space (`FREE`/`FREED`) and
physically contiguous — heap_4's coalesced-table shape. -/
def NoAdjFreePair : List Block → Prop
  | [] => True
  | [_] => True
  | a :: b :: rest => ¬ (isFreeish a = true ∧ isFreeish b = true ∧
      a.offset + a.size = b.offset) ∧ NoAdjFreePair (b :: rest)

/-- heap_5 variant: no two consecutive rows of the *same region* are both
free space and physically contiguous. -/
def NoAdjFreePair5 : List Block → Prop
  | [] => True
  | [_] => True
  | a :: b :: rest => ¬ (a.region_id = b.region_id ∧ isFreeish a = true ∧
      isFreeish b = true ∧ a.offset + a.size = b.offset) ∧
      NoAdjFreePair5 (b :: rest)

/-- Inductive shape of the bump allocator's state (heap_1): the table rows
partition `[0, total_size)`, the cursor stays within bounds, and — as long
as the table is still below the capacity bound at which `heap_malloc` stops
recording — the `FREE` rows are exactly one tail span
`[heap_offset, total_size)`. -/
def Heap1Inv (s : Heap1.H1State) : Prop :=
  IsPartition s.allocations s.stats.total_size ∧
  s.heap_offset ≤ s.stats.total_size ∧
  (s.allocations.length < MAX_LOG_ENTRIES - 1 →
    (∀ b ∈ s.allocations, b.state = BlockState.FREE →
      b.offset = s.heap_offset ∧
      b.size = s.stats.total_size - s.heap_offset) ∧
    s.allocations.countP (fun b => decide (b.state = BlockState.FREE)) ≤ 1)

/-! ## Claim C4: `init(S)` immediately followed by `stats()` -/

/-- **C4, counterexample.**  The claim — for *every* allocator variant and
*every* size `S`, `init(S)` then `stats()` yields `total_size = S` — is
false at concrete inputs: heap_5's `heap_init` ignores its size argument and
reports the fixed sum of its three region capacities (`init(100)` yields
`total_size = 32768`), and the buffer-based variants clamp to
`MAX_HEAP_SIZE` (heap_1's `init(70000)` yields 65536). -/
theorem c4_init_stats_counterexample :
    (Heap5.heap_init 100).stats.total_size = 32768 ∧
    (Heap5.heap_init 100).stats.total_size ≠ 100 ∧
    (Heap1.heap_init 70000).stats.total_size = 65536 ∧
    (Heap1.heap_init 70000).stats.total_size ≠ 70000 := by
  refine ⟨by decide, by decide, ?_, ?_⟩ <;> decide

/-- **C4** (amended).  For every size `S`, `init(S)` immediately followed by
`stats()` yields `allocated_bytes = 0`, `allocation_count = 0` and
`free_bytes = total_size` in every variant, with `total_size = S` clamped to
`MAX_HEAP_SIZE` for the buffer-based allocators 1, 2 and 4, `total_size = S`
unclamped for allocator 3, and `total_size = 32768` (the fixed sum of the
three region sizes, independent of `S`) for allocator 5. -/
theorem c4_init_stats_amended (S : Nat) :
    ((Heap1.heap_init S).stats.total_size = min S MAX_HEAP_SIZE ∧
     (Heap1.heap_init S).stats.allocated_bytes = 0 ∧
     (Heap1.heap_init S).stats.free_bytes = min S MAX_HEAP_SIZE ∧
     (Heap1.heap_init S).stats.allocation_count = 0) ∧
    ((Heap2.heap_init S).stats.total_size = min S MAX_HEAP_SIZE ∧
     (Heap2.heap_init S).stats.allocated_bytes = 0 ∧
     (Heap2.heap_init S).stats.free_bytes = min S MAX_HEAP_SIZE ∧
     (Heap2.heap_init S).stats.allocation_count = 0) ∧
    ((Heap3.heap_init S).stats.total_size = S ∧
     (Heap3.heap_init S).stats.allocated_bytes = 0 ∧
     (Heap3.heap_init S).stats.free_bytes = S ∧
     (Heap3.heap_init S).stats.allocation_count = 0) ∧
    ((Heap4.heap_init S).stats.total_size = min S MAX_HEAP_SIZE ∧
     (Heap4.heap_init S).stats.allocated_bytes = 0 ∧
     (Heap4.heap_init S).stats.free_bytes = min S MAX_HEAP_SIZE ∧
     (Heap4.heap_init S).stats.allocation_count = 0) ∧
    ((Heap5.heap_init S).stats.total_size = 32768 ∧
     (Heap5.heap_init S).stats.allocated_bytes = 0 ∧
     (Heap5.heap_init S).stats.free_bytes = 32768 ∧
     (Heap5.heap_init S).stats.allocation_count = 0) := by
  have h5 : Heap5.heap_init S = Heap5.heap_init 0 := rfl
  have hc : (if MAX_HEAP_SIZE < S then MAX_HEAP_SIZE else S) =
      min S MAX_HEAP_SIZE := by
    rcases Nat.le_total S MAX_HEAP_SIZE with h | h <;>
      simp [Nat.min_def, h] <;> omega
  refine ⟨?_, ?_, ?_, ?_, ?_⟩
  · simp [Heap1.heap_init, Heap1.update_stats, common_add_log,
      common_add_log_with_region, zeroStats, MAX_LOG_ENTRIES, hc]
  · simp [Heap2.heap_init, common_update_stats, common_add_log,
      common_add_log_with_region, zeroStats, isFreeish, MAX_LOG_ENTRIES, hc]
  · simp [Heap3.heap_init, common_update_stats, common_add_log,
      common_add_log_with_region, zeroStats, isFreeish, MAX_LOG_ENTRIES]
  · simp [Heap4.heap_init, common_update_stats, common_add_log,
      common_add_log_with_region, zeroStats, isFreeish, MAX_LOG_ENTRIES, hc]
  · rw [h5]
    decide

/-! ## Claim C1: heap_5 capability-flag filtering in `malloc_flags` -/

lemma scanRegion_none_iff (need r : Nat) (l : List (Nat × Nat)) :
    ∀ (i : Nat) (best : Option (Nat × Nat × (Nat × Nat))),
    Heap5.scanRegion need r l i best = none ↔
      best = none ∧ ∀ nd ∈ l, nd.2 < need := by
  induction l with
  | nil => intro i best; simp [Heap5.scanRegion]
  | cons nd rest ih =>
    intro i best
    simp only [Heap5.scanRegion]
    rw [ih]
    split_ifs with hcond
    · constructor
      · rintro ⟨h1, _⟩
        cases h1
      · rintro ⟨hb, hall⟩
        subst hb
        simp at hcond
        exact absurd (hall nd (by simp)) (by omega)
    · constructor
      · rintro ⟨h1, hall⟩
        subst h1
        simp at hcond
        refine ⟨rfl, ?_⟩
        intro nd' hnd'
        rcases List.mem_cons.mp hnd' with rfl | hm
        · omega
        · exact hall _ hm
      · rintro ⟨hb, hall⟩
        subst hb
        exact ⟨rfl, fun nd' hm => hall _ (List.mem_cons_of_mem _ hm)⟩

lemma scanRegion_some_src (need r : Nat) (l : List (Nat × Nat)) :
    ∀ (i : Nat) (best : Option (Nat × Nat × (Nat × Nat)))
      (out : Nat × Nat × (Nat × Nat)),
    Heap5.scanRegion need r l i best = some out →
      best = some out ∨ out.1 = r := by
  induction l with
  | nil =>
    intro i best out h
    simp [Heap5.scanRegion] at h
    exact Or.inl (by simp [h])
  | cons nd rest ih =>
    intro i best out h
    simp only [Heap5.scanRegion] at h
    rcases ih _ _ _ h with h' | h'
    · revert h'
      split_ifs with hcond
      · intro h'
        right
        cases h'
        rfl
      · intro h'
        exact Or.inl h'
    · exact Or.inr h'

lemma heap5_search_none_iff (fls : List (List (Nat × Nat)))
    (flags need : Nat) :
    Heap5.heap5_search fls flags need = none ↔
      ∀ r < Heap5.region_count, Heap5.regionConsidered flags r →
        ∀ nd ∈ fls.getD r [], nd.2 < need := by
  have main : ∀ (rs : List Nat) (best : Option (Nat × Nat × (Nat × Nat))),
      rs.foldl (fun best r =>
        if flags ≠ 0 ∧ Heap5.regionFlags r &&& flags = 0 then best
        else Heap5.scanRegion need r (fls.getD r []) 0 best) best = none ↔
      best = none ∧ ∀ r ∈ rs, Heap5.regionConsidered flags r →
        ∀ nd ∈ fls.getD r [], nd.2 < need := by
    intro rs
    induction rs with
    | nil => intro best; simp
    | cons r rs' ih =>
      intro best
      simp only [List.foldl_cons]
      by_cases hskip : flags ≠ 0 ∧ Heap5.regionFlags r &&& flags = 0
      · rw [if_pos hskip, ih]
        have hnc : ¬ Heap5.regionConsidered flags r := by
          rintro (h0 | hm)
          · exact hskip.1 h0
          · exact hm hskip.2
        constructor
        · rintro ⟨h1, h2⟩
          refine ⟨h1, ?_⟩
          intro r' hr' hc nd hnd
          rcases List.mem_cons.mp hr' with rfl | hmem
          · exact absurd hc hnc
          · exact h2 r' hmem hc nd hnd
        · rintro ⟨h1, h2⟩
          exact ⟨h1, fun r' hmem hc nd hnd =>
            h2 r' (List.mem_cons_of_mem _ hmem) hc nd hnd⟩
      · rw [if_neg hskip, ih, scanRegion_none_iff]
        have hc : Heap5.regionConsidered flags r := by
          by_cases h0 : flags = 0
          · exact Or.inl h0
          · exact Or.inr fun hm => hskip ⟨h0, hm⟩
        constructor
        · rintro ⟨⟨h1, h2⟩, h3⟩
          refine ⟨h1, ?_⟩
          intro r' hr' hc' nd hnd
          rcases List.mem_cons.mp hr' with rfl | hmem
          · exact h2 nd hnd
          · exact h3 r' hmem hc' nd hnd
        · rintro ⟨h1, h2⟩
          exact ⟨⟨h1, fun nd hnd => h2 r (List.mem_cons_self _ _) hc nd hnd⟩,
            fun r' hmem hc' nd hnd =>
              h2 r' (List.mem_cons_of_mem _ hmem) hc' nd hnd⟩
  rw [Heap5.heap5_search, main]
  simp [List.mem_range]

lemma heap5_search_some_considered (fls : List (List (Nat × Nat)))
    (flags need : Nat) (out : Nat × Nat × (Nat × Nat))
    (h : Heap5.heap5_search fls flags need = some out) :
    Heap5.regionConsidered flags out.1 := by
  have main : ∀ (rs : List Nat) (best : Option (Nat × Nat × (Nat × Nat))),
      (∀ out', best = some out' → Heap5.regionConsidered flags out'.1) →
      rs.foldl (fun best r =>
        if flags ≠ 0 ∧ Heap5.regionFlags r &&& flags = 0 then best
        else Heap5.scanRegion need r (fls.getD r []) 0 best) best = some out →
      Heap5.regionConsidered flags out.1 := by
    intro rs
    induction rs with
    | nil =>
      intro best hbest h
      simp at h
      exact hbest out h
    | cons r rs' ih =>
      intro best hbest h
      simp only [List.foldl_cons] at h
      by_cases hskip : flags ≠ 0 ∧ Heap5.regionFlags r &&& flags = 0
      · rw [if_pos hskip] at h
        exact ih best hbest h
      · rw [if_neg hskip] at h
        have hc : Heap5.regionConsidered flags r := by
          by_cases h0 : flags = 0
          · exact Or.inl h0
          · exact Or.inr fun hm => hskip ⟨h0, hm⟩
        refine ih _ ?_ h
        intro out' hout'
        rcases scanRegion_some_src need r (fls.getD r []) 0 best out' hout'
          with h' | h'
        · exact hbest out' h'
        · rw [h']
          exact hc
  exact main (List.range Heap5.region_count) none (by simp) h

/-- **C1, counterexample.**  The claim requires the search to consider only
regions whose capability mask contains *every* bit of `flags`, and in
particular `malloc_flags(500, FAST|DMA)` to fail when no region has both
bits.  In the code the skip guard is `!(regions[r].flags & flags)`, i.e. a
region qualifies when it shares *any* bit: no region's mask contains both
bits of `FAST|DMA = 3`, yet `malloc_flags(500, 3)` on a freshly initialised
heap_5 succeeds, in region 0, whose mask shares only the FAST bit. -/
theorem c1_flag_filter_counterexample :
    (∀ r, r < Heap5.region_count → Heap5.regionFlags r &&& 3 ≠ 3) ∧
    (Heap5.heap_malloc_flags (Heap5.heap_init 32768) 500 3).1 =
      some (0, 8) := by
  constructor
  · decide
  · decide

/-- **C1** (amended).  For heap_5's `malloc_flags(size, flags)` on any
state: the best-fit search considers exactly the regions whose capability
mask shares *at least one* bit with `flags` (all regions when `flags = 0`);
the call fails — returning null and, when the log is not full, appending a
`MALLOC` entry with `success = false`, sentinel region `0xFF` and the
requested flags — precisely when no considered region's free list holds a
span of at least `align8(size) + 8` bytes; and any returned pointer lies in
a considered region. -/
theorem c1_flag_filter_amended (s : Heap5.H5State) (size flags : Nat)
    (hlog : s.logs.length < MAX_LOG_ENTRIES) :
    ((Heap5.heap_malloc_flags s size flags).1 = none ↔
      ∀ r < Heap5.region_count, Heap5.regionConsidered flags r →
        ∀ nd ∈ s.free_lists.getD r [], nd.2 < align8 size + headerSize) ∧
    ((Heap5.heap_malloc_flags s size flags).1 = none →
      (Heap5.heap_malloc_flags s size flags).2.logs = s.logs ++
        [⟨.MALLOC, s.stats.next_allocation_id, size, 0,
          s.stats.timestamp_counter, false, 255, flags⟩]) ∧
    (∀ r off, (Heap5.heap_malloc_flags s size flags).1 = some (r, off) →
      Heap5.regionConsidered flags r) := by
  cases hsearch : Heap5.heap5_search s.free_lists flags
      (align8 size + headerSize) with
  | none =>
    refine ⟨?_, ?_, ?_⟩
    · rw [show (Heap5.heap_malloc_flags s size flags).1 = none by
        simp [Heap5.heap_malloc_flags, hsearch]]
      simpa using (heap5_search_none_iff s.free_lists flags
        (align8 size + headerSize)).mp hsearch
    · intro _
      simp [Heap5.heap_malloc_flags, hsearch, common_add_log_with_region,
        Nat.not_le.mpr hlog]
    · intro r off h
      rw [show (Heap5.heap_malloc_flags s size flags).1 = none by
        simp [Heap5.heap_malloc_flags, hsearch]] at h
      cases h
  | some out =>
    obtain ⟨r0, i0, nd0⟩ := out
    have h1 : (Heap5.heap_malloc_flags s size flags).1 =
        some (r0, nd0.1 + headerSize) := by
      simp [Heap5.heap_malloc_flags, hsearch]
    refine ⟨?_, ?_, ?_⟩
    · rw [h1]
      simp only [reduceCtorEq, false_iff]
      intro hall
      have hnone := (heap5_search_none_iff s.free_lists flags
        (align8 size + headerSize)).mpr hall
      rw [hsearch] at hnone
      cases hnone
    · intro h
      rw [h1] at h
      cases h
    · intro r off h
      rw [h1] at h
      cases h
      exact heap5_search_some_considered s.free_lists flags
        (align8 size + headerSize) _ hsearch

/-- **C1, witness** for the amended theorem: on a fresh heap_5 state a
request with the `PINNED` flag, which no region's mask shares, fails. -/
theorem c1_flag_filter_amended_witness :
    (Heap5.heap_malloc_flags (Heap5.heap_init 0) 500 8).1 = none := by
  have h := c1_flag_filter_amended (Heap5.heap_init 0) 500 8 (by decide)
  exact h.1.mpr (by decide)

/-! ## Claim C10: heap_1 `free` is a logged no-op -/

/-- **C10.**  For Allocator 1, a `free(ptr)` with a non-null pointer (at
offset `p`) appends exactly one `FREE` log entry — provided the log is below
its fixed capacity — and leaves the block table, the cursor `heap_offset`,
`allocated_bytes`, `free_bytes` and the block count all unchanged. -/
theorem c10_heap1_free_noop (s : Heap1.H1State) (p : Nat)
    (hlog : s.logs.length < MAX_LOG_ENTRIES) :
    (Heap1.heap_free s p).allocations = s.allocations ∧
    (Heap1.heap_free s p).heap_offset = s.heap_offset ∧
    (Heap1.heap_free s p).stats.allocated_bytes = s.stats.allocated_bytes ∧
    (Heap1.heap_free s p).stats.free_bytes = s.stats.free_bytes ∧
    (Heap1.heap_free s p).allocations.length = s.allocations.length ∧
    (Heap1.heap_free s p).logs = s.logs ++
      [⟨.FREE, 0, 0, p, s.stats.timestamp_counter, false, 0, 0⟩] := by
  simp [Heap1.heap_free, common_add_log, common_add_log_with_region,
    Nat.not_le.mpr hlog]

/-- **C10, witness**: freeing the very first allocation of a fresh heap_1
changes neither the table nor the cursor. -/
theorem c10_heap1_free_noop_witness :
    (Heap1.heap_free ((Heap1.heap_malloc (Heap1.heap_init 1024) 100).2) 0).allocations =
      ((Heap1.heap_malloc (Heap1.heap_init 1024) 100).2).allocations ∧
    (Heap1.heap_free ((Heap1.heap_malloc (Heap1.heap_init 1024) 100).2) 0).heap_offset =
      ((Heap1.heap_malloc (Heap1.heap_init 1024) 100).2).heap_offset := by
  have h := c10_heap1_free_noop
    ((Heap1.heap_malloc (Heap1.heap_init 1024) 100).2) 0 (by decide)
  exact ⟨h.1, h.2.1⟩

/-! ## Claim C5: heap_1 bump `malloc` -/

/-- **C5.**  For Allocator 1, `malloc(size)` rounds the request to
`aligned = (size+7) & ~7`; when `heap_offset + aligned > total_size` it
returns null and appends one failed `MALLOC` log entry (log below capacity)
without touching the table, the cursor or the id counter; otherwise it
returns the address at the current cursor, advances the cursor by `aligned`,
increments the allocation-id counter, and — when a free block exists and the
table is below its capacity bound — records an `Allocated` block of length
`aligned` at the old cursor with the bumped id. -/
theorem c5_heap1_malloc (s : Heap1.H1State) (size : Nat)
    (hlog : s.logs.length < MAX_LOG_ENTRIES) :
    (s.stats.total_size < s.heap_offset + align8 size →
      (Heap1.heap_malloc s size).1 = none ∧
      (Heap1.heap_malloc s size).2.allocations = s.allocations ∧
      (Heap1.heap_malloc s size).2.heap_offset = s.heap_offset ∧
      (Heap1.heap_malloc s size).2.stats.next_allocation_id =
        s.stats.next_allocation_id ∧
      (Heap1.heap_malloc s size).2.logs = s.logs ++
        [⟨.MALLOC, s.stats.next_allocation_id, size, 0,
          s.stats.timestamp_counter, false, 0, 0⟩]) ∧
    (s.heap_offset + align8 size ≤ s.stats.total_size →
      (Heap1.heap_malloc s size).1 = some s.heap_offset ∧
      (Heap1.heap_malloc s size).2.heap_offset =
        s.heap_offset + align8 size ∧
      (Heap1.heap_malloc s size).2.stats.next_allocation_id =
        s.stats.next_allocation_id + 1 ∧
      ((∃ b ∈ s.allocations, b.state = BlockState.FREE) →
        s.allocations.length < MAX_LOG_ENTRIES - 1 →
        (⟨s.heap_offset, align8 size, BlockState.ALLOCATED,
          s.stats.next_allocation_id, s.stats.timestamp_counter, size, 0⟩ :
          Block) ∈ (Heap1.heap_malloc s size).2.allocations)) := by
  constructor
  · intro hfail
    simp [Heap1.heap_malloc, if_pos hfail, common_add_log,
      common_add_log_with_region, Nat.not_le.mpr hlog]
  · intro hok
    have hnotlt : ¬ s.stats.total_size < s.heap_offset + align8 size :=
      Nat.not_lt.mpr hok
    refine ⟨?_, ?_, ?_, ?_⟩
    · simp [Heap1.heap_malloc, if_neg hnotlt]
    · simp only [Heap1.heap_malloc, if_neg hnotlt, Heap1.update_stats,
        common_add_log, common_add_log_with_region]
      repeat' split
      all_goals rfl
    · simp only [Heap1.heap_malloc, if_neg hnotlt, Heap1.update_stats,
        common_add_log, common_add_log_with_region]
      repeat' split
      all_goals rfl
    · intro hfree hcap
      have hidx : ∃ i, s.allocations.findIdx?
          (fun b => decide (b.state = BlockState.FREE)) = some i := by
        rcases hfree with ⟨b, hb, hbs⟩
        exact ⟨_, List.findIdx?_eq_some_of_exists ⟨b, hb, by simp [hbs]⟩⟩
      rcases hidx with ⟨i, hi⟩
      have hilt : i < s.allocations.length :=
        (List.findIdx?_eq_some_iff_getElem.mp hi).1
      simp only [Heap1.heap_malloc, if_neg hnotlt, hi, Heap1.update_stats,
        common_add_log, common_add_log_with_region]
      rw [if_pos hcap]
      simp only [List.get?_append hilt, List.get?_eq_get hilt]
      split
      · rw [List.set_append_left _ _ hilt,
          List.eraseIdx_append_of_lt_length (by simpa using hilt)]
        simp
      · rw [List.set_append_left _ _ hilt]
        simp

/-- **C5, witness**: a 100-byte request on a fresh 1024-byte heap_1 returns
the cursor address and records the 104-byte aligned allocated block. -/
theorem c5_heap1_malloc_witness :
    (Heap1.heap_malloc (Heap1.heap_init 1024) 100).1 =
      some (Heap1.heap_init 1024).heap_offset ∧
    (⟨(Heap1.heap_init 1024).heap_offset, align8 100, BlockState.ALLOCATED,
      (Heap1.heap_init 1024).stats.next_allocation_id,
      (Heap1.heap_init 1024).stats.timestamp_counter, 100, 0⟩ : Block) ∈
      (Heap1.heap_malloc (Heap1.heap_init 1024) 100).2.allocations := by
  have h := c5_heap1_malloc (Heap1.heap_init 1024) 100 (by decide)
  have hs := h.2 (by decide)
  exact ⟨hs.1, hs.2.2.2 (by decide) (by decide)⟩

/-! ## Claim C6: exhaustive best-fit search with first-encountered tie-break
(heap_2 and heap_4) -/

lemma bestFitAux_none_iff (need : Nat) (l : List (Nat × Nat)) :
    ∀ (i : Nat) (best : Option (Nat × (Nat × Nat))),
    bestFitAux need l i best = none ↔
      best = none ∧ ∀ nd ∈ l, nd.2 < need := by
  induction l with
  | nil => intro i best; simp [bestFitAux]
  | cons nd rest ih =>
    intro i best
    simp only [bestFitAux]
    rw [ih]
    split_ifs with hcond
    · constructor
      · rintro ⟨h1, _⟩
        cases h1
      · rintro ⟨hb, hall⟩
        subst hb
        exact absurd (hall nd (by simp)) (by omega)
    · constructor
      · rintro ⟨h1, hall⟩
        subst h1
        simp only [not_and] at hcond
        refine ⟨rfl, ?_⟩
        intro nd' hnd'
        rcases List.mem_cons.mp hnd' with rfl | hm
        · have := hcond
          by_cases hq : need ≤ nd'.2
          · exact absurd (by simp) (this hq)
          · omega
        · exact hall _ hm
      · rintro ⟨hb, hall⟩
        subst hb
        exact ⟨rfl, fun nd' hm => hall _ (List.mem_cons_of_mem _ hm)⟩

lemma bestFitAux_some_spec (need : Nat) (l : List (Nat × Nat)) :
    ∀ (i : Nat) (best : Option (Nat × (Nat × Nat))) (j : Nat)
      (nd : Nat × Nat),
    bestFitAux need l i best = some (j, nd) →
    (best = some (j, nd) ∧ ∀ m ∈ l, need ≤ m.2 → nd.2 ≤ m.2) ∨
    (∃ k, k < l.length ∧ j = i + k ∧ l.get? k = some nd ∧ need ≤ nd.2 ∧
      (∀ m ∈ l, need ≤ m.2 → nd.2 ≤ m.2) ∧
      (∀ k' m, k' < k → l.get? k' = some m → need ≤ m.2 → nd.2 < m.2) ∧
      (∀ b ∈ best, nd.2 < b.2.2)) := by
  induction l with
  | nil =>
    intro i best j nd h
    simp [bestFitAux] at h
    exact Or.inl ⟨by simp [h], by simp⟩
  | cons nd0 rest ih =>
    intro i best j nd h
    simp only [bestFitAux] at h
    by_cases hcond : need ≤ nd0.2 ∧ ∀ b ∈ best, nd0.2 < b.2.2
    · rw [if_pos hcond] at h
      rcases ih _ _ _ _ h with ⟨hb', hmin⟩ |
        ⟨k, hk, hj, hget, hq, hmin, hfirst, hbeat⟩
      · -- the result is the head element itself
        injection hb' with h2
        rw [Prod.mk.injEq] at h2
        obtain ⟨h3, h4⟩ := h2
        subst h3
        subst h4
        right
        refine ⟨0, by simp, by omega, by simp, hcond.1, ?_,
          fun k' m hk' _ _ => absurd hk' (by omega), hcond.2⟩
        intro m hm hqm
        rcases List.mem_cons.mp hm with hEq | hm'
        · subst hEq
          omega
        · exact hmin m hm' hqm
      · -- the result was found in `rest`, beating the head
        have hbeat0 : nd.2 < nd0.2 := by
          simpa using hbeat (i, nd0) rfl
        right
        refine ⟨k + 1, by simpa using hk, by omega, by simpa using hget, hq,
          ?_, ?_, ?_⟩
        · intro m hm hqm
          rcases List.mem_cons.mp hm with hEq | hm'
          · subst hEq
            omega
          · exact hmin m hm' hqm
        · intro k' m hk' hget' hqm
          cases k' with
          | zero =>
            simp only [List.get?_cons_zero, Option.some.injEq] at hget'
            subst hget'
            omega
          | succ k'' =>
            exact hfirst k'' m (by omega) (by simpa using hget') hqm
        · intro b hb
          have := hcond.2 b hb
          omega
    · rw [if_neg hcond] at h
      rcases ih _ _ _ _ h with ⟨hb', hmin⟩ |
        ⟨k, hk, hj, hget, hq, hmin, hfirst, hbeat⟩
      · -- result passed through as the untouched accumulator
        left
        refine ⟨hb', ?_⟩
        intro m hm hqm
        rcases List.mem_cons.mp hm with hEq | hm'
        · subst hEq
          have hex := not_and.mp hcond hqm
          push_neg at hex
          rcases hex with ⟨b, hb, hble⟩
          rw [hb', Option.mem_def, Option.some.injEq] at hb
          subst hb
          simp at hble
          omega
        · exact hmin m hm' hqm
      · -- result found in `rest`, the untouched accumulator was beaten
        right
        refine ⟨k + 1, by simpa using hk, by omega, by simpa using hget, hq,
          ?_, ?_, ?_⟩
        · intro m hm hqm
          rcases List.mem_cons.mp hm with hEq | hm'
          · subst hEq
            have hex := not_and.mp hcond hqm
            push_neg at hex
            rcases hex with ⟨b, hb, hble⟩
            have := hbeat b hb
            omega
          · exact hmin m hm' hqm
        · intro k' m hk' hget' hqm
          cases k' with
          | zero =>
            simp only [List.get?_cons_zero, Option.some.injEq] at hget'
            subst hget'
            have hex := not_and.mp hcond hqm
            push_neg at hex
            rcases hex with ⟨b, hb, hble⟩
            have := hbeat b hb
            omega
          | succ k'' =>
            exact hfirst k'' m (by omega) (by simpa using hget') hqm
        · exact hbeat

/-- **C6.**  For Allocators 2 and 4, `malloc(size)` computes
`need = align8(size) + 8` and walks the entire free list; among spans with
`span.size ≥ need` it selects the strictly smallest, ties broken in favor of
the span encountered first in list order; when no span is large enough the
call fails, returning null and logging a failed `MALLOC`.  Stated as: (i)
the search routine itself selects a qualifying span of minimal size that
strictly beats every earlier qualifying span, and finds nothing exactly when
no span qualifies; (ii) heap_2's `malloc` fails (null result plus failed log
entry) precisely when no span of its free list qualifies, and otherwise
returns the user address 8 bytes into the selected span; (iii) heap_4's
`malloc` fails precisely when no span qualifies at its final search (after
the threshold coalesce and, when a coalesce was pending, the forced coalesce
retry), on failure appends a failed `MALLOC` log entry to the state the
final search ran on (under the log-capacity bound), and otherwise returns
the user address of the span its search selected. -/
theorem c6_best_fit_policy :
    (∀ (fl : List (Nat × Nat)) (need : Nat),
      (best_fit_search fl need = none ↔ ∀ nd ∈ fl, nd.2 < need) ∧
      (∀ j nd, best_fit_search fl need = some (j, nd) →
        fl.get? j = some nd ∧ need ≤ nd.2 ∧
        (∀ m ∈ fl, need ≤ m.2 → nd.2 ≤ m.2) ∧
        (∀ k m, k < j → fl.get? k = some m → need ≤ m.2 → nd.2 < m.2))) ∧
    (∀ (s : Heap2.H2State) (n : Nat),
      ((Heap2.heap_malloc s n).1 = none ↔
        ∀ nd ∈ s.free_list, nd.2 < align8 n + headerSize) ∧
      (s.logs.length < MAX_LOG_ENTRIES →
        (Heap2.heap_malloc s n).1 = none →
        (Heap2.heap_malloc s n).2.logs = s.logs ++
          [⟨.MALLOC, s.stats.next_allocation_id, n, 0,
            s.stats.timestamp_counter, false, 0, 0⟩]) ∧
      (∀ j nd, best_fit_search s.free_list (align8 n + headerSize) =
          some (j, nd) →
        (Heap2.heap_malloc s n).1 = some (nd.1 + headerSize))) ∧
    (∀ (s : Heap4.H4State) (n : Nat),
      ((Heap4.heap_malloc s n).1 = none ↔
        (∀ nd ∈ (Heap4.searchState s).free_list,
          nd.2 < align8 n + headerSize) ∧
        ((Heap4.searchState s).coalesce_pending →
          ∀ nd ∈ (Heap4.full_coalesce (Heap4.searchState s)).free_list,
            nd.2 < align8 n + headerSize)) ∧
      ((Heap4.searchState s).coalesce_pending = true →
        (Heap4.full_coalesce (Heap4.searchState s)).logs.length <
          MAX_LOG_ENTRIES →
        (Heap4.heap_malloc s n).1 = none →
        (Heap4.heap_malloc s n).2.logs =
          (Heap4.full_coalesce (Heap4.searchState s)).logs ++
          [⟨.MALLOC,
            (Heap4.full_coalesce
              (Heap4.searchState s)).stats.next_allocation_id, n, 0,
            (Heap4.full_coalesce
              (Heap4.searchState s)).stats.timestamp_counter,
            false, 0, 0⟩]) ∧
      ((Heap4.searchState s).coalesce_pending = false →
        (Heap4.searchState s).logs.length < MAX_LOG_ENTRIES →
        (Heap4.heap_malloc s n).1 = none →
        (Heap4.heap_malloc s n).2.logs = (Heap4.searchState s).logs ++
          [⟨.MALLOC, (Heap4.searchState s).stats.next_allocation_id, n, 0,
            (Heap4.searchState s).stats.timestamp_counter, false, 0, 0⟩]) ∧
      (∀ j nd, best_fit_search (Heap4.searchState s).free_list
          (align8 n + headerSize) = some (j, nd) →
        (Heap4.heap_malloc s n).1 = some (nd.1 + headerSize))) := by
  constructor
  · intro fl need
    constructor
    · rw [best_fit_search, bestFitAux_none_iff]
      simp
    · intro j nd h
      rcases bestFitAux_some_spec need fl 0 none j nd h with ⟨h1, _⟩ | hr
      · cases h1
      · obtain ⟨k, hk, hj, hget, hq, hmin, hfirst, _⟩ := hr
        have hjk : j = k := by omega
        subst hjk
        exact ⟨hget, hq, hmin, fun k' m hk' hg hqm => hfirst k' m hk' hg hqm⟩
  constructor
  · intro s n
    refine ⟨?_, ?_, ?_⟩
    · cases hsearch : best_fit_search s.free_list (align8 n + headerSize) with
      | none =>
        rw [show (Heap2.heap_malloc s n).1 = none by
          simp [Heap2.heap_malloc, hsearch]]
        simp only [true_iff]
        rw [best_fit_search, bestFitAux_none_iff] at hsearch
        exact hsearch.2
      | some out =>
        obtain ⟨j, nd⟩ := out
        rw [show (Heap2.heap_malloc s n).1 = some (nd.1 + headerSize) by
          simp [Heap2.heap_malloc, hsearch]]
        simp only [reduceCtorEq, false_iff]
        intro hall
        rw [show best_fit_search s.free_list (align8 n + headerSize) = none by
          rw [best_fit_search, bestFitAux_none_iff]; exact ⟨rfl, hall⟩]
          at hsearch
        cases hsearch
    · intro hlog hnone
      cases hsearch : best_fit_search s.free_list (align8 n + headerSize) with
      | none =>
        simp [Heap2.heap_malloc, hsearch, common_add_log,
          common_add_log_with_region, Nat.not_le.mpr hlog]
      | some out =>
        rw [show (Heap2.heap_malloc s n).1 = some (out.2.1 + headerSize) by
          simp [Heap2.heap_malloc, hsearch]] at hnone
        cases hnone
    · intro j nd hsearch
      simp [Heap2.heap_malloc, hsearch]
  · intro s n
    refine ⟨?_, ?_, ?_, ?_⟩
    · cases hsearch : best_fit_search (Heap4.searchState s).free_list
          (align8 n + headerSize) with
      | none =>
        by_cases hpend : (Heap4.searchState s).coalesce_pending
        · cases hsearch2 : best_fit_search
              (Heap4.full_coalesce (Heap4.searchState s)).free_list
              (align8 n + headerSize) with
          | none =>
            rw [show (Heap4.heap_malloc s n).1 = none by
              simp [Heap4.heap_malloc, hsearch, hpend, hsearch2,
                common_add_log, common_add_log_with_region]]
            simp only [true_iff]
            rw [best_fit_search, bestFitAux_none_iff] at hsearch hsearch2
            exact ⟨hsearch.2, fun _ => hsearch2.2⟩
          | some out =>
            obtain ⟨j, nd⟩ := out
            rw [show (Heap4.heap_malloc s n).1 = some (nd.1 + headerSize) by
              simp [Heap4.heap_malloc, hsearch, hpend, hsearch2,
                Heap4.heap4_alloc_with]]
            simp only [reduceCtorEq, false_iff, not_and]
            intro _ hall
            rw [show best_fit_search
                (Heap4.full_coalesce (Heap4.searchState s)).free_list
                (align8 n + headerSize) = none by
              rw [best_fit_search, bestFitAux_none_iff]
              exact ⟨rfl, hall hpend⟩] at hsearch2
            cases hsearch2
        · rw [show (Heap4.heap_malloc s n).1 = none by
            simp [Heap4.heap_malloc, hsearch, hpend, common_add_log,
              common_add_log_with_region]]
          simp only [true_iff]
          rw [best_fit_search, bestFitAux_none_iff] at hsearch
          exact ⟨hsearch.2, fun h => absurd h hpend⟩
      | some out =>
        obtain ⟨j, nd⟩ := out
        rw [show (Heap4.heap_malloc s n).1 = some (nd.1 + headerSize) by
          simp [Heap4.heap_malloc, hsearch, Heap4.heap4_alloc_with]]
        simp only [reduceCtorEq, false_iff, not_and]
        intro hall
        rw [show best_fit_search (Heap4.searchState s).free_list
            (align8 n + headerSize) = none by
          rw [best_fit_search, bestFitAux_none_iff]
          exact ⟨rfl, hall⟩] at hsearch
        cases hsearch
    · intro hpend hlog hnone
      cases hsearch : best_fit_search (Heap4.searchState s).free_list
          (align8 n + headerSize) with
      | some out =>
        rw [show (Heap4.heap_malloc s n).1 = some (out.2.1 + headerSize) by
          simp [Heap4.heap_malloc, hsearch, Heap4.heap4_alloc_with]]
          at hnone
        cases hnone
      | none =>
        cases hsearch2 : best_fit_search
            (Heap4.full_coalesce (Heap4.searchState s)).free_list
            (align8 n + headerSize) with
        | some out =>
          rw [show (Heap4.heap_malloc s n).1 =
              some (out.2.1 + headerSize) by
            simp [Heap4.heap_malloc, hsearch, hpend, hsearch2,
              Heap4.heap4_alloc_with]] at hnone
          cases hnone
        | none =>
          simp [Heap4.heap_malloc, hsearch, hpend, hsearch2,
            common_add_log, common_add_log_with_region,
            Nat.not_le.mpr hlog]
    · intro hpend hlog hnone
      cases hsearch : best_fit_search (Heap4.searchState s).free_list
          (align8 n + headerSize) with
      | some out =>
        rw [show (Heap4.heap_malloc s n).1 = some (out.2.1 + headerSize) by
          simp [Heap4.heap_malloc, hsearch, Heap4.heap4_alloc_with]]
          at hnone
        cases hnone
      | none =>
        simp [Heap4.heap_malloc, hsearch, hpend, common_add_log,
          common_add_log_with_region, Nat.not_le.mpr hlog]
    · intro j nd hsearch
      simp [Heap4.heap_malloc, hsearch, Heap4.heap4_alloc_with]

/-- **C6, witness**: on fresh 256-byte heaps a 100-byte request (need 112)
selects the single free span and returns the address 8 bytes past it, in
both heap_2 and heap_4. -/
theorem c6_best_fit_policy_witness :
    (Heap2.heap_malloc (Heap2.heap_init 256) 100).1 = some 8 ∧
    (Heap4.heap_malloc (Heap4.heap_init 256) 100).1 = some 8 := by
  have h := c6_best_fit_policy
  have h2 := (h.2.1 (Heap2.heap_init 256) 100).2.2 0 (0, 256) (by decide)
  have h4 := (h.2.2 (Heap4.heap_init 256) 100).2.2.2 0 (0, 256) (by decide)
  exact ⟨by simpa using h2, by simpa using h4⟩

/-! ## Claim C7: split policy of heap_2 and heap_4 -/

/-- `common_sort_blocks` permutes the table. -/
lemma common_sort_blocks_perm (bs : List Block) :
    (common_sort_blocks bs).Perm bs :=
  List.perm_insertionSort blockLE bs

/-- **C7.**  For Allocators 2 and 4, on a successful `malloc` whose search
selected span `nd` (with matching table row `b` of the same size, the table
below its capacity bound): the span is split exactly when its size exceeds
`need = align8(size) + 8` by more than `sizeof(free_block_t) + 16 = 32`
bytes.  When split, the table becomes (up to the final sort) the old table
with the row re-tagged `ALLOCATED` at size `need` plus a new remainder row
of the leftover size carrying the span's original `FREE`/`FREED` state, and
the remainder is pushed at the head of the free list; when not split, the
allocation consumes the whole span: the row keeps its full original size,
the table does not grow, and nothing is pushed on the free list.  In both
cases the allocation header written at the span start is `align8(size)`. -/
theorem c7_split_policy :
    (∀ (s : Heap2.H2State) (n i j : Nat) (nd : Nat × Nat) (b : Block),
      best_fit_search s.free_list (align8 n + headerSize) = some (i, nd) →
      s.blocks.findIdx?
        (fun bb => decide (bb.offset = nd.1) && isFreeish bb) = some j →
      s.blocks.get? j = some b →
      b.size = nd.2 →
      s.blocks.length < MAX_BLOCKS →
      ((align8 n + headerSize) + freeNodeSize + 16 < b.size →
        (Heap2.heap_malloc s n).2.blocks.Perm
          ((s.blocks.set j { b with
              size := align8 n + headerSize
              state := BlockState.ALLOCATED
              allocation_id := s.stats.next_allocation_id
              timestamp := s.stats.timestamp_counter + 1
              requested_size := n }) ++
           [⟨nd.1 + (align8 n + headerSize),
             b.size - (align8 n + headerSize), b.state, 0,
             s.stats.timestamp_counter, 0, 0⟩]) ∧
        (Heap2.heap_malloc s n).2.free_list =
          (nd.1 + (align8 n + headerSize),
           b.size - (align8 n + headerSize)) :: s.free_list.eraseIdx i ∧
        memRead (Heap2.heap_malloc s n).2.heap_memory nd.1 = align8 n) ∧
      (¬ ((align8 n + headerSize) + freeNodeSize + 16 < b.size) →
        (Heap2.heap_malloc s n).2.blocks.Perm
          (s.blocks.set j { b with
              size := b.size
              state := BlockState.ALLOCATED
              allocation_id := s.stats.next_allocation_id
              timestamp := s.stats.timestamp_counter
              requested_size := n }) ∧
        (Heap2.heap_malloc s n).2.blocks.length = s.blocks.length ∧
        (Heap2.heap_malloc s n).2.free_list = s.free_list.eraseIdx i ∧
        memRead (Heap2.heap_malloc s n).2.heap_memory nd.1 = align8 n)) ∧
    (∀ (s : Heap4.H4State) (n i j : Nat) (nd : Nat × Nat) (b : Block),
      s.blocks.findIdx?
        (fun bb => decide (bb.offset = nd.1) && isFreeish bb) = some j →
      s.blocks.get? j = some b →
      b.size = nd.2 →
      s.blocks.length < MAX_BLOCKS →
      ((align8 n + headerSize) + freeNodeSize + 16 < b.size →
        (Heap4.heap4_alloc_with s i nd n).2.blocks.Perm
          ((s.blocks.set j { b with
              size := align8 n + headerSize
              state := BlockState.ALLOCATED
              allocation_id := s.stats.next_allocation_id
              timestamp := s.stats.timestamp_counter + 1
              requested_size := n }) ++
           [⟨nd.1 + (align8 n + headerSize),
             b.size - (align8 n + headerSize), b.state, 0,
             s.stats.timestamp_counter, 0, 0⟩]) ∧
        (Heap4.heap4_alloc_with s i nd n).2.free_list =
          (nd.1 + (align8 n + headerSize),
           b.size - (align8 n + headerSize)) :: s.free_list.eraseIdx i ∧
        memRead (Heap4.heap4_alloc_with s i nd n).2.heap_memory nd.1 =
          align8 n) ∧
      (¬ ((align8 n + headerSize) + freeNodeSize + 16 < b.size) →
        (Heap4.heap4_alloc_with s i nd n).2.blocks.Perm
          (s.blocks.set j { b with
              size := b.size
              state := BlockState.ALLOCATED
              allocation_id := s.stats.next_allocation_id
              timestamp := s.stats.timestamp_counter
              requested_size := n }) ∧
        (Heap4.heap4_alloc_with s i nd n).2.blocks.length =
          s.blocks.length ∧
        (Heap4.heap4_alloc_with s i nd n).2.free_list =
          s.free_list.eraseIdx i ∧
        memRead (Heap4.heap4_alloc_with s i nd n).2.heap_memory nd.1 =
          align8 n)) := by
  constructor
  · intro s n i j nd b hsearch hfind hb hsz hcap
    have hjlt : j < s.blocks.length :=
      (List.findIdx?_eq_some_iff_getElem.mp hfind).1
    constructor
    · intro hsplit
      refine ⟨?_, ?_, ?_⟩
      · simp only [Heap2.heap_malloc, hsearch, hfind, hb, if_pos hsplit,
          if_pos hcap, if_pos (And.intro hsplit hcap)]
        rw [List.set_append_left _ _ hjlt]
        exact common_sort_blocks_perm _
      · simp only [Heap2.heap_malloc, hsearch, hfind, hb, if_pos hsplit,
          if_pos hcap, if_pos (And.intro hsplit hcap)]
      · have hne : ¬ (nd.1 + (align8 n + headerSize) = nd.1) := by
          simp only [headerSize]
          omega
        simp only [Heap2.heap_malloc, hsearch, hfind, hb, if_pos hsplit,
          if_pos hcap, if_pos (And.intro hsplit hcap)]
        simp [memRead, memWrite, hne]
    · intro hnosplit
      have hnc : ¬ ((align8 n + headerSize) + freeNodeSize + 16 < b.size ∧
          s.blocks.length < MAX_BLOCKS) := fun hc => hnosplit hc.1
      refine ⟨?_, ?_, ?_, ?_⟩
      · simp only [Heap2.heap_malloc, hsearch, hfind, hb, if_neg hnosplit,
          if_neg hnc]
        exact common_sort_blocks_perm _
      · simp only [Heap2.heap_malloc, hsearch, hfind, hb, if_neg hnosplit,
          if_neg hnc]
        rw [(common_sort_blocks_perm _).length_eq, List.length_set]
      · simp only [Heap2.heap_malloc, hsearch, hfind, hb, if_neg hnosplit,
          if_neg hnc]
      · simp only [Heap2.heap_malloc, hsearch, hfind, hb, if_neg hnosplit,
          if_neg hnc]
        simp [memRead, memWrite]
  · intro s n i j nd b hfind hb hsz hcap
    have hjlt : j < s.blocks.length :=
      (List.findIdx?_eq_some_iff_getElem.mp hfind).1
    constructor
    · intro hsplit
      refine ⟨?_, ?_, ?_⟩
      · simp only [Heap4.heap4_alloc_with, hfind, hb, if_pos hsplit,
          if_pos hcap, if_pos (And.intro hsplit hcap)]
        rw [List.set_append_left _ _ hjlt]
        exact common_sort_blocks_perm _
      · simp only [Heap4.heap4_alloc_with, hfind, hb, if_pos hsplit,
          if_pos hcap, if_pos (And.intro hsplit hcap)]
      · have hne : ¬ (nd.1 + (align8 n + headerSize) = nd.1) := by
          simp only [headerSize]
          omega
        simp only [Heap4.heap4_alloc_with, hfind, hb, if_pos hsplit,
          if_pos hcap, if_pos (And.intro hsplit hcap)]
        simp [memRead, memWrite, hne]
    · intro hnosplit
      have hnc : ¬ ((align8 n + headerSize) + freeNodeSize + 16 < b.size ∧
          s.blocks.length < MAX_BLOCKS) := fun hc => hnosplit hc.1
      refine ⟨?_, ?_, ?_, ?_⟩
      · simp only [Heap4.heap4_alloc_with, hfind, hb, if_neg hnosplit,
          if_neg hnc]
        exact common_sort_blocks_perm _
      · simp only [Heap4.heap4_alloc_with, hfind, hb, if_neg hnosplit,
          if_neg hnc]
        rw [(common_sort_blocks_perm _).length_eq, List.length_set]
      · simp only [Heap4.heap4_alloc_with, hfind, hb, if_neg hnosplit,
          if_neg hnc]
      · simp only [Heap4.heap4_alloc_with, hfind, hb, if_neg hnosplit,
          if_neg hnc]
        simp [memRead, memWrite]


/-- **C7, witness**: on a fresh 1024-byte heap_2 a 100-byte request splits
the single span (remainder at the head of the free list, header = 104),
while on a fresh 256-byte heap_2 a 240-byte request (need 248, excess 8 of
the 256-byte span not above 32) consumes the whole span without growing the
table. -/
theorem c7_split_policy_witness :
    ((Heap2.heap_malloc (Heap2.heap_init 1024) 100).2.free_list =
      (0 + (align8 100 + headerSize), 1024 - (align8 100 + headerSize)) ::
        (Heap2.heap_init 1024).free_list.eraseIdx 0) ∧
    memRead (Heap2.heap_malloc (Heap2.heap_init 1024) 100).2.heap_memory 0 =
      align8 100 ∧
    (Heap2.heap_malloc (Heap2.heap_init 256) 240).2.blocks.length =
      (Heap2.heap_init 256).blocks.length := by
  have h := c7_split_policy
  have hsp := (h.1 (Heap2.heap_init 1024) 100 0 0 (0, 1024)
    ⟨0, 1024, BlockState.FREE, 0, 0, 0, 0⟩
    (by decide) (by decide) (by decide) (by decide) (by decide)).1 (by decide)
  have hns := (h.1 (Heap2.heap_init 256) 240 0 0 (0, 256)
    ⟨0, 256, BlockState.FREE, 0, 0, 0, 0⟩
    (by decide) (by decide) (by decide) (by decide) (by decide)).2 (by decide)
  exact ⟨hsp.2.1, hsp.2.2, by rw [hns.2.1]⟩

/-! ## Claim C2: partition machinery -/

lemma get?_some_elem (bs : List Block) (j : Nat) (b : Block)
    (hb : bs.get? j = some b) : ∃ h : j < bs.length, bs[j] = b := by
  rw [List.get?_eq_getElem?] at hb
  exact List.getElem?_eq_some_iff.mp hb

lemma chainCover_append (u v : List Block) :
    ∀ lo hi, ChainCover (u ++ v) lo hi ↔
      ∃ mid, ChainCover u lo mid ∧ ChainCover v mid hi := by
  induction u with
  | nil =>
    intro lo hi
    constructor
    · intro h
      exact ⟨lo, rfl, h⟩
    · rintro ⟨mid, hm, h⟩
      have hm' : lo = mid := hm
      subst hm'
      exact h
  | cons b rest ih =>
    intro lo hi
    constructor
    · rintro ⟨h1, h2⟩
      obtain ⟨mid, h3, h4⟩ := (ih (lo + b.size) hi).mp h2
      exact ⟨mid, ⟨h1, h3⟩, h4⟩
    · rintro ⟨mid, ⟨h1, h2⟩, h3⟩
      exact ⟨h1, (ih (lo + b.size) hi).mpr ⟨mid, h2, h3⟩⟩

lemma chainCover_le (l : List Block) :
    ∀ lo hi, ChainCover l lo hi → lo ≤ hi := by
  induction l with
  | nil =>
    intro lo hi h
    have h' : lo = hi := h
    omega
  | cons b rest ih =>
    intro lo hi h
    obtain ⟨h1, h2⟩ := h
    have := ih _ _ h2
    omega

lemma chainCover_sum (l : List Block) :
    ∀ lo hi, ChainCover l lo hi → lo + (l.map Block.size).sum = hi := by
  induction l with
  | nil =>
    intro lo hi h
    have h' : lo = hi := h
    simp [h']
  | cons b rest ih =>
    intro lo hi h
    obtain ⟨h1, h2⟩ := h
    have := ih _ _ h2
    simp only [List.map_cons, List.sum_cons]
    omega

lemma chainCover_mem_lower (l : List Block) :
    ∀ lo hi b, ChainCover l lo hi → b ∈ l → lo ≤ b.offset := by
  induction l with
  | nil =>
    intro lo hi b _ hb
    cases hb
  | cons c rest ih =>
    intro lo hi b h hb
    obtain ⟨h1, h2⟩ := h
    rcases List.mem_cons.mp hb with rfl | hb'
    · omega
    · have := ih _ _ b h2 hb'
      omega

lemma chainCover_mem_upper (l : List Block) :
    ∀ lo hi b, ChainCover l lo hi → (∀ c ∈ l, 0 < c.size) → b ∈ l →
      b.offset < hi := by
  induction l with
  | nil =>
    intro lo hi b _ _ hb
    cases hb
  | cons c rest ih =>
    intro lo hi b h hpos hb
    obtain ⟨h1, h2⟩ := h
    rcases List.mem_cons.mp hb with rfl | hb'
    · have hle := chainCover_le rest _ _ h2
      have := hpos b (by simp)
      omega
    · exact ih _ _ b h2 (fun c hc => hpos c (List.mem_cons_of_mem _ hc)) hb'

lemma get?_take_drop (bs : List Block) (j : Nat) (b : Block)
    (hb : bs.get? j = some b) :
    j < bs.length ∧ bs = bs.take j ++ b :: bs.drop (j + 1) := by
  obtain ⟨hj, hget⟩ := get?_some_elem bs j b hb
  refine ⟨hj, ?_⟩
  conv_lhs => rw [← List.take_append_drop j bs]
  rw [List.drop_eq_getElem_cons hj, hget]

lemma set_perm_piece (bs : List Block) (j : Nat) (b x : Block)
    (hb : bs.get? j = some b) :
    (bs.set j x).Perm (x :: (bs.take j ++ bs.drop (j + 1))) := by
  obtain ⟨hj, _⟩ := get?_take_drop bs j b hb
  rw [List.set_eq_take_cons_drop x hj]
  exact List.perm_middle

lemma remainder_perm (bs : List Block) (j : Nat) (b : Block)
    (hb : bs.get? j = some b) (l u v : List Block) (hperm : bs.Perm l)
    (hl : l = u ++ b :: v) :
    (bs.take j ++ bs.drop (j + 1)).Perm (u ++ v) := by
  obtain ⟨hj, hsplit⟩ := get?_take_drop bs j b hb
  have h1 : bs.Perm (b :: (bs.take j ++ bs.drop (j + 1))) := by
    conv_lhs => rw [hsplit]
    exact List.perm_middle
  have h2 : bs.Perm (b :: (u ++ v)) := by
    rw [hl] at hperm
    exact hperm.trans List.perm_middle
  exact (h1.symm.trans h2).cons_inv

lemma isPartition_replace (bs : List Block) (j : Nat) (b b' : Block)
    (total : Nat) (hb : bs.get? j = some b) (ho : b'.offset = b.offset)
    (hs : b'.size = b.size) (hp : IsPartition bs total) :
    IsPartition (bs.set j b') total := by
  obtain ⟨l, hperm, hchain⟩ := hp
  obtain ⟨hj, hsplit⟩ := get?_take_drop bs j b hb
  have hbl : b ∈ l := hperm.mem_iff.mp (by rw [hsplit]; simp)
  obtain ⟨u, v, rfl⟩ := List.append_of_mem hbl
  obtain ⟨mid, hcu, hcv⟩ := (chainCover_append u (b :: v) 0 total).mp hchain
  obtain ⟨hb1, hb2⟩ := hcv
  have hrest := remainder_perm bs j b hb _ u v hperm rfl
  refine ⟨u ++ b' :: v, ?_, ?_⟩
  · exact (set_perm_piece bs j b b' hb).trans
      ((hrest.cons b').trans List.perm_middle.symm)
  · rw [chainCover_append]
    refine ⟨mid, hcu, ⟨by omega, ?_⟩⟩
    rw [hs]
    exact hb2
  
lemma isPartition_split_two (bs : List Block) (j : Nat) (b p q : Block)
    (total : Nat) (hb : bs.get? j = some b) (hpo : p.offset = b.offset)
    (hqo : q.offset = b.offset + p.size) (hsz : p.size + q.size = b.size)
    (hp : IsPartition bs total) :
    IsPartition (p :: q :: (bs.take j ++ bs.drop (j + 1))) total := by
  obtain ⟨l, hperm, hchain⟩ := hp
  obtain ⟨hj, hsplit⟩ := get?_take_drop bs j b hb
  have hbl : b ∈ l := hperm.mem_iff.mp (by rw [hsplit]; simp)
  obtain ⟨u, v, rfl⟩ := List.append_of_mem hbl
  obtain ⟨mid, hcu, hcv⟩ := (chainCover_append u (b :: v) 0 total).mp hchain
  obtain ⟨hb1, hb2⟩ := hcv
  have hrest := remainder_perm bs j b hb _ u v hperm rfl
  refine ⟨u ++ p :: q :: v, ?_, ?_⟩
  · have h3 : (u ++ p :: q :: v).Perm (p :: q :: (u ++ v)) :=
      List.perm_middle.trans (List.perm_middle.cons p)
    exact ((hrest.cons q).cons p).trans h3.symm
  · rw [chainCover_append]
    refine ⟨mid, hcu, ⟨by omega, by omega, ?_⟩⟩
    have heq : mid + p.size + q.size = mid + b.size := by omega
    rw [heq]
    exact hb2

lemma isPartition_merge_adjacent (bs : List Block) (j : Nat) (x y m : Block)
    (total : Nat) (hx : bs.get? j = some x) (hy : bs.get? (j + 1) = some y)
    (hadj : x.offset + x.size = y.offset) (hmo : m.offset = x.offset)
    (hms : m.size = x.size + y.size) (hpos : ∀ b ∈ bs, 0 < b.size)
    (hp : IsPartition bs total) :
    IsPartition ((bs.set j m).eraseIdx (j + 1)) total := by
  obtain ⟨l, hperm, hchain⟩ := hp
  obtain ⟨hj, hbs1⟩ := get?_take_drop bs j x hx
  obtain ⟨hj1, _⟩ := get?_take_drop bs (j + 1) y hy
  obtain ⟨_, hgx⟩ := get?_some_elem bs j x hx
  obtain ⟨_, hgy⟩ := get?_some_elem bs (j + 1) y hy
  have hxl : x ∈ l := hperm.mem_iff.mp (by rw [hbs1]; simp)
  have hyb : y ∈ bs := by
    obtain ⟨_, hsp⟩ := get?_take_drop bs (j + 1) y hy
    rw [hsp]
    simp
  have hposl : ∀ b ∈ l, 0 < b.size := fun b hb =>
    hpos b (hperm.mem_iff.mpr hb)
  obtain ⟨u, v, rfl⟩ := List.append_of_mem hxl
  obtain ⟨mid, hcu, hcv⟩ := (chainCover_append u (x :: v) 0 total).mp hchain
  obtain ⟨hx1, hv1⟩ := hcv
  have hyl : y ∈ u ++ x :: v := hperm.mem_iff.mp hyb
  have hxpos : 0 < x.size := hposl x (by simp)
  have hynu : y ∉ u := by
    intro hyu
    have h1 := chainCover_mem_upper u 0 mid y hcu
      (fun c hc => hposl c (List.mem_append_left _ hc)) hyu
    omega
  have hynx : y ≠ x := by
    intro hEq
    rw [hEq] at hadj
    omega
  have hyv : y ∈ v := by
    rcases List.mem_append.mp hyl with h | h
    · exact absurd h hynu
    · rcases List.mem_cons.mp h with h' | h'
      · exact absurd h' hynx
      · exact h'
  obtain ⟨z, v2, rfl⟩ : ∃ z v2, v = z :: v2 := by
    cases v with
    | nil => cases hyv
    | cons z v2 => exact ⟨z, v2, rfl⟩
  obtain ⟨hz1, hv2⟩ := hv1
  have hyz : y = z := by
    rcases List.mem_cons.mp hyv with h | h
    · exact h
    · exfalso
      have hzpos : 0 < z.size := hposl z (by simp)
      have := chainCover_mem_lower v2 _ _ y hv2 h
      omega
  subst hyz
  have hA : (bs.set j m).eraseIdx (j + 1) =
      bs.take j ++ m :: bs.drop (j + 2) := by
    rw [List.set_eq_take_cons_drop m hj,
      show bs.take j ++ m :: bs.drop (j + 1) =
        (bs.take j ++ [m]) ++ bs.drop (j + 1) by simp,
      List.eraseIdx_append_of_length_le
        (by simp [List.length_take]; try omega) _]
    have hlen : (bs.take j ++ [m]).length = j + 1 := by
      simp [List.length_take]
      omega
    rw [hlen, Nat.sub_self, List.drop_eq_getElem_cons hj1, hgy]
    simp [List.eraseIdx]
  have hbs2 : bs = bs.take j ++ x :: y :: bs.drop (j + 2) := by
    conv_lhs => rw [← List.take_append_drop j bs]
    rw [List.drop_eq_getElem_cons hj, hgx,
      List.drop_eq_getElem_cons hj1, hgy]
  have hrest : (bs.take j ++ bs.drop (j + 2)).Perm (u ++ v2) := by
    have h1 : bs.Perm (x :: y :: (bs.take j ++ bs.drop (j + 2))) := by
      conv_lhs => rw [hbs2]
      exact List.perm_middle.trans (List.perm_middle.cons x)
    have h2 : bs.Perm (x :: y :: (u ++ v2)) :=
      hperm.trans (List.perm_middle.trans (List.perm_middle.cons x))
    exact ((h1.symm.trans h2).cons_inv).cons_inv
  refine ⟨u ++ m :: v2, ?_, ?_⟩
  · rw [hA]
    exact List.perm_middle.trans
      ((hrest.cons m).trans List.perm_middle.symm)
  · rw [chainCover_append]
    refine ⟨mid, hcu, ⟨by omega, ?_⟩⟩
    have heq : mid + m.size = mid + x.size + y.size := by omega
    rw [heq]
    exact hv2

/-! ### Sorted tables, chains and the full-coalesce sweep -/

instance : IsTotal Block blockLE := ⟨fun a b => Nat.le_total a.offset b.offset⟩

instance : IsTrans Block blockLE := ⟨fun _ _ _ => Nat.le_trans⟩

lemma common_sort_blocks_sorted (bs : List Block) :
    (common_sort_blocks bs).Sorted blockLE :=
  List.sorted_insertionSort blockLE bs

lemma chainCover_strict (l : List Block) :
    ∀ lo hi, ChainCover l lo hi → (∀ c ∈ l, 0 < c.size) →
      l.Pairwise fun a b => a.offset < b.offset := by
  induction l with
  | nil =>
    intro lo hi _ _
    exact List.Pairwise.nil
  | cons b rest ih =>
    intro lo hi h hpos
    obtain ⟨h1, h2⟩ := h
    refine List.Pairwise.cons ?_ (ih _ _ h2
      fun c hc => hpos c (List.mem_cons_of_mem _ hc))
    intro c hc
    have hlow := chainCover_mem_lower rest _ _ c h2 hc
    have := hpos b (by simp)
    omega

lemma strict_sorted_perm_eq (l₁ : List Block) :
    ∀ l₂, l₁.Perm l₂ →
      (l₁.Pairwise fun a b => a.offset < b.offset) →
      (l₂.Pairwise fun a b => a.offset < b.offset) → l₁ = l₂ := by
  induction l₁ with
  | nil =>
    intro l₂ hperm _ _
    exact (hperm.nil_eq).symm ▸ rfl
  | cons a t₁ ih =>
    intro l₂ hperm h₁ h₂
    cases l₂ with
    | nil => exact absurd hperm.symm (by simp)
    | cons b t₂ =>
      have hab : a = b := by
        by_contra hne
        have hat2 : a ∈ b :: t₂ := hperm.mem_iff.mp (by simp)
        have hbt1 : b ∈ a :: t₁ := hperm.mem_iff.mpr (by simp)
        rcases List.mem_cons.mp hat2 with h | h
        · exact hne h
        · rcases List.mem_cons.mp hbt1 with h' | h'
          · exact hne h'.symm
          · have hba := (List.pairwise_cons.mp h₂).1 a h
            have hab := (List.pairwise_cons.mp h₁).1 b h'
            omega
      subst hab
      have := ih t₂ hperm.cons_inv (List.pairwise_cons.mp h₁).2
        (List.pairwise_cons.mp h₂).2
      rw [this]

lemma pairwise_lt_of_sorted_nodup (l : List Block)
    (hs : l.Sorted blockLE)
    (hn : (l.map Block.offset).Nodup) :
    l.Pairwise fun a b => a.offset < b.offset := by
  induction l with
  | nil => exact List.Pairwise.nil
  | cons a t ih =>
    rw [List.map_cons, List.nodup_cons] at hn
    rw [List.sorted_cons] at hs
    refine List.Pairwise.cons ?_ (ih hs.2 hn.2)
    intro b hb
    have hle := hs.1 b hb
    have hne : a.offset ≠ b.offset := by
      intro hEq
      exact hn.1 (by rw [hEq]; exact List.mem_map_of_mem Block.offset hb)
    exact Nat.lt_of_le_of_ne hle hne

/-- The `FREED -> FREE` conversion applied by the sweep keeps the offset. -/
lemma convSweep_offset (c : Block) :
    (if c.state = BlockState.FREED then
      { c with state := BlockState.FREE, allocation_id := 0 } else c).offset
      = c.offset := by
  split <;> rfl

/-- The `FREED -> FREE` conversion applied by the sweep keeps the size. -/
lemma convSweep_size (c : Block) :
    (if c.state = BlockState.FREED then
      { c with state := BlockState.FREE, allocation_id := 0 } else c).size
      = c.size := by
  split <;> rfl

/-- On a table whose rows tile the heap with positive sizes, the offset sort
recovers exactly the tiling order. -/
lemma sort_eq_chain_witness (bs l : List Block) (total : Nat)
    (hperm : bs.Perm l) (hchain : ChainCover l 0 total)
    (hpos : ∀ c ∈ l, 0 < c.size) :
    common_sort_blocks bs = l := by
  have hstrict := chainCover_strict l 0 total hchain hpos
  have hsortperm : (common_sort_blocks bs).Perm l :=
    (common_sort_blocks_perm bs).trans hperm
  have hlnodup : (l.map Block.offset).Nodup := by
    rw [List.Nodup, List.pairwise_map]
    exact hstrict.imp fun hlt => Nat.ne_of_lt hlt
  have hnodup : ((common_sort_blocks bs).map Block.offset).Nodup :=
    (hsortperm.map Block.offset).nodup_iff.mpr hlnodup
  exact strict_sorted_perm_eq _ _ hsortperm
    (pairwise_lt_of_sorted_nodup _ (common_sort_blocks_sorted bs) hnodup)
    hstrict

lemma sweepGo_chain (l : List Block) :
    ∀ (acc : Block) (lo hi : Nat), ChainCover (acc :: l) lo hi →
      ChainCover (Heap4.sweepGo (some acc) l).1 lo hi := by
  induction l with
  | nil =>
    intro acc lo hi h
    exact h
  | cons c rest ih =>
    intro acc lo hi h
    obtain ⟨h1, h2, h3⟩ := h
    rw [Heap4.sweepGo]
    by_cases hm : acc.state = BlockState.FREE ∧ isFreeish c = true ∧
        acc.offset + acc.size = c.offset
    · rw [if_pos hm]
      show ChainCover (Heap4.sweepGo (some { acc with
        size := acc.size + c.size
        state := BlockState.FREE
        allocation_id := 0 }) rest).1 lo hi
      refine ih _ lo hi ⟨h1, ?_⟩
      show ChainCover rest (lo + (acc.size + c.size)) hi
      rw [← Nat.add_assoc]
      exact h3
    · rw [if_neg hm]
      show ChainCover (acc :: (Heap4.sweepGo
        (some (if c.state = BlockState.FREED then
          { c with state := BlockState.FREE, allocation_id := 0 }
          else c)) rest).1) lo hi
      refine ⟨h1, ih _ (lo + acc.size) hi ⟨?_, ?_⟩⟩
      · rw [convSweep_offset]
        exact h2
      · rw [convSweep_size]
        exact h3

lemma sweepGo_none_chain (l : List Block) (lo hi : Nat)
    (h : ChainCover l lo hi) :
    ChainCover (Heap4.sweepGo none l).1 lo hi := by
  cases l with
  | nil => exact h
  | cons b rest =>
    obtain ⟨h1, h2⟩ := h
    rw [Heap4.sweepGo]
    show ChainCover (Heap4.sweepGo
      (some (if b.state = BlockState.FREED then
        { b with state := BlockState.FREE, allocation_id := 0 }
        else b)) rest).1 lo hi
    refine sweepGo_chain rest _ lo hi ⟨?_, ?_⟩
    · rw [convSweep_offset]
      exact h1
    · rw [convSweep_size]
      exact h2

lemma sweepGo_pos (l : List Block) :
    ∀ (acc : Block), 0 < acc.size → (∀ c ∈ l, 0 < c.size) →
      ∀ b ∈ (Heap4.sweepGo (some acc) l).1, 0 < b.size := by
  induction l with
  | nil =>
    intro acc hacc _ b hb
    rw [Heap4.sweepGo] at hb
    simp only [List.mem_singleton] at hb
    rw [hb]
    exact hacc
  | cons c rest ih =>
    intro acc hacc hpos b hb
    have hcpos : 0 < c.size := hpos c (by simp)
    rw [Heap4.sweepGo] at hb
    by_cases hm : acc.state = BlockState.FREE ∧ isFreeish c = true ∧
        acc.offset + acc.size = c.offset
    · rw [if_pos hm] at hb
      have hb' : b ∈ (Heap4.sweepGo (some { acc with
          size := acc.size + c.size
          state := BlockState.FREE
          allocation_id := 0 }) rest).1 := hb
      exact ih _ (by show 0 < acc.size + c.size; omega)
        (fun d hd => hpos d (List.mem_cons_of_mem _ hd)) b hb'
    · rw [if_neg hm] at hb
      have hb' : b ∈ acc :: (Heap4.sweepGo
          (some (if c.state = BlockState.FREED then
            { c with state := BlockState.FREE, allocation_id := 0 }
            else c)) rest).1 := hb
      rcases List.mem_cons.mp hb' with rfl | hb2
      · exact hacc
      · refine ih _ ?_ (fun d hd => hpos d (List.mem_cons_of_mem _ hd)) b hb2
        rw [convSweep_size]
        exact hcpos

lemma sweepGo_none_pos (l : List Block) (hpos : ∀ c ∈ l, 0 < c.size) :
    ∀ b ∈ (Heap4.sweepGo none l).1, 0 < b.size := by
  cases l with
  | nil =>
    intro b hb
    cases hb
  | cons c rest =>
    intro b hb
    rw [Heap4.sweepGo] at hb
    have hb' : b ∈ (Heap4.sweepGo
        (some (if c.state = BlockState.FREED then
          { c with state := BlockState.FREE, allocation_id := 0 }
          else c)) rest).1 := hb
    refine sweepGo_pos rest _ ?_
      (fun d hd => hpos d (List.mem_cons_of_mem _ hd)) b hb'
    rw [convSweep_size]
    exact hpos c (by simp)

/-! ### Transport and surgery helpers for the partition invariant -/

lemma isPartition_of_perm (bs bs' : List Block) (total : Nat)
    (h : bs'.Perm bs) (hp : IsPartition bs total) :
    IsPartition bs' total := by
  obtain ⟨l, hperm, hc⟩ := hp
  exact ⟨l, h.trans hperm, hc⟩

lemma posSizes_of_perm (bs bs' : List Block)
    (h : bs'.Perm bs) (hp : PosSizes bs) : PosSizes bs' := by
  intro b hb
  rcases hp b (h.mem_iff.mp hb) with h1 | h1
  · exact Or.inl h1
  · exact Or.inr (h.length_eq.trans h1)

lemma isPartition_replace_cons (bs : List Block) (j : Nat) (b b' : Block)
    (total : Nat) (hb : bs.get? j = some b) (ho : b'.offset = b.offset)
    (hs : b'.size = b.size) (hp : IsPartition bs total) :
    IsPartition (b' :: (bs.take j ++ bs.drop (j + 1))) total := by
  obtain ⟨l, hperm, hchain⟩ := hp
  obtain ⟨hj, hsplit⟩ := get?_take_drop bs j b hb
  have hbl : b ∈ l := hperm.mem_iff.mp (by rw [hsplit]; simp)
  obtain ⟨u, v, rfl⟩ := List.append_of_mem hbl
  obtain ⟨mid, hcu, hcv⟩ := (chainCover_append u (b :: v) 0 total).mp hchain
  obtain ⟨hb1, hb2⟩ := hcv
  have hrest := remainder_perm bs j b hb _ u v hperm rfl
  refine ⟨u ++ b' :: v, ?_, ?_⟩
  · exact (hrest.cons b').trans List.perm_middle.symm
  · rw [chainCover_append]
    refine ⟨mid, hcu, ⟨by omega, ?_⟩⟩
    rw [hs]
    exact hb2

/-- Merging two physically adjacent table rows into one row of the combined
size preserves the partition shape and the positivity of all sizes. -/
lemma merge_pair_inv (bs : List Block) (j total : Nat) (x y m : Block)
    (hx : bs.get? j = some x) (hy : bs.get? (j + 1) = some y)
    (hadj : x.offset + x.size = y.offset)
    (hmo : m.offset = x.offset) (hms : m.size = x.size + y.size)
    (hp : IsPartition bs total) (hpos : PosSizes bs) :
    IsPartition ((bs.set j m).eraseIdx (j + 1)) total ∧
    PosSizes ((bs.set j m).eraseIdx (j + 1)) := by
  obtain ⟨hjy, hgy⟩ := get?_some_elem bs (j + 1) y hy
  obtain ⟨hjx, hgx⟩ := get?_some_elem bs j x hx
  have hall : ∀ b ∈ bs, 0 < b.size := by
    intro b hb
    rcases hpos b hb with h | h
    · exact h
    · omega
  refine ⟨isPartition_merge_adjacent bs j x y m total hx hy hadj hmo hms
    hall hp, ?_⟩
  intro b hb
  left
  have hb1 := List.mem_of_mem_eraseIdx hb
  rcases List.mem_or_eq_of_mem_set hb1 with h | h
  · exact hall b h
  · have hxm : x ∈ bs := hgx ▸ List.getElem_mem hjx
    have := hall x hxm
    rw [h, hms]
    omega

/-! ### `total_size` is only ever set by `heap_init` -/

lemma common_add_log_with_region_total (logs : List LogEntry) (st : Stats)
    (a : LogAction) (i n off : Nat) (ok : Bool) (r f : Nat) :
    (common_add_log_with_region logs st a i n off ok r f).2.total_size =
      st.total_size := by
  rw [common_add_log_with_region]
  split <;> rfl

lemma common_add_log_total (logs : List LogEntry) (st : Stats)
    (a : LogAction) (i n off : Nat) (ok : Bool) :
    (common_add_log logs st a i n off ok).2.total_size = st.total_size := by
  rw [common_add_log]
  exact common_add_log_with_region_total logs st a i n off ok 0 0

lemma common_update_stats_total (bs : List Block) (st : Stats) :
    (common_update_stats bs st).total_size = st.total_size := rfl


/-! ### heap_2: every operation preserves the partition shape -/

lemma heap2_malloc_total (s : Heap2.H2State) (n : Nat) :
    (Heap2.heap_malloc s n).2.stats.total_size = s.stats.total_size := by
  cases hsearch : best_fit_search s.free_list (align8 n + headerSize) with
  | none =>
    simp [Heap2.heap_malloc, hsearch, common_add_log_total]
  | some ind =>
    obtain ⟨i, nd⟩ := ind
    cases hfind : s.blocks.findIdx?
        (fun bb => decide (bb.offset = nd.1) && isFreeish bb) with
    | none =>
      simp [Heap2.heap_malloc, hsearch, hfind, common_update_stats_total,
        common_add_log_total]
    | some j =>
      cases hget : s.blocks[j]? with
      | none =>
        simp [Heap2.heap_malloc, hsearch, hfind, hget,
          common_update_stats_total, common_add_log_total]
      | some b =>
        simp only [Heap2.heap_malloc, hsearch, hfind,
          List.get?_eq_getElem?, hget]
        split_ifs <;>
          simp [common_update_stats_total, common_add_log_total]

lemma heap2_free_total (s : Heap2.H2State) (p : Nat) :
    (Heap2.heap_free s p).stats.total_size = s.stats.total_size := by
  cases hfind : s.blocks.findIdx?
      (fun b => decide (b.offset = p - headerSize) &&
        decide (b.state = BlockState.ALLOCATED)) with
  | none =>
    simp [Heap2.heap_free, hfind, common_update_stats_total,
      common_add_log_total]
  | some j =>
    cases hget : s.blocks[j]? with
    | none =>
      simp [Heap2.heap_free, hfind, hget, common_update_stats_total,
        common_add_log_total]
    | some b =>
      simp [Heap2.heap_free, hfind, hget, common_update_stats_total,
        common_add_log_total]

lemma heap2_malloc_partition (s : Heap2.H2State) (n : Nat) (T : Nat)
    (hp : IsPartition s.blocks T) :
    IsPartition (Heap2.heap_malloc s n).2.blocks T := by
  cases hsearch : best_fit_search s.free_list (align8 n + headerSize) with
  | none =>
    simpa only [Heap2.heap_malloc, hsearch] using hp
  | some ind =>
    obtain ⟨i, nd⟩ := ind
    cases hfind : s.blocks.findIdx?
        (fun bb => decide (bb.offset = nd.1) && isFreeish bb) with
    | none =>
      simp only [Heap2.heap_malloc, hsearch, hfind]
      exact isPartition_of_perm _ _ _ (common_sort_blocks_perm _) hp
    | some j =>
      obtain ⟨hjlt, hpred, hmin⟩ := List.findIdx?_eq_some_iff_getElem.mp hfind
      have hb : s.blocks.get? j = some s.blocks[j] := by
        rw [List.get?_eq_getElem?, List.getElem?_eq_getElem hjlt]
      set b := s.blocks[j] with hbdef
      have hboff : b.offset = nd.1 :=
        of_decide_eq_true ((Bool.and_eq_true _ _).mp hpred).1
      have key2 : ∀ M : Block, M.offset = b.offset → M.size = b.size →
          IsPartition (common_sort_blocks (s.blocks.set j M)) T :=
        fun M h1 h2 =>
          isPartition_of_perm _ _ _ (common_sort_blocks_perm _)
            (isPartition_replace s.blocks j b M T hb h1 h2 hp)
      by_cases hsplitc : (align8 n + headerSize) + freeNodeSize + 16 < b.size
      · by_cases hcap : s.blocks.length < MAX_BLOCKS
        · have key : ∀ M R : Block, M.offset = b.offset →
              R.offset = b.offset + M.size → M.size + R.size = b.size →
              IsPartition
                (common_sort_blocks ((s.blocks ++ [R]).set j M)) T := by
            intro M R h1 h2 h3
            rw [List.set_append_left _ _ hjlt]
            exact isPartition_of_perm _ _ _
              ((common_sort_blocks_perm _).trans
                ((List.perm_append_singleton _ _).trans
                  (((set_perm_piece s.blocks j b M hb).cons R).trans
                    (List.Perm.swap M R _))))
              (isPartition_split_two s.blocks j b M R T hb h1 h2 h3 hp)
          simp only [Heap2.heap_malloc, hsearch, hfind, hb, if_pos hsplitc,
            if_pos hcap, if_pos (And.intro hsplitc hcap)]
          refine key _ _ rfl ?_ ?_
          · show nd.1 + (align8 n + headerSize) =
              b.offset + (align8 n + headerSize)
            rw [hboff]
          · show (align8 n + headerSize) +
              (b.size - (align8 n + headerSize)) = b.size
            omega
        · have hnc : ¬ ((align8 n + headerSize) + freeNodeSize + 16 < b.size ∧
              s.blocks.length < MAX_BLOCKS) := fun hc => hcap hc.2
          simp only [Heap2.heap_malloc, hsearch, hfind, hb, if_pos hsplitc,
            if_neg hcap, if_neg hnc]
          exact key2 _ rfl rfl
      · have hnc : ¬ ((align8 n + headerSize) + freeNodeSize + 16 < b.size ∧
            s.blocks.length < MAX_BLOCKS) := fun hc => hsplitc hc.1
        simp only [Heap2.heap_malloc, hsearch, hfind, hb, if_neg hsplitc,
          if_neg hnc]
        exact key2 _ rfl rfl

lemma heap2_free_partition (s : Heap2.H2State) (p : Nat) (T : Nat)
    (hp : IsPartition s.blocks T) :
    IsPartition (Heap2.heap_free s p).blocks T := by
  cases hfind : s.blocks.findIdx?
      (fun b => decide (b.offset = p - headerSize) &&
        decide (b.state = BlockState.ALLOCATED)) with
  | none =>
    simp only [Heap2.heap_free, hfind]
    exact isPartition_of_perm _ _ _ (common_sort_blocks_perm _) hp
  | some j =>
    cases hget : s.blocks.get? j with
    | none =>
      simp only [Heap2.heap_free, hfind, hget]
      exact isPartition_of_perm _ _ _ (common_sort_blocks_perm _) hp
    | some b =>
      simp only [Heap2.heap_free, hfind, hget]
      exact isPartition_of_perm _ _ _ (common_sort_blocks_perm _)
        (isPartition_replace s.blocks j b _ T hget rfl rfl hp)

lemma heap2_init_total (S : Nat) :
    (Heap2.heap_init S).stats.total_size =
      (if MAX_HEAP_SIZE < S then MAX_HEAP_SIZE else S) := by
  show (common_add_log _ _ _ _ _ _ _).2.total_size = _
  rw [common_add_log_total]
  rfl

lemma heap2_init_inv (S : Nat) :
    IsPartition (Heap2.heap_init S).blocks
      (Heap2.heap_init S).stats.total_size := by
  rw [heap2_init_total]
  show IsPartition
    [(⟨0, if MAX_HEAP_SIZE < S then MAX_HEAP_SIZE else S,
       BlockState.FREE, 0, 0, 0, 0⟩ : Block)]
    (if MAX_HEAP_SIZE < S then MAX_HEAP_SIZE else S)
  exact ⟨_, List.Perm.refl _, ⟨rfl, by simp [ChainCover]⟩⟩

lemma heap2_run_inv (S : Nat) (ops : List HOp) :
    IsPartition (Heap2.run S ops).blocks
      (Heap2.run S ops).stats.total_size := by
  suffices h : ∀ (l : List HOp) (s : Heap2.H2State),
      IsPartition s.blocks s.stats.total_size →
      IsPartition (l.foldl Heap2.step s).blocks
        (l.foldl Heap2.step s).stats.total_size by
    exact h ops _ (heap2_init_inv S)
  intro l
  induction l with
  | nil =>
    intro s hs
    exact hs
  | cons op rest ih =>
    intro s hs
    rw [List.foldl_cons]
    refine ih _ ?_
    cases op with
    | malloc n =>
      show IsPartition (Heap2.heap_malloc s n).2.blocks
        (Heap2.heap_malloc s n).2.stats.total_size
      rw [heap2_malloc_total]
      exact heap2_malloc_partition s n _ hs
    | free p =>
      show IsPartition (Heap2.heap_free s p).blocks
        (Heap2.heap_free s p).stats.total_size
      rw [heap2_free_total]
      exact heap2_free_partition s p _ hs


/-! ### heap_4: every operation preserves the partition shape and block
positivity -/

lemma coalesceLeft_inv (bs : List Block) (idx : Nat) (st : Stats) (T : Nat)
    (hp : IsPartition bs T) (hpos : PosSizes bs) :
    IsPartition (Heap4.coalesceLeft bs idx st).1 T ∧
    PosSizes (Heap4.coalesceLeft bs idx st).1 := by
  rw [Heap4.coalesceLeft]
  by_cases h0 : 0 < idx
  · rw [if_pos h0]
    cases hgl : bs.get? (idx - 1) with
    | none =>
      cases hgc : bs.get? idx <;> simp only [hgl, hgc] <;> exact ⟨hp, hpos⟩
    | some l =>
      cases hgc : bs.get? idx with
      | none =>
        simp only [hgl, hgc]
        exact ⟨hp, hpos⟩
      | some cur =>
        simp only [hgl, hgc]
        by_cases hg : (isFreeish l &&
            decide (l.offset + l.size = cur.offset)) = true
        · rw [if_pos hg]
          have hy' : bs.get? ((idx - 1) + 1) = some cur := by
            rw [Nat.sub_add_cancel h0]
            exact hgc
          have hkey := merge_pair_inv bs (idx - 1) T l cur
            { l with size := l.size + cur.size, state := BlockState.FREE }
            hgl hy'
            (of_decide_eq_true ((Bool.and_eq_true _ _).mp hg).2) rfl rfl
            hp hpos
          rw [Nat.sub_add_cancel h0] at hkey
          exact hkey
        · rw [if_neg hg]
          exact ⟨hp, hpos⟩
  · rw [if_neg h0]
    exact ⟨hp, hpos⟩

lemma coalesceRight_inv (bs1 : List Block) (idx1 : Nat) (st1 : Stats)
    (T : Nat) (hp : IsPartition bs1 T) (hpos : PosSizes bs1) :
    IsPartition (Heap4.coalesceRight bs1 idx1 st1).1 T ∧
    PosSizes (Heap4.coalesceRight bs1 idx1 st1).1 := by
  rw [Heap4.coalesceRight]
  by_cases h0 : idx1 + 1 < bs1.length
  · rw [if_pos h0]
    cases hgc : bs1.get? idx1 with
    | none =>
      cases hgr : bs1.get? (idx1 + 1) <;> simp only [hgc, hgr] <;>
        exact ⟨hp, hpos⟩
    | some cur =>
      cases hgr : bs1.get? (idx1 + 1) with
      | none =>
        simp only [hgc, hgr]
        exact ⟨hp, hpos⟩
      | some r =>
        simp only [hgc, hgr]
        by_cases hg : (isFreeish r &&
            decide (cur.offset + cur.size = r.offset)) = true
        · rw [if_pos hg]
          exact merge_pair_inv bs1 idx1 T cur r
            { cur with size := cur.size + r.size, state := BlockState.FREE }
            hgc hgr
            (of_decide_eq_true ((Bool.and_eq_true _ _).mp hg).2) rfl rfl
            hp hpos
        · rw [if_neg hg]
          exact ⟨hp, hpos⟩
  · rw [if_neg h0]
    exact ⟨hp, hpos⟩

lemma heap4_inc_inv (s : Heap4.H4State) (fo T : Nat)
    (hp : IsPartition s.blocks T) (hpos : PosSizes s.blocks) :
    IsPartition (Heap4.immediate_neighbor_coalesce s fo).blocks T ∧
    PosSizes (Heap4.immediate_neighbor_coalesce s fo).blocks := by
  have hp0 : IsPartition (common_sort_blocks s.blocks) T :=
    isPartition_of_perm _ _ _ (common_sort_blocks_perm _) hp
  have hpos0 : PosSizes (common_sort_blocks s.blocks) :=
    posSizes_of_perm _ _ (common_sort_blocks_perm _) hpos
  cases hfind : (common_sort_blocks s.blocks).findIdx?
      (fun b => decide (b.offset = fo)) with
  | none =>
    simp only [Heap4.immediate_neighbor_coalesce, hfind]
    exact ⟨hp0, hpos0⟩
  | some idx =>
    simp only [Heap4.immediate_neighbor_coalesce, hfind]
    obtain ⟨hL1, hL2⟩ :=
      coalesceLeft_inv (common_sort_blocks s.blocks) idx s.stats T hp0 hpos0
    obtain ⟨hR1, hR2⟩ := coalesceRight_inv _ _ _ T hL1 hL2
    constructor <;> split <;> first | exact hR1 | exact hR2

lemma heap4_fc_inv (s : Heap4.H4State) (T : Nat)
    (hp : IsPartition s.blocks T) (hpos : PosSizes s.blocks) :
    IsPartition (Heap4.full_coalesce s).blocks T ∧
    PosSizes (Heap4.full_coalesce s).blocks := by
  show IsPartition (Heap4.sweepGo none (common_sort_blocks s.blocks)).1 T ∧
    PosSizes (Heap4.sweepGo none (common_sort_blocks s.blocks)).1
  by_cases hlen : s.blocks.length = 1
  · obtain ⟨b, hbs⟩ : ∃ b, s.blocks = [b] := by
      cases hbs : s.blocks with
      | nil => rw [hbs] at hlen; cases hlen
      | cons b rest =>
        cases rest with
        | nil => exact ⟨b, rfl⟩
        | cons c r2 => rw [hbs] at hlen; simp at hlen
    rw [hbs] at hp ⊢
    obtain ⟨l, hperm, hchain⟩ := hp
    have hl : l = [b] := List.perm_singleton.mp hperm.symm
    subst hl
    have hsort1 : common_sort_blocks [b] = [b] := rfl
    rw [hsort1]
    constructor
    · exact ⟨_, List.Perm.refl _, sweepGo_none_chain [b] 0 T hchain⟩
    · show PosSizes [if b.state = BlockState.FREED then
        { b with state := BlockState.FREE, allocation_id := 0 } else b]
      intro c hc
      exact Or.inr rfl
  · have hall : ∀ c ∈ s.blocks, 0 < c.size :=
      fun c hc => (hpos c hc).resolve_right hlen
    obtain ⟨l, hperm, hchain⟩ := hp
    have hposl : ∀ c ∈ l, 0 < c.size :=
      fun c hc => hall c (hperm.mem_iff.mpr hc)
    rw [sort_eq_chain_witness s.blocks l T hperm hchain hposl]
    exact ⟨⟨_, List.Perm.refl _, sweepGo_none_chain l 0 T hchain⟩,
      fun c hc => Or.inl (sweepGo_none_pos l hposl c hc)⟩

lemma heap4_searchState_inv (s : Heap4.H4State) (T : Nat)
    (hp : IsPartition s.blocks T) (hpos : PosSizes s.blocks) :
    IsPartition (Heap4.searchState s).blocks T ∧
    PosSizes (Heap4.searchState s).blocks := by
  simp only [Heap4.searchState]
  split
  · exact heap4_fc_inv (Heap4.update_stats s) T hp hpos
  · exact ⟨hp, hpos⟩

lemma heap4_alloc_with_inv (s1 : Heap4.H4State) (i : Nat) (nd : Nat × Nat)
    (n : Nat) (T : Nat) (hp : IsPartition s1.blocks T)
    (hpos : PosSizes s1.blocks) :
    IsPartition (Heap4.heap4_alloc_with s1 i nd n).2.blocks T ∧
    PosSizes (Heap4.heap4_alloc_with s1 i nd n).2.blocks := by
  cases hfind : s1.blocks.findIdx?
      (fun bb => decide (bb.offset = nd.1) && isFreeish bb) with
  | none =>
    simp only [Heap4.heap4_alloc_with, hfind]
    exact ⟨isPartition_of_perm _ _ _ (common_sort_blocks_perm _) hp,
      posSizes_of_perm _ _ (common_sort_blocks_perm _) hpos⟩
  | some j =>
    obtain ⟨hjlt, hpred, hmin⟩ := List.findIdx?_eq_some_iff_getElem.mp hfind
    have hb : s1.blocks.get? j = some s1.blocks[j] := by
      rw [List.get?_eq_getElem?, List.getElem?_eq_getElem hjlt]
    set b := s1.blocks[j] with hbdef
    have hboff : b.offset = nd.1 :=
      of_decide_eq_true ((Bool.and_eq_true _ _).mp hpred).1
    have hbmem : b ∈ s1.blocks := List.getElem_mem hjlt
    have key2 : ∀ M : Block, M.offset = b.offset → M.size = b.size →
        IsPartition (common_sort_blocks (s1.blocks.set j M)) T ∧
        PosSizes (common_sort_blocks (s1.blocks.set j M)) := by
      intro M h1 h2
      refine ⟨isPartition_of_perm _ _ _ (common_sort_blocks_perm _)
        (isPartition_replace s1.blocks j b M T hb h1 h2 hp),
        posSizes_of_perm _ _ (common_sort_blocks_perm _) ?_⟩
      intro c hc
      rcases List.mem_or_eq_of_mem_set hc with h | h
      · rcases hpos c h with h3 | h3
        · exact Or.inl h3
        · exact Or.inr (by rw [List.length_set]; exact h3)
      · subst h
        rw [h2]
        rcases hpos b hbmem with h3 | h3
        · exact Or.inl h3
        · exact Or.inr (by rw [List.length_set]; exact h3)
    by_cases hsplitc : (align8 n + headerSize) + freeNodeSize + 16 < b.size
    · by_cases hcap : s1.blocks.length < MAX_BLOCKS
      · have key : ∀ M R : Block, M.offset = b.offset →
            R.offset = b.offset + M.size → M.size + R.size = b.size →
            0 < M.size → 0 < R.size →
            IsPartition
              (common_sort_blocks ((s1.blocks ++ [R]).set j M)) T ∧
            PosSizes (common_sort_blocks ((s1.blocks ++ [R]).set j M)) := by
          intro M R h1 h2 h3 hM hR
          have hperm2 : ((s1.blocks.set j M) ++ [R]).Perm
              (M :: R :: (s1.blocks.take j ++ s1.blocks.drop (j + 1))) :=
            (List.perm_append_singleton _ _).trans
              (((set_perm_piece s1.blocks j b M hb).cons R).trans
                (List.Perm.swap M R _))
          rw [List.set_append_left _ _ hjlt]
          refine ⟨isPartition_of_perm _ _ _
            ((common_sort_blocks_perm _).trans hperm2)
            (isPartition_split_two s1.blocks j b M R T hb h1 h2 h3 hp),
            posSizes_of_perm _ _
              ((common_sort_blocks_perm _).trans hperm2) ?_⟩
          intro c hc
          left
          rcases List.mem_cons.mp hc with rfl | hc1
          · exact hM
          rcases List.mem_cons.mp hc1 with rfl | hc2
          · exact hR
          rcases List.mem_append.mp hc2 with h4 | h4
          · have hcb : c ∈ s1.blocks := List.mem_of_mem_take h4
            rcases hpos c hcb with h5 | h5
            · exact h5
            · exfalso
              have hj0 : j = 0 := by omega
              subst hj0
              simp at h4
          · have hcb : c ∈ s1.blocks := List.mem_of_mem_drop h4
            rcases hpos c hcb with h5 | h5
            · exact h5
            · exfalso
              rw [List.drop_eq_nil_of_le (by omega)] at h4
              cases h4
        simp only [Heap4.heap4_alloc_with, hfind, hb, if_pos hsplitc,
          if_pos hcap, if_pos (And.intro hsplitc hcap)]
        refine key _ _ rfl ?_ ?_ ?_ ?_
        · show nd.1 + (align8 n + headerSize) =
            b.offset + (align8 n + headerSize)
          rw [hboff]
        · show (align8 n + headerSize) +
            (b.size - (align8 n + headerSize)) = b.size
          omega
        · show 0 < align8 n + headerSize
          simp only [headerSize]
          omega
        · show 0 < b.size - (align8 n + headerSize)
          omega
      · have hnc : ¬ ((align8 n + headerSize) + freeNodeSize + 16 < b.size ∧
            s1.blocks.length < MAX_BLOCKS) := fun hc => hcap hc.2
        simp only [Heap4.heap4_alloc_with, hfind, hb, if_pos hsplitc,
          if_neg hcap, if_neg hnc]
        exact key2 _ rfl rfl
    · have hnc : ¬ ((align8 n + headerSize) + freeNodeSize + 16 < b.size ∧
          s1.blocks.length < MAX_BLOCKS) := fun hc => hsplitc hc.1
      simp only [Heap4.heap4_alloc_with, hfind, hb, if_neg hsplitc,
        if_neg hnc]
      exact key2 _ rfl rfl


lemma heap4_malloc_inv (s : Heap4.H4State) (n : Nat) (T : Nat)
    (hp : IsPartition s.blocks T) (hpos : PosSizes s.blocks) :
    IsPartition (Heap4.heap_malloc s n).2.blocks T ∧
    PosSizes (Heap4.heap_malloc s n).2.blocks := by
  obtain ⟨h1, h2⟩ := heap4_searchState_inv s T hp hpos
  cases hsearch : best_fit_search (Heap4.searchState s).free_list
      (align8 n + headerSize) with
  | some ind =>
    obtain ⟨i, nd⟩ := ind
    simp only [Heap4.heap_malloc, hsearch]
    exact heap4_alloc_with_inv _ i nd n T h1 h2
  | none =>
    by_cases hpend : (Heap4.searchState s).coalesce_pending = true
    · obtain ⟨h3, h4⟩ := heap4_fc_inv (Heap4.searchState s) T h1 h2
      cases hsearch2 : best_fit_search
          (Heap4.full_coalesce (Heap4.searchState s)).free_list
          (align8 n + headerSize) with
      | some ind2 =>
        obtain ⟨i2, nd2⟩ := ind2
        simp only [Heap4.heap_malloc, hsearch, hpend, if_true, hsearch2]
        exact heap4_alloc_with_inv _ i2 nd2 n T h3 h4
      | none =>
        simp only [Heap4.heap_malloc, hsearch, hpend, if_true, hsearch2]
        exact ⟨h3, h4⟩
    · simp only [Heap4.heap_malloc, hsearch, hpend]
      simp only [Bool.false_eq_true, if_false]
      exact ⟨h1, h2⟩

lemma heap4_free_inv (s : Heap4.H4State) (p : Nat) (T : Nat)
    (hp : IsPartition s.blocks T) (hpos : PosSizes s.blocks) :
    IsPartition (Heap4.heap_free s p).blocks T ∧
    PosSizes (Heap4.heap_free s p).blocks := by
  have post : ∀ sM : Heap4.H4State, IsPartition sM.blocks T →
      PosSizes sM.blocks →
      IsPartition (common_sort_blocks
        (Heap4.immediate_neighbor_coalesce sM (p - headerSize)).blocks) T ∧
      PosSizes (common_sort_blocks
        (Heap4.immediate_neighbor_coalesce sM (p - headerSize)).blocks) := by
    intro sM hA hB
    obtain ⟨g1, g2⟩ := heap4_inc_inv sM (p - headerSize) T hA hB
    exact ⟨isPartition_of_perm _ _ _ (common_sort_blocks_perm _) g1,
      posSizes_of_perm _ _ (common_sort_blocks_perm _) g2⟩
  cases hfind : s.blocks.findIdx?
      (fun b => decide (b.offset = p - headerSize) &&
        decide (b.state = BlockState.ALLOCATED)) with
  | none =>
    simp only [Heap4.heap_free, hfind]
    exact post _ hp hpos
  | some j =>
    cases hget : s.blocks[j]? with
    | none =>
      simp only [Heap4.heap_free, hfind, List.get?_eq_getElem?, hget]
      exact post _ hp hpos
    | some b =>
      have hget' : s.blocks.get? j = some b := by
        rw [List.get?_eq_getElem?]
        exact hget
      obtain ⟨hjlt, hjb⟩ := List.getElem?_eq_some_iff.mp hget
      have hbmem : b ∈ s.blocks := hjb ▸ List.getElem_mem hjlt
      simp only [Heap4.heap_free, hfind, List.get?_eq_getElem?, hget]
      refine post _ ?_ ?_
      · exact isPartition_replace s.blocks j b _ T hget' rfl rfl hp
      · intro c hc
        rcases List.mem_or_eq_of_mem_set hc with h | h
        · rcases hpos c h with h1 | h1
          · exact Or.inl h1
          · exact Or.inr (by rw [List.length_set]; exact h1)
        · subst h
          rcases hpos b hbmem with h1 | h1
          · exact Or.inl h1
          · exact Or.inr (by rw [List.length_set]; exact h1)

/-! ### heap_4 `total_size` preservation -/

lemma coalesceLeft_total (bs : List Block) (idx : Nat) (st : Stats) :
    (Heap4.coalesceLeft bs idx st).2.2.1.total_size = st.total_size := by
  rw [Heap4.coalesceLeft]
  repeat' split
  all_goals rfl

lemma coalesceRight_total (bs1 : List Block) (idx1 : Nat) (st1 : Stats) :
    (Heap4.coalesceRight bs1 idx1 st1).2.1.total_size = st1.total_size := by
  rw [Heap4.coalesceRight]
  repeat' split
  all_goals rfl

lemma heap4_inc_total (s : Heap4.H4State) (fo : Nat) :
    (Heap4.immediate_neighbor_coalesce s fo).stats.total_size =
      s.stats.total_size := by
  cases hfind : (common_sort_blocks s.blocks).findIdx?
      (fun b => decide (b.offset = fo)) with
  | none =>
    simp only [Heap4.immediate_neighbor_coalesce, hfind]
  | some idx =>
    simp only [Heap4.immediate_neighbor_coalesce, hfind]
    split
    · rw [common_add_log_total, coalesceRight_total, coalesceLeft_total]
    · rw [coalesceRight_total, coalesceLeft_total]

lemma heap4_fc_total (s : Heap4.H4State) :
    (Heap4.full_coalesce s).stats.total_size = s.stats.total_size := by
  simp only [Heap4.full_coalesce]
  split
  · rw [common_add_log_total]
  · rfl

lemma heap4_searchState_total (s : Heap4.H4State) :
    (Heap4.searchState s).stats.total_size = s.stats.total_size := by
  simp only [Heap4.searchState]
  split
  · show (common_update_stats _ _).total_size = _
    rw [common_update_stats_total, heap4_fc_total]
    rfl
  · rfl

lemma heap4_alloc_with_total (s1 : Heap4.H4State) (i : Nat) (nd : Nat × Nat)
    (n : Nat) :
    (Heap4.heap4_alloc_with s1 i nd n).2.stats.total_size =
      s1.stats.total_size := by
  cases hfind : s1.blocks.findIdx?
      (fun bb => decide (bb.offset = nd.1) && isFreeish bb) with
  | none =>
    simp [Heap4.heap4_alloc_with, hfind, common_update_stats_total,
      common_add_log_total]
  | some j =>
    cases hget : s1.blocks[j]? with
    | none =>
      simp [Heap4.heap4_alloc_with, hfind, hget, common_update_stats_total,
        common_add_log_total]
    | some b =>
      simp only [Heap4.heap4_alloc_with, hfind, List.get?_eq_getElem?, hget]
      split_ifs <;>
        simp [common_update_stats_total, common_add_log_total]

lemma heap4_malloc_total (s : Heap4.H4State) (n : Nat) :
    (Heap4.heap_malloc s n).2.stats.total_size = s.stats.total_size := by
  cases hsearch : best_fit_search (Heap4.searchState s).free_list
      (align8 n + headerSize) with
  | some ind =>
    obtain ⟨i, nd⟩ := ind
    simp only [Heap4.heap_malloc, hsearch]
    rw [heap4_alloc_with_total, heap4_searchState_total]
  | none =>
    by_cases hpend : (Heap4.searchState s).coalesce_pending = true
    · cases hsearch2 : best_fit_search
          (Heap4.full_coalesce (Heap4.searchState s)).free_list
          (align8 n + headerSize) with
      | some ind2 =>
        obtain ⟨i2, nd2⟩ := ind2
        simp only [Heap4.heap_malloc, hsearch, hpend, if_true, hsearch2]
        rw [heap4_alloc_with_total, heap4_fc_total, heap4_searchState_total]
      | none =>
        simp only [Heap4.heap_malloc, hsearch, hpend, if_true, hsearch2]
        rw [common_add_log_total, heap4_fc_total, heap4_searchState_total]
    · simp only [Heap4.heap_malloc, hsearch, hpend]
      simp only [Bool.false_eq_true, if_false]
      rw [common_add_log_total, heap4_searchState_total]

lemma heap4_free_total (s : Heap4.H4State) (p : Nat) :
    (Heap4.heap_free s p).stats.total_size = s.stats.total_size := by
  cases hfind : s.blocks.findIdx?
      (fun b => decide (b.offset = p - headerSize) &&
        decide (b.state = BlockState.ALLOCATED)) with
  | none =>
    simp only [Heap4.heap_free, hfind]
    rw [common_update_stats_total, common_add_log_total, heap4_inc_total]
  | some j =>
    cases hget : s.blocks[j]? with
    | none =>
      simp only [Heap4.heap_free, hfind, List.get?_eq_getElem?, hget]
      rw [common_update_stats_total, common_add_log_total, heap4_inc_total]
    | some b =>
      simp only [Heap4.heap_free, hfind, List.get?_eq_getElem?, hget]
      rw [common_update_stats_total, common_add_log_total, heap4_inc_total]

lemma heap4_init_total (S : Nat) :
    (Heap4.heap_init S).stats.total_size =
      (if MAX_HEAP_SIZE < S then MAX_HEAP_SIZE else S) := by
  show (common_add_log _ _ _ _ _ _ _).2.total_size = _
  rw [common_add_log_total]
  rfl

lemma heap4_init_inv (S : Nat) :
    IsPartition (Heap4.heap_init S).blocks
      (Heap4.heap_init S).stats.total_size ∧
    PosSizes (Heap4.heap_init S).blocks := by
  rw [heap4_init_total]
  constructor
  · show IsPartition
      [(⟨0, if MAX_HEAP_SIZE < S then MAX_HEAP_SIZE else S,
        BlockState.FREE, 0, 0, 0, 0⟩ : Block)]
      (if MAX_HEAP_SIZE < S then MAX_HEAP_SIZE else S)
    exact ⟨_, List.Perm.refl _, ⟨rfl, by simp [ChainCover]⟩⟩
  · intro c hc
    exact Or.inr rfl

lemma heap4_run_inv (S : Nat) (ops : List HOp) :
    IsPartition (Heap4.run S ops).blocks
      (Heap4.run S ops).stats.total_size ∧
    PosSizes (Heap4.run S ops).blocks := by
  suffices h : ∀ (l : List HOp) (s : Heap4.H4State),
      IsPartition s.blocks s.stats.total_size → PosSizes s.blocks →
      IsPartition (l.foldl Heap4.step s).blocks
        (l.foldl Heap4.step s).stats.total_size ∧
      PosSizes (l.foldl Heap4.step s).blocks by
    exact h ops _ (heap4_init_inv S).1 (heap4_init_inv S).2
  intro l
  induction l with
  | nil =>
    intro s hs hq
    exact ⟨hs, hq⟩
  | cons op rest ih =>
    intro s hs hq
    rw [List.foldl_cons]
    have hstep : IsPartition (Heap4.step s op).blocks
        (Heap4.step s op).stats.total_size ∧
        PosSizes (Heap4.step s op).blocks := by
      cases op with
      | malloc n =>
        show IsPartition (Heap4.heap_malloc s n).2.blocks
          (Heap4.heap_malloc s n).2.stats.total_size ∧
          PosSizes (Heap4.heap_malloc s n).2.blocks
        rw [heap4_malloc_total]
        exact heap4_malloc_inv s n _ hs hq
      | free p =>
        show IsPartition (Heap4.heap_free s p).blocks
          (Heap4.heap_free s p).stats.total_size ∧
          PosSizes (Heap4.heap_free s p).blocks
        rw [heap4_free_total]
        exact heap4_free_inv s p _ hs hq
    exact ih _ hstep.1 hstep.2


/-! ### heap_1: every operation preserves the partition shape -/

lemma set_eraseIdx_self (bs : List Block) (i : Nat) (x : Block)
    (h : i < bs.length) :
    (bs.set i x).eraseIdx i = bs.eraseIdx i := by
  have hlen : (bs.take i).length = i := by
    rw [List.length_take]
    omega
  rw [List.set_eq_take_cons_drop x h, List.eraseIdx_eq_take_drop_succ,
    List.eraseIdx_eq_take_drop_succ, List.take_left' hlen]
  congr 1
  have h1 : (bs.take i ++ x :: bs.drop (i + 1)).drop (i + 1) =
      ((bs.take i ++ x :: bs.drop (i + 1)).drop i).drop 1 := by
    rw [List.drop_drop]
  rw [h1, List.drop_left' hlen]
  rfl

lemma heap1_partition_split (alloc : List Block) (i : Nat)
    (fb nb sh : Block) (T : Nat)
    (hb : alloc.get? i = some fb)
    (hno : nb.offset = fb.offset) (hso : sh.offset = fb.offset + nb.size)
    (hsum : nb.size + sh.size = fb.size)
    (hp : IsPartition alloc T) :
    IsPartition ((alloc.set i sh) ++ [nb]) T :=
  isPartition_of_perm _ _ _
    ((List.perm_append_singleton _ _).trans
      ((set_perm_piece alloc i fb sh hb).cons nb))
    (isPartition_split_two alloc i fb nb sh T hb hno hso hsum hp)

lemma heap1_partition_consume (alloc : List Block) (i : Nat)
    (fb nb : Block) (T : Nat)
    (hb : alloc.get? i = some fb)
    (hno : nb.offset = fb.offset) (hsz : nb.size = fb.size)
    (hp : IsPartition alloc T) :
    IsPartition (alloc.eraseIdx i ++ [nb]) T := by
  refine isPartition_of_perm _ _ _ ?_
    (isPartition_replace_cons alloc i fb nb T hb hno hsz hp)
  rw [List.eraseIdx_eq_take_drop_succ]
  exact List.perm_append_singleton _ _

/-- If the table holds at most one `FREE` row and row `i` is `FREE`, the
rest of the table holds none. -/
lemma heap1_freegood_rest (alloc : List Block) (i : Nat) (fb : Block)
    (hb : alloc.get? i = some fb) (hfb : fb.state = BlockState.FREE)
    (hcnt : alloc.countP (fun b => decide (b.state = BlockState.FREE)) ≤ 1) :
    ∀ b ∈ alloc.take i ++ alloc.drop (i + 1),
      ¬ (b.state = BlockState.FREE) := by
  obtain ⟨hi, hsplit⟩ := get?_take_drop alloc i fb hb
  have h1 : alloc.countP (fun b => decide (b.state = BlockState.FREE)) =
      (alloc.take i).countP (fun b => decide (b.state = BlockState.FREE)) +
      ((alloc.drop (i + 1)).countP
        (fun b => decide (b.state = BlockState.FREE)) + 1) := by
    conv_lhs => rw [hsplit]
    simp [List.countP_append, List.countP_cons, hfb]
  intro b hbmem hF
  rcases List.mem_append.mp hbmem with h | h
  · have hz : (alloc.take i).countP
        (fun b => decide (b.state = BlockState.FREE)) = 0 := by omega
    exact absurd (decide_eq_true hF) (List.countP_eq_zero.mp hz b h)
  · have hz : (alloc.drop (i + 1)).countP
        (fun b => decide (b.state = BlockState.FREE)) = 0 := by omega
    exact absurd (decide_eq_true hF) (List.countP_eq_zero.mp hz b h)

lemma heap1Inv_congr (s s' : Heap1.H1State)
    (hA : s'.allocations = s.allocations)
    (hO : s'.heap_offset = s.heap_offset)
    (hT : s'.stats.total_size = s.stats.total_size)
    (hI : Heap1Inv s) : Heap1Inv s' := by
  obtain ⟨hp, hle, hg⟩ := hI
  refine ⟨by rw [hA, hT]; exact hp, by rw [hO, hT]; exact hle, ?_⟩
  intro hlen
  rw [hA] at hlen
  rw [hA, hO, hT]
  exact hg hlen

lemma heap1Inv_advance (s s' : Heap1.H1State) (a : Nat)
    (hA : s'.allocations = s.allocations)
    (hO : s'.heap_offset = s.heap_offset + a)
    (hT : s'.stats.total_size = s.stats.total_size)
    (hle2 : s.heap_offset + a ≤ s.stats.total_size)
    (hnof : ∀ b ∈ s.allocations, ¬ (b.state = BlockState.FREE))
    (hI : Heap1Inv s) : Heap1Inv s' := by
  obtain ⟨hp, hle, hg⟩ := hI
  refine ⟨by rw [hA, hT]; exact hp, by rw [hO, hT]; exact hle2, ?_⟩
  intro hlen
  rw [hA, hO, hT]
  constructor
  · intro b hb hF
    exact absurd hF (hnof b hb)
  · rw [List.countP_eq_zero.mpr
      (fun b hb => by simpa using hnof b hb)]
    omega

lemma heap1Inv_advance_full (s s' : Heap1.H1State) (a : Nat)
    (hA : s'.allocations = s.allocations)
    (hO : s'.heap_offset = s.heap_offset + a)
    (hT : s'.stats.total_size = s.stats.total_size)
    (hle2 : s.heap_offset + a ≤ s.stats.total_size)
    (hfull : ¬ (s.allocations.length < MAX_LOG_ENTRIES - 1))
    (hI : Heap1Inv s) : Heap1Inv s' := by
  obtain ⟨hp, hle, hg⟩ := hI
  refine ⟨by rw [hA, hT]; exact hp, by rw [hO, hT]; exact hle2, ?_⟩
  intro hlen
  rw [hA] at hlen
  exact absurd hlen hfull

lemma heap1Inv_build (s' : Heap1.H1State) (tbl : List Block) (o T : Nat)
    (hA : s'.allocations = tbl) (hO : s'.heap_offset = o)
    (hT : s'.stats.total_size = T)
    (h1 : IsPartition tbl T) (h2 : o ≤ T)
    (h3 : tbl.length < MAX_LOG_ENTRIES - 1 →
      (∀ b ∈ tbl, b.state = BlockState.FREE →
        b.offset = o ∧ b.size = T - o) ∧
      tbl.countP (fun b => decide (b.state = BlockState.FREE)) ≤ 1) :
    Heap1Inv s' := by
  refine ⟨by rw [hA, hT]; exact h1, by rw [hO, hT]; exact h2, ?_⟩
  intro hlen
  rw [hA] at hlen
  rw [hA, hO, hT]
  exact h3 hlen

lemma heap1_malloc_inv (s : Heap1.H1State) (n : Nat)
    (hI : Heap1Inv s) : Heap1Inv (Heap1.heap_malloc s n).2 := by
  by_cases hfail : s.stats.total_size < s.heap_offset + align8 n
  · simp only [Heap1.heap_malloc, if_pos hfail]
    exact heap1Inv_congr s _ rfl rfl (common_add_log_total _ _ _ _ _ _ _) hI
  · have hle2 : s.heap_offset + align8 n ≤ s.stats.total_size :=
      Nat.le_of_not_lt hfail
    cases hfid : s.allocations.findIdx?
        (fun b => decide (b.state = BlockState.FREE)) with
    | none =>
      have hnof : ∀ b ∈ s.allocations, ¬ (b.state = BlockState.FREE) :=
        fun b hb hF => absurd (decide_eq_true hF)
          (by rw [List.findIdx?_eq_none_iff.mp hfid b hb]; exact
            Bool.false_ne_true)
      simp only [Heap1.heap_malloc, if_neg hfail, hfid]
      refine heap1Inv_advance s _ (align8 n) rfl rfl ?_ hle2 hnof hI
      show (common_add_log _ _ _ _ _ _ _).2.total_size = _
      rw [common_add_log_total]
    | some i =>
      obtain ⟨hilt, hpred, hmin⟩ := List.findIdx?_eq_some_iff_getElem.mp hfid
      have hbfb : s.allocations.get? i = some s.allocations[i] := by
        rw [List.get?_eq_getElem?, List.getElem?_eq_getElem hilt]
      set fb := s.allocations[i] with hfbdef
      have hfb : fb.state = BlockState.FREE := of_decide_eq_true hpred
      by_cases hcap : s.allocations.length < MAX_LOG_ENTRIES - 1
      · obtain ⟨hp, hle, hg⟩ := hI
        obtain ⟨hgood, hcnt⟩ := hg hcap
        obtain ⟨hfo, hfs⟩ := hgood fb (List.getElem_mem hilt) hfb
        have hgetW : ∀ nbx : Block,
            (s.allocations ++ [nbx]).get? i = some fb := fun nbx => by
          rw [List.get?_append hilt]
          exact hbfb
        have hrest := heap1_freegood_rest s.allocations i fb hbfb hfb hcnt
        by_cases hz : s.stats.total_size - (s.heap_offset + align8 n) = 0
        · have hilt2 : i < (s.allocations.set i
              { fb with
                  offset := s.heap_offset + align8 n
                  size := s.stats.total_size -
                    (s.heap_offset + align8 n) }).length := by
            rw [List.length_set]
            exact hilt
          have hperm2 : (s.allocations.eraseIdx i ++
              [(⟨s.heap_offset, align8 n, BlockState.ALLOCATED,
                s.stats.next_allocation_id, s.stats.timestamp_counter,
                n, 0⟩ : Block)]).Perm
              ((⟨s.heap_offset, align8 n, BlockState.ALLOCATED,
                s.stats.next_allocation_id, s.stats.timestamp_counter,
                n, 0⟩ : Block) ::
                (s.allocations.take i ++ s.allocations.drop (i + 1))) := by
            rw [List.eraseIdx_eq_take_drop_succ]
            exact List.perm_append_singleton _ _
          refine heap1Inv_build _ (s.allocations.eraseIdx i ++
              [(⟨s.heap_offset, align8 n, BlockState.ALLOCATED,
                s.stats.next_allocation_id, s.stats.timestamp_counter,
                n, 0⟩ : Block)]) (s.heap_offset + align8 n)
              s.stats.total_size ?_ ?_ ?_ ?_ hle2 ?_
          · simp only [Heap1.heap_malloc, Heap1.update_stats, if_neg hfail,
              hfid, if_pos hcap, hgetW, if_pos hz]
            rw [List.set_append_left _ _ hilt,
              List.eraseIdx_append_of_lt_length hilt2,
              set_eraseIdx_self _ _ _ hilt]
          · simp only [Heap1.heap_malloc, Heap1.update_stats, if_neg hfail,
              hfid, if_pos hcap, hgetW, if_pos hz]
          · simp only [Heap1.heap_malloc, if_neg hfail, hfid, if_pos hcap,
              hgetW, if_pos hz]
            show (common_add_log _ _ _ _ _ _ _).2.total_size = _
            rw [common_add_log_total]
          · refine heap1_partition_consume s.allocations i fb _ _ hbfb
              hfo.symm ?_ hp
            show align8 n = fb.size
            omega
          · intro hlen
            constructor
            · intro b hb hF
              rcases List.mem_cons.mp (hperm2.mem_iff.mp hb) with rfl | hmem
              · simp at hF
              · exact absurd hF (hrest b hmem)
            · rw [hperm2.countP_eq, List.countP_cons_of_neg _ _ (by simp),
                List.countP_eq_zero.mpr
                  (fun b hb => by simpa using hrest b hb)]
              omega
        · have hperm2 : ((s.allocations.set i
              { fb with
                  offset := s.heap_offset + align8 n
                  size := s.stats.total_size -
                    (s.heap_offset + align8 n) }) ++
              [(⟨s.heap_offset, align8 n, BlockState.ALLOCATED,
                s.stats.next_allocation_id, s.stats.timestamp_counter,
                n, 0⟩ : Block)]).Perm
              ((⟨s.heap_offset, align8 n, BlockState.ALLOCATED,
                s.stats.next_allocation_id, s.stats.timestamp_counter,
                n, 0⟩ : Block) ::
                { fb with
                    offset := s.heap_offset + align8 n
                    size := s.stats.total_size -
                      (s.heap_offset + align8 n) } ::
                (s.allocations.take i ++ s.allocations.drop (i + 1))) :=
            (List.perm_append_singleton _ _).trans
              ((set_perm_piece s.allocations i fb _ hbfb).cons _)
          refine heap1Inv_build _ ((s.allocations.set i
              { fb with
                  offset := s.heap_offset + align8 n
                  size := s.stats.total_size -
                    (s.heap_offset + align8 n) }) ++
              [(⟨s.heap_offset, align8 n, BlockState.ALLOCATED,
                s.stats.next_allocation_id, s.stats.timestamp_counter,
                n, 0⟩ : Block)]) (s.heap_offset + align8 n)
              s.stats.total_size ?_ ?_ ?_ ?_ hle2 ?_
          · simp only [Heap1.heap_malloc, Heap1.update_stats, if_neg hfail,
              hfid, if_pos hcap, hgetW, if_neg hz]
            rw [List.set_append_left _ _ hilt]
          · simp only [Heap1.heap_malloc, Heap1.update_stats, if_neg hfail,
              hfid, if_pos hcap, hgetW, if_neg hz]
          · simp only [Heap1.heap_malloc, if_neg hfail, hfid, if_pos hcap,
              hgetW, if_neg hz]
            show (common_add_log _ _ _ _ _ _ _).2.total_size = _
            rw [common_add_log_total]
          · refine heap1_partition_split s.allocations i fb _ _ _ hbfb
              hfo.symm ?_ ?_ hp
            · show s.heap_offset + align8 n = fb.offset + align8 n
              rw [hfo]
            · show align8 n +
                (s.stats.total_size - (s.heap_offset + align8 n)) = fb.size
              omega
          · intro hlen
            constructor
            · intro b hb hF
              rcases List.mem_cons.mp (hperm2.mem_iff.mp hb) with rfl | hmem
              · simp at hF
              rcases List.mem_cons.mp hmem with rfl | hmem2
              · exact ⟨rfl, rfl⟩
              · exact absurd hF (hrest b hmem2)
            · rw [hperm2.countP_eq, List.countP_cons_of_neg _ _ (by simp),
                List.countP_cons_of_pos _ _ (by simp [hfb]),
                List.countP_eq_zero.mpr
                  (fun b hb => by simpa using hrest b hb)]
      · simp only [Heap1.heap_malloc, if_neg hfail, hfid, if_neg hcap]
        refine heap1Inv_advance_full s _ (align8 n) rfl rfl ?_ hle2 hcap hI
        show (common_add_log _ _ _ _ _ _ _).2.total_size = _
        rw [common_add_log_total]

lemma heap1_free_inv (s : Heap1.H1State) (p : Nat)
    (hI : Heap1Inv s) : Heap1Inv (Heap1.heap_free s p) :=
  heap1Inv_congr s _ rfl rfl (common_add_log_total _ _ _ _ _ _ _) hI

lemma heap1_init_inv (S : Nat) : Heap1Inv (Heap1.heap_init S) := by
  have htot : (Heap1.heap_init S).stats.total_size =
      (if MAX_HEAP_SIZE < S then MAX_HEAP_SIZE else S) := by
    show (common_add_log _ _ _ _ _ _ _).2.total_size = _
    rw [common_add_log_total]
    rfl
  refine ⟨?_, ?_, ?_⟩
  · rw [htot]
    show IsPartition
      [(⟨0, if MAX_HEAP_SIZE < S then MAX_HEAP_SIZE else S,
        BlockState.FREE, 0, 0, 0, 0⟩ : Block)]
      (if MAX_HEAP_SIZE < S then MAX_HEAP_SIZE else S)
    exact ⟨_, List.Perm.refl _, ⟨rfl, by simp [ChainCover]⟩⟩
  · rw [htot]
    show 0 ≤ _
    omega
  · intro hlen
    rw [htot]
    constructor
    · intro b hb hF
      have hb1 : b = (⟨0, if MAX_HEAP_SIZE < S then MAX_HEAP_SIZE else S,
          BlockState.FREE, 0, 0, 0, 0⟩ : Block) :=
        List.eq_of_mem_singleton hb
      subst hb1
      exact ⟨rfl, rfl⟩
    · show List.countP _ [_] ≤ 1
      simp [List.countP_cons]

lemma heap1_run_inv (S : Nat) (ops : List HOp) :
    Heap1Inv (Heap1.run S ops) := by
  suffices h : ∀ (l : List HOp) (s : Heap1.H1State),
      Heap1Inv s → Heap1Inv (l.foldl Heap1.step s) by
    exact h ops _ (heap1_init_inv S)
  intro l
  induction l with
  | nil =>
    intro s hs
    exact hs
  | cons op rest ih =>
    intro s hs
    rw [List.foldl_cons]
    refine ih _ ?_
    cases op with
    | malloc n => exact heap1_malloc_inv s n hs
    | free p => exact heap1_free_inv s p hs


/-- With the partition invariant and positive sizes, the offset-sorted table
itself tiles `[0, total)`. -/
lemma sorted_chain_of_inv (bs : List Block) (total : Nat)
    (hp : IsPartition bs total) (hpos : PosSizes bs) :
    ChainCover (common_sort_blocks bs) 0 total := by
  by_cases hlen : bs.length = 1
  · obtain ⟨b, hbs⟩ : ∃ b, bs = [b] := by
      cases hbs : bs with
      | nil => rw [hbs] at hlen; cases hlen
      | cons b rest =>
        cases rest with
        | nil => exact ⟨b, rfl⟩
        | cons c r2 => rw [hbs] at hlen; simp at hlen
    subst hbs
    obtain ⟨l, hperm, hchain⟩ := hp
    have hl : l = [b] := List.perm_singleton.mp hperm.symm
    subst hl
    exact hchain
  · have hall : ∀ c ∈ bs, 0 < c.size :=
      fun c hc => (hpos c hc).resolve_right hlen
    obtain ⟨l, hperm, hchain⟩ := hp
    have hposl : ∀ c ∈ l, 0 < c.size :=
      fun c hc => hall c (hperm.mem_iff.mpr hc)
    rw [sort_eq_chain_witness bs l total hperm hchain hposl]
    exact hchain

/-- **C2.**  After `init(S)` and any sequence of `malloc`/`free` calls, the
block table of each buffer-based allocator (heap_1, heap_2 = `part_000`,
heap_4 = `part_001`) is a complete non-overlapping partition of
`[0, total_size)`: some offset-ordered arrangement of the rows tiles the
range with no gaps and no overlaps, starting at 0 and ending at
`total_size` (`IsPartition`).  For heap_4 all row sizes stay positive, so
the offset-sorted table itself is such a tiling: its first row starts at 0,
each row starts where the previous one ends, and the last row ends at
`total_size` (`ChainCover`). -/
theorem c2_partition_invariant (S : Nat) (ops : List HOp) :
    IsPartition (Heap1.run S ops).allocations
      (Heap1.run S ops).stats.total_size ∧
    IsPartition (Heap2.run S ops).blocks
      (Heap2.run S ops).stats.total_size ∧
    IsPartition (Heap4.run S ops).blocks
      (Heap4.run S ops).stats.total_size ∧
    ChainCover (common_sort_blocks (Heap4.run S ops).blocks) 0
      (Heap4.run S ops).stats.total_size :=
  ⟨(heap1_run_inv S ops).1, heap2_run_inv S ops, (heap4_run_inv S ops).1,
    sorted_chain_of_inv _ _ (heap4_run_inv S ops).1 (heap4_run_inv S ops).2⟩


/-! ### `min_free_bytes`: helpers for Claim C3 -/

lemma common_add_log_with_region_min (logs : List LogEntry) (st : Stats)
    (a : LogAction) (i n off : Nat) (ok : Bool) (r f : Nat) :
    (common_add_log_with_region logs st a i n off ok r f).2.min_free_bytes =
      st.min_free_bytes := by
  rw [common_add_log_with_region]
  split <;> rfl

lemma common_add_log_min (logs : List LogEntry) (st : Stats)
    (a : LogAction) (i n off : Nat) (ok : Bool) :
    (common_add_log logs st a i n off ok).2.min_free_bytes =
      st.min_free_bytes := by
  rw [common_add_log]
  exact common_add_log_with_region_min logs st a i n off ok 0 0

lemma heap1_malloc_total (s : Heap1.H1State) (n : Nat) :
    (Heap1.heap_malloc s n).2.stats.total_size = s.stats.total_size := by
  by_cases hfail : s.stats.total_size < s.heap_offset + align8 n
  · simp only [Heap1.heap_malloc, if_pos hfail]
    exact common_add_log_total _ _ _ _ _ _ _
  · cases hfid : s.allocations.findIdx?
        (fun b => decide (b.state = BlockState.FREE)) with
    | none =>
      simp only [Heap1.heap_malloc, Heap1.update_stats, if_neg hfail, hfid]
      rw [common_add_log_total]
    | some i =>
      by_cases hcap : s.allocations.length < MAX_LOG_ENTRIES - 1
      · simp only [Heap1.heap_malloc, Heap1.update_stats, if_neg hfail,
          hfid, if_pos hcap]
        rw [common_add_log_total]
      · simp only [Heap1.heap_malloc, Heap1.update_stats, if_neg hfail,
          hfid, if_neg hcap]
        rw [common_add_log_total]

lemma heap1_free_total (s : Heap1.H1State) (p : Nat) :
    (Heap1.heap_free s p).stats.total_size = s.stats.total_size :=
  common_add_log_total _ _ _ _ _ _ _

lemma heap1_malloc_offset (s : Heap1.H1State) (n : Nat) :
    s.heap_offset ≤ (Heap1.heap_malloc s n).2.heap_offset := by
  by_cases hfail : s.stats.total_size < s.heap_offset + align8 n
  · simp only [Heap1.heap_malloc, if_pos hfail]
    exact Nat.le_refl _
  · simp only [Heap1.heap_malloc, if_neg hfail]
    show s.heap_offset ≤ s.heap_offset + align8 n
    omega

lemma heap1_free_offset (s : Heap1.H1State) (p : Nat) :
    (Heap1.heap_free s p).heap_offset = s.heap_offset := rfl

lemma heap1_malloc_min (s : Heap1.H1State) (n : Nat)
    (hM : s.stats.min_free_bytes =
      s.stats.total_size - s.heap_offset) :
    (Heap1.heap_malloc s n).2.stats.min_free_bytes =
      (Heap1.heap_malloc s n).2.stats.total_size -
        (Heap1.heap_malloc s n).2.heap_offset := by
  by_cases hfail : s.stats.total_size < s.heap_offset + align8 n
  · simp only [Heap1.heap_malloc, if_pos hfail]
    show (common_add_log _ _ _ _ _ _ _).2.min_free_bytes =
      (common_add_log _ _ _ _ _ _ _).2.total_size - s.heap_offset
    rw [common_add_log_min, common_add_log_total]
    exact hM
  · have hle2 : s.heap_offset + align8 n ≤ s.stats.total_size :=
      Nat.le_of_not_lt hfail
    cases hfid : s.allocations.findIdx?
        (fun b => decide (b.state = BlockState.FREE)) with
    | none =>
      simp only [Heap1.heap_malloc, Heap1.update_stats, if_neg hfail, hfid]
      rw [common_add_log_min, common_add_log_total]
      try dsimp only
      split_ifs <;> omega
    | some i =>
      by_cases hcap : s.allocations.length < MAX_LOG_ENTRIES - 1
      · simp only [Heap1.heap_malloc, Heap1.update_stats, if_neg hfail,
          hfid, if_pos hcap]
        rw [common_add_log_min, common_add_log_total]
        try dsimp only
        split_ifs <;> omega
      · simp only [Heap1.heap_malloc, Heap1.update_stats, if_neg hfail,
          hfid, if_neg hcap]
        rw [common_add_log_min, common_add_log_total]
        try dsimp only
        split_ifs <;> omega

lemma heap1_free_min (s : Heap1.H1State) (p : Nat)
    (hM : s.stats.min_free_bytes =
      s.stats.total_size - s.heap_offset) :
    (Heap1.heap_free s p).stats.min_free_bytes =
      (Heap1.heap_free s p).stats.total_size -
        (Heap1.heap_free s p).heap_offset := by
  show (common_add_log _ _ _ _ _ _ _).2.min_free_bytes =
    (common_add_log _ _ _ _ _ _ _).2.total_size - s.heap_offset
  rw [common_add_log_min, common_add_log_total]
  exact hM

lemma heap1_run_min (S : Nat) (ops : List HOp) :
    (Heap1.run S ops).stats.min_free_bytes =
      (Heap1.run S ops).stats.total_size - (Heap1.run S ops).heap_offset := by
  suffices h : ∀ (l : List HOp) (s : Heap1.H1State),
      s.stats.min_free_bytes = s.stats.total_size - s.heap_offset →
      (l.foldl Heap1.step s).stats.min_free_bytes =
        (l.foldl Heap1.step s).stats.total_size -
          (l.foldl Heap1.step s).heap_offset by
    refine h ops _ ?_
    show (common_add_log _ _ _ _ _ _ _).2.min_free_bytes =
      (common_add_log _ _ _ _ _ _ _).2.total_size - 0
    rw [common_add_log_min, common_add_log_total]
    simp only [Heap1.update_stats]
    try dsimp only
    split_ifs <;> omega
  intro l
  induction l with
  | nil =>
    intro s hs
    exact hs
  | cons op rest ih =>
    intro s hs
    rw [List.foldl_cons]
    refine ih _ ?_
    cases op with
    | malloc n => exact heap1_malloc_min s n hs
    | free p => exact heap1_free_min s p hs

lemma heap1_step_total (s : Heap1.H1State) (op : HOp) :
    (Heap1.step s op).stats.total_size = s.stats.total_size := by
  cases op with
  | malloc n => exact heap1_malloc_total s n
  | free p => exact heap1_free_total s p

lemma heap1_step_offset (s : Heap1.H1State) (op : HOp) :
    s.heap_offset ≤ (Heap1.step s op).heap_offset := by
  cases op with
  | malloc n => exact heap1_malloc_offset s n
  | free p => exact Nat.le_of_eq (heap1_free_offset s p).symm

lemma heap1_step_min (s : Heap1.H1State) (op : HOp)
    (hM : s.stats.min_free_bytes =
      s.stats.total_size - s.heap_offset) :
    (Heap1.step s op).stats.min_free_bytes =
      (Heap1.step s op).stats.total_size - (Heap1.step s op).heap_offset := by
  cases op with
  | malloc n => exact heap1_malloc_min s n hM
  | free p => exact heap1_free_min s p hM

/-- The free-space total of a partitioned table is bounded by the heap
size. -/
lemma isPartition_free_le (bs : List Block) (T : Nat)
    (hp : IsPartition bs T) :
    ((bs.filter isFreeish).map Block.size).sum ≤ T := by
  obtain ⟨l, hperm, hchain⟩ := hp
  have htot : (l.map Block.size).sum = T := by
    have := chainCover_sum l 0 T hchain
    omega
  have h1 : ((bs.filter isFreeish).map Block.size).sum ≤
      (bs.map Block.size).sum :=
    ((bs.filter_sublist).map Block.size).sum_le_sum
      (fun _ _ => Nat.zero_le _)
  have h2 : (bs.map Block.size).sum = (l.map Block.size).sum :=
    (hperm.map Block.size).sum_eq
  omega

lemma update_stats_min_le_total (bs : List Block) (st : Stats)
    (hp : IsPartition bs st.total_size)
    (hm : st.min_free_bytes ≤ st.total_size) :
    (common_update_stats bs st).min_free_bytes ≤
      (common_update_stats bs st).total_size := by
  have hf := isPartition_free_le bs st.total_size hp
  simp only [common_update_stats]
  try dsimp only
  split_ifs <;> omega

lemma heap2_malloc_min_le (s : Heap2.H2State) (n : Nat)
    (hp : IsPartition s.blocks s.stats.total_size)
    (hm : s.stats.min_free_bytes ≤ s.stats.total_size) :
    (Heap2.heap_malloc s n).2.stats.min_free_bytes ≤
      (Heap2.heap_malloc s n).2.stats.total_size := by
  have hpx := heap2_malloc_partition s n s.stats.total_size hp
  cases hsearch : best_fit_search s.free_list (align8 n + headerSize) with
  | none =>
    simp only [Heap2.heap_malloc, hsearch]
    show (common_add_log _ _ _ _ _ _ _).2.min_free_bytes ≤
      (common_add_log _ _ _ _ _ _ _).2.total_size
    rw [common_add_log_min, common_add_log_total]
    exact hm
  | some ind =>
    obtain ⟨i, nd⟩ := ind
    cases hfind : s.blocks.findIdx?
        (fun bb => decide (bb.offset = nd.1) && isFreeish bb) with
    | none =>
      simp only [Heap2.heap_malloc, hsearch, hfind] at hpx ⊢
      refine update_stats_min_le_total _ _ ?_ ?_
      · show IsPartition _ (common_add_log _ _ _ _ _ _ _).2.total_size
        rw [common_add_log_total]
        exact hpx
      · show (common_add_log _ _ _ _ _ _ _).2.min_free_bytes ≤
          (common_add_log _ _ _ _ _ _ _).2.total_size
        rw [common_add_log_min, common_add_log_total]
        exact hm
    | some j =>
      cases hget : s.blocks[j]? with
      | none =>
        simp only [Heap2.heap_malloc, hsearch, hfind,
          List.get?_eq_getElem?, hget] at hpx ⊢
        refine update_stats_min_le_total _ _ ?_ ?_
        · show IsPartition _ (common_add_log _ _ _ _ _ _ _).2.total_size
          rw [common_add_log_total]
          exact hpx
        · show (common_add_log _ _ _ _ _ _ _).2.min_free_bytes ≤
            (common_add_log _ _ _ _ _ _ _).2.total_size
          rw [common_add_log_min, common_add_log_total]
          exact hm
      | some b =>
        simp only [Heap2.heap_malloc, hsearch, hfind,
          List.get?_eq_getElem?, hget] at hpx ⊢
        split_ifs at hpx ⊢ <;>
          (refine update_stats_min_le_total _ _ ?_ ?_
           · show IsPartition _ (common_add_log _ _ _ _ _ _ _).2.total_size
             rw [common_add_log_total]
             exact hpx
           · show (common_add_log _ _ _ _ _ _ _).2.min_free_bytes ≤
               (common_add_log _ _ _ _ _ _ _).2.total_size
             rw [common_add_log_min, common_add_log_total]
             exact hm)

lemma heap2_free_min_le (s : Heap2.H2State) (p : Nat)
    (hp : IsPartition s.blocks s.stats.total_size)
    (hm : s.stats.min_free_bytes ≤ s.stats.total_size) :
    (Heap2.heap_free s p).stats.min_free_bytes ≤
      (Heap2.heap_free s p).stats.total_size := by
  have hpx := heap2_free_partition s p s.stats.total_size hp
  cases hfind : s.blocks.findIdx?
      (fun b => decide (b.offset = p - headerSize) &&
        decide (b.state = BlockState.ALLOCATED)) with
  | none =>
    simp only [Heap2.heap_free, hfind] at hpx ⊢
    refine update_stats_min_le_total _ _ ?_ ?_
    · show IsPartition _ (common_add_log _ _ _ _ _ _ _).2.total_size
      rw [common_add_log_total]
      exact hpx
    · show (common_add_log _ _ _ _ _ _ _).2.min_free_bytes ≤
        (common_add_log _ _ _ _ _ _ _).2.total_size
      rw [common_add_log_min, common_add_log_total]
      exact hm
  | some j =>
    cases hget : s.blocks[j]? with
    | none =>
      simp only [Heap2.heap_free, hfind, List.get?_eq_getElem?, hget]
        at hpx ⊢
      refine update_stats_min_le_total _ _ ?_ ?_
      · show IsPartition _ (common_add_log _ _ _ _ _ _ _).2.total_size
        rw [common_add_log_total]
        exact hpx
      · show (common_add_log _ _ _ _ _ _ _).2.min_free_bytes ≤
          (common_add_log _ _ _ _ _ _ _).2.total_size
        rw [common_add_log_min, common_add_log_total]
        exact hm
    | some b =>
      simp only [Heap2.heap_free, hfind, List.get?_eq_getElem?, hget]
        at hpx ⊢
      refine update_stats_min_le_total _ _ ?_ ?_
      · show IsPartition _ (common_add_log _ _ _ _ _ _ _).2.total_size
        rw [common_add_log_total]
        exact hpx
      · show (common_add_log _ _ _ _ _ _ _).2.min_free_bytes ≤
          (common_add_log _ _ _ _ _ _ _).2.total_size
        rw [common_add_log_min, common_add_log_total]
        exact hm

lemma heap2_init_min_le (S : Nat) :
    (Heap2.heap_init S).stats.min_free_bytes ≤
      (Heap2.heap_init S).stats.total_size := by
  show (common_add_log _ _ _ _ _ _ _).2.min_free_bytes ≤
    (common_add_log _ _ _ _ _ _ _).2.total_size
  rw [common_add_log_min, common_add_log_total]
  refine update_stats_min_le_total _ _ ?_ ?_
  · show IsPartition
      [(⟨0, if MAX_HEAP_SIZE < S then MAX_HEAP_SIZE else S,
        BlockState.FREE, 0, 0, 0, 0⟩ : Block)]
      (if MAX_HEAP_SIZE < S then MAX_HEAP_SIZE else S)
    exact ⟨_, List.Perm.refl _, ⟨rfl, by simp [ChainCover]⟩⟩
  · exact Nat.le_refl _

lemma heap2_run_min_le (S : Nat) (ops : List HOp) :
    (Heap2.run S ops).stats.min_free_bytes ≤
      (Heap2.run S ops).stats.total_size := by
  suffices h : ∀ (l : List HOp) (s : Heap2.H2State),
      IsPartition s.blocks s.stats.total_size →
      s.stats.min_free_bytes ≤ s.stats.total_size →
      IsPartition (l.foldl Heap2.step s).blocks
        (l.foldl Heap2.step s).stats.total_size ∧
      (l.foldl Heap2.step s).stats.min_free_bytes ≤
        (l.foldl Heap2.step s).stats.total_size by
    exact (h ops _ (heap2_init_inv S) (heap2_init_min_le S)).2
  intro l
  induction l with
  | nil =>
    intro s hs hm
    exact ⟨hs, hm⟩
  | cons op rest ih =>
    intro s hs hm
    rw [List.foldl_cons]
    cases op with
    | malloc n =>
      refine ih _ ?_ ?_
      · show IsPartition (Heap2.heap_malloc s n).2.blocks
          (Heap2.heap_malloc s n).2.stats.total_size
        rw [heap2_malloc_total]
        exact heap2_malloc_partition s n _ hs
      · exact heap2_malloc_min_le s n hs hm
    | free p =>
      refine ih _ ?_ ?_
      · show IsPartition (Heap2.heap_free s p).blocks
          (Heap2.heap_free s p).stats.total_size
        rw [heap2_free_total]
        exact heap2_free_partition s p _ hs
      · exact heap2_free_min_le s p hs hm


/-! ### heap_4: `min_free_bytes` is untouched outside the shared
recomputation, and stays below `total_size` at every reachable state -/

lemma coalesceLeft_min (bs : List Block) (idx : Nat) (st : Stats) :
    (Heap4.coalesceLeft bs idx st).2.2.1.min_free_bytes =
      st.min_free_bytes := by
  rw [Heap4.coalesceLeft]
  repeat' split
  all_goals rfl

lemma coalesceRight_min (bs1 : List Block) (idx1 : Nat) (st1 : Stats) :
    (Heap4.coalesceRight bs1 idx1 st1).2.1.min_free_bytes =
      st1.min_free_bytes := by
  rw [Heap4.coalesceRight]
  repeat' split
  all_goals rfl

lemma heap4_inc_min (s : Heap4.H4State) (fo : Nat) :
    (Heap4.immediate_neighbor_coalesce s fo).stats.min_free_bytes =
      s.stats.min_free_bytes := by
  cases hfind : (common_sort_blocks s.blocks).findIdx?
      (fun b => decide (b.offset = fo)) with
  | none =>
    simp only [Heap4.immediate_neighbor_coalesce, hfind]
  | some idx =>
    simp only [Heap4.immediate_neighbor_coalesce, hfind]
    split
    · rw [common_add_log_min, coalesceRight_min, coalesceLeft_min]
    · rw [coalesceRight_min, coalesceLeft_min]

lemma heap4_fc_min (s : Heap4.H4State) :
    (Heap4.full_coalesce s).stats.min_free_bytes =
      s.stats.min_free_bytes := by
  simp only [Heap4.full_coalesce]
  split
  · rw [common_add_log_min]
  · rfl

lemma heap4_update_stats_total (s : Heap4.H4State) :
    (Heap4.update_stats s).stats.total_size = s.stats.total_size :=
  common_update_stats_total s.blocks s.stats

lemma heap4_searchState_min_le (s : Heap4.H4State)
    (hp : IsPartition s.blocks s.stats.total_size)
    (hpos : PosSizes s.blocks)
    (hm : s.stats.min_free_bytes ≤ s.stats.total_size) :
    (Heap4.searchState s).stats.min_free_bytes ≤
      (Heap4.searchState s).stats.total_size := by
  have h0 : (Heap4.update_stats s).stats.min_free_bytes ≤
      (Heap4.update_stats s).stats.total_size :=
    update_stats_min_le_total s.blocks s.stats hp hm
  have hfcT : (Heap4.full_coalesce (Heap4.update_stats s)).stats.total_size =
      s.stats.total_size := by
    rw [heap4_fc_total, heap4_update_stats_total]
  simp only [Heap4.searchState]
  split
  · have h1 : IsPartition
        (Heap4.full_coalesce (Heap4.update_stats s)).blocks
        (Heap4.full_coalesce (Heap4.update_stats s)).stats.total_size := by
      rw [hfcT]
      exact (heap4_fc_inv (Heap4.update_stats s) s.stats.total_size hp
        hpos).1
    have h2 : (Heap4.full_coalesce
        (Heap4.update_stats s)).stats.min_free_bytes ≤
        (Heap4.full_coalesce (Heap4.update_stats s)).stats.total_size := by
      rw [heap4_fc_min, heap4_fc_total]
      exact h0
    exact update_stats_min_le_total _ _ h1 h2
  · exact h0

lemma heap4_alloc_with_min_le (s1 : Heap4.H4State) (i : Nat)
    (nd : Nat × Nat) (n : Nat)
    (hp : IsPartition s1.blocks s1.stats.total_size)
    (hpos : PosSizes s1.blocks)
    (hm : s1.stats.min_free_bytes ≤ s1.stats.total_size) :
    (Heap4.heap4_alloc_with s1 i nd n).2.stats.min_free_bytes ≤
      (Heap4.heap4_alloc_with s1 i nd n).2.stats.total_size := by
  have hpx := (heap4_alloc_with_inv s1 i nd n s1.stats.total_size hp
    hpos).1
  cases hfind : s1.blocks.findIdx?
      (fun bb => decide (bb.offset = nd.1) && isFreeish bb) with
  | none =>
    simp only [Heap4.heap4_alloc_with, hfind] at hpx ⊢
    refine update_stats_min_le_total _ _ ?_ ?_
    · show IsPartition _ (common_add_log _ _ _ _ _ _ _).2.total_size
      rw [common_add_log_total]
      exact hpx
    · show (common_add_log _ _ _ _ _ _ _).2.min_free_bytes ≤
        (common_add_log _ _ _ _ _ _ _).2.total_size
      rw [common_add_log_min, common_add_log_total]
      exact hm
  | some j =>
    cases hget : s1.blocks[j]? with
    | none =>
      simp only [Heap4.heap4_alloc_with, hfind,
        List.get?_eq_getElem?, hget] at hpx ⊢
      refine update_stats_min_le_total _ _ ?_ ?_
      · show IsPartition _ (common_add_log _ _ _ _ _ _ _).2.total_size
        rw [common_add_log_total]
        exact hpx
      · show (common_add_log _ _ _ _ _ _ _).2.min_free_bytes ≤
          (common_add_log _ _ _ _ _ _ _).2.total_size
        rw [common_add_log_min, common_add_log_total]
        exact hm
    | some b =>
      simp only [Heap4.heap4_alloc_with, hfind,
        List.get?_eq_getElem?, hget] at hpx ⊢
      split_ifs at hpx ⊢ <;>
        (refine update_stats_min_le_total _ _ ?_ ?_
         · show IsPartition _ (common_add_log _ _ _ _ _ _ _).2.total_size
           rw [common_add_log_total]
           exact hpx
         · show (common_add_log _ _ _ _ _ _ _).2.min_free_bytes ≤
             (common_add_log _ _ _ _ _ _ _).2.total_size
           rw [common_add_log_min, common_add_log_total]
           exact hm)

lemma heap4_malloc_min_le (s : Heap4.H4State) (n : Nat)
    (hp : IsPartition s.blocks s.stats.total_size)
    (hpos : PosSizes s.blocks)
    (hm : s.stats.min_free_bytes ≤ s.stats.total_size) :
    (Heap4.heap_malloc s n).2.stats.min_free_bytes ≤
      (Heap4.heap_malloc s n).2.stats.total_size := by
  have hpS : IsPartition (Heap4.searchState s).blocks
      (Heap4.searchState s).stats.total_size := by
    rw [heap4_searchState_total]
    exact (heap4_searchState_inv s s.stats.total_size hp hpos).1
  have hposS : PosSizes (Heap4.searchState s).blocks :=
    (heap4_searchState_inv s s.stats.total_size hp hpos).2
  have hmS := heap4_searchState_min_le s hp hpos hm
  cases hsearch : best_fit_search (Heap4.searchState s).free_list
      (align8 n + headerSize) with
  | some ind =>
    obtain ⟨i, nd⟩ := ind
    simp only [Heap4.heap_malloc, hsearch]
    exact heap4_alloc_with_min_le (Heap4.searchState s) i nd n hpS hposS
      hmS
  | none =>
    by_cases hpend : (Heap4.searchState s).coalesce_pending = true
    · have hpF : IsPartition
          (Heap4.full_coalesce (Heap4.searchState s)).blocks
          (Heap4.full_coalesce (Heap4.searchState s)).stats.total_size := by
        rw [heap4_fc_total]
        exact (heap4_fc_inv (Heap4.searchState s)
          (Heap4.searchState s).stats.total_size hpS hposS).1
      have hposF : PosSizes
          (Heap4.full_coalesce (Heap4.searchState s)).blocks :=
        (heap4_fc_inv (Heap4.searchState s)
          (Heap4.searchState s).stats.total_size hpS hposS).2
      have hmF : (Heap4.full_coalesce
          (Heap4.searchState s)).stats.min_free_bytes ≤
          (Heap4.full_coalesce (Heap4.searchState s)).stats.total_size := by
        rw [heap4_fc_min, heap4_fc_total]
        exact hmS
      cases hsearch2 : best_fit_search
          (Heap4.full_coalesce (Heap4.searchState s)).free_list
          (align8 n + headerSize) with
      | some ind2 =>
        obtain ⟨i2, nd2⟩ := ind2
        simp only [Heap4.heap_malloc, hsearch, hpend, if_true, hsearch2]
        exact heap4_alloc_with_min_le _ i2 nd2 n hpF hposF hmF
      | none =>
        simp only [Heap4.heap_malloc, hsearch, hpend, if_true, hsearch2]
        show (common_add_log _ _ _ _ _ _ _).2.min_free_bytes ≤
          (common_add_log _ _ _ _ _ _ _).2.total_size
        rw [common_add_log_min, common_add_log_total]
        exact hmF
    · simp only [Heap4.heap_malloc, hsearch, hpend]
      simp only [Bool.false_eq_true, if_false]
      show (common_add_log _ _ _ _ _ _ _).2.min_free_bytes ≤
        (common_add_log _ _ _ _ _ _ _).2.total_size
      rw [common_add_log_min, common_add_log_total]
      exact hmS

lemma heap4_free_min_le (s : Heap4.H4State) (p : Nat)
    (hp : IsPartition s.blocks s.stats.total_size)
    (hpos : PosSizes s.blocks)
    (hm : s.stats.min_free_bytes ≤ s.stats.total_size) :
    (Heap4.heap_free s p).stats.min_free_bytes ≤
      (Heap4.heap_free s p).stats.total_size := by
  have hpx := (heap4_free_inv s p s.stats.total_size hp hpos).1
  cases hfind : s.blocks.findIdx?
      (fun b => decide (b.offset = p - headerSize) &&
        decide (b.state = BlockState.ALLOCATED)) with
  | none =>
    simp only [Heap4.heap_free, hfind] at hpx ⊢
    refine update_stats_min_le_total _ _ ?_ ?_
    · show IsPartition _ (common_add_log _ _ _ _ _ _ _).2.total_size
      rw [common_add_log_total, heap4_inc_total]
      exact hpx
    · show (common_add_log _ _ _ _ _ _ _).2.min_free_bytes ≤
        (common_add_log _ _ _ _ _ _ _).2.total_size
      rw [common_add_log_min, common_add_log_total, heap4_inc_min,
        heap4_inc_total]
      exact hm
  | some j =>
    cases hget : s.blocks[j]? with
    | none =>
      simp only [Heap4.heap_free, hfind, List.get?_eq_getElem?, hget]
        at hpx ⊢
      refine update_stats_min_le_total _ _ ?_ ?_
      · show IsPartition _ (common_add_log _ _ _ _ _ _ _).2.total_size
        rw [common_add_log_total, heap4_inc_total]
        exact hpx
      · show (common_add_log _ _ _ _ _ _ _).2.min_free_bytes ≤
          (common_add_log _ _ _ _ _ _ _).2.total_size
        rw [common_add_log_min, common_add_log_total, heap4_inc_min,
          heap4_inc_total]
        exact hm
    | some b =>
      simp only [Heap4.heap_free, hfind, List.get?_eq_getElem?, hget]
        at hpx ⊢
      refine update_stats_min_le_total _ _ ?_ ?_
      · show IsPartition _ (common_add_log _ _ _ _ _ _ _).2.total_size
        rw [common_add_log_total, heap4_inc_total]
        exact hpx
      · show (common_add_log _ _ _ _ _ _ _).2.min_free_bytes ≤
          (common_add_log _ _ _ _ _ _ _).2.total_size
        rw [common_add_log_min, common_add_log_total, heap4_inc_min,
          heap4_inc_total]
        exact hm

lemma heap4_init_min_le (S : Nat) :
    (Heap4.heap_init S).stats.min_free_bytes ≤
      (Heap4.heap_init S).stats.total_size := by
  show (common_add_log _ _ _ _ _ _ _).2.min_free_bytes ≤
    (common_add_log _ _ _ _ _ _ _).2.total_size
  rw [common_add_log_min, common_add_log_total]
  refine update_stats_min_le_total _ _ ?_ ?_
  · show IsPartition
      [(⟨0, if MAX_HEAP_SIZE < S then MAX_HEAP_SIZE else S,
        BlockState.FREE, 0, 0, 0, 0⟩ : Block)]
      (if MAX_HEAP_SIZE < S then MAX_HEAP_SIZE else S)
    exact ⟨_, List.Perm.refl _, ⟨rfl, by simp [ChainCover]⟩⟩
  · exact Nat.le_refl _

lemma heap4_run_min_le (S : Nat) (ops : List HOp) :
    (Heap4.run S ops).stats.min_free_bytes ≤
      (Heap4.run S ops).stats.total_size := by
  suffices h : ∀ (l : List HOp) (s : Heap4.H4State),
      IsPartition s.blocks s.stats.total_size →
      PosSizes s.blocks →
      s.stats.min_free_bytes ≤ s.stats.total_size →
      IsPartition (l.foldl Heap4.step s).blocks
        (l.foldl Heap4.step s).stats.total_size ∧
      PosSizes (l.foldl Heap4.step s).blocks ∧
      (l.foldl Heap4.step s).stats.min_free_bytes ≤
        (l.foldl Heap4.step s).stats.total_size by
    exact (h ops _ (heap4_init_inv S).1 (heap4_init_inv S).2
      (heap4_init_min_le S)).2.2
  intro l
  induction l with
  | nil =>
    intro s hs hpos hm
    exact ⟨hs, hpos, hm⟩
  | cons op rest ih =>
    intro s hs hpos hm
    rw [List.foldl_cons]
    cases op with
    | malloc n =>
      refine ih _ ?_ ?_ ?_
      · show IsPartition (Heap4.heap_malloc s n).2.blocks
          (Heap4.heap_malloc s n).2.stats.total_size
        rw [heap4_malloc_total]
        exact (heap4_malloc_inv s n _ hs hpos).1
      · exact (heap4_malloc_inv s n _ hs hpos).2
      · exact heap4_malloc_min_le s n hs hpos hm
    | free p =>
      refine ih _ ?_ ?_ ?_
      · show IsPartition (Heap4.heap_free s p).blocks
          (Heap4.heap_free s p).stats.total_size
        rw [heap4_free_total]
        exact (heap4_free_inv s p _ hs hpos).1
      · exact (heap4_free_inv s p _ hs hpos).2
      · exact heap4_free_min_le s p hs hpos hm

/-! ### List-sum helpers for the capacity bounds of heap_3 and heap_5 -/

lemma nat_sum_set_add (l : List Nat) : ∀ (k v : Nat), k < l.length →
    (l.set k v).sum + l.getD k 0 = l.sum + v := by
  induction l with
  | nil =>
    intro k v h
    cases h
  | cons a t ih =>
    intro k v h
    cases k with
    | zero =>
      simp [List.sum_cons]
      omega
    | succ k2 =>
      have h2 := ih k2 v (by simpa using h)
      simp only [List.set, List.sum_cons, List.getD_cons_succ]
      omega

lemma nat_sum_eraseIdx_add (l : List Nat) : ∀ (k : Nat), k < l.length →
    (l.eraseIdx k).sum + l.getD k 0 = l.sum := by
  induction l with
  | nil =>
    intro k h
    cases h
  | cons a t ih =>
    intro k h
    cases k with
    | zero =>
      simp [List.sum_cons]
      omega
    | succ k2 =>
      have h2 := ih k2 (by simpa using h)
      simp only [List.eraseIdx_cons_succ, List.sum_cons,
        List.getD_cons_succ]
      omega

lemma nat_map_eraseIdx {α : Type} (f : α → Nat) (l : List α) :
    ∀ (k : Nat), (l.eraseIdx k).map f = (l.map f).eraseIdx k := by
  induction l with
  | nil =>
    intro k
    rfl
  | cons a t ih =>
    intro k
    cases k with
    | zero => rfl
    | succ k2 =>
      simp only [List.eraseIdx_cons_succ, List.map_cons]
      rw [ih k2]

lemma list_set_getElem_self {α : Type} (l : List α) (k : Nat)
    (h : k < l.length) : l.set k l[k] = l := by
  apply List.ext_getElem?
  intro i
  rw [List.getElem?_set]
  split_ifs with h1
  · subst h1
    rw [List.getElem?_eq_getElem h]
  · rfl

/-- Replacing a row by one on which `f` agrees leaves `map f` unchanged. -/
lemma map_fn_set_eq {β : Type} (f : Block → β) (bs : List Block) (j : Nat)
    (b b2 : Block) (hb : bs[j]? = some b) (hf : f b2 = f b) :
    (bs.set j b2).map f = bs.map f := by
  obtain ⟨hj, hjb⟩ := List.getElem?_eq_some_iff.mp hb
  rw [List.map_set]
  have hj2 : j < (bs.map f).length := by
    rw [List.length_map]
    exact hj
  have hbo : (bs.map f)[j] = f b2 := by
    simp only [List.getElem_map]
    rw [hjb, hf]
  rw [← hbo]
  exact list_set_getElem_self _ _ hj2

/-- The free rows' sizes sum to at most the whole table's sizes. -/
lemma filter_freeish_sum_le (bs : List Block) :
    ((bs.filter isFreeish).map Block.size).sum ≤
      (bs.map Block.size).sum :=
  ((bs.filter_sublist).map Block.size).sum_le_sum
    (fun _ _ => Nat.zero_le _)

/-- The shared recomputation keeps `min_free_bytes ≤ total_size` whenever
the free total is bounded by `total_size`. -/
lemma update_stats_min_le_of_free_le (bs : List Block) (st : Stats)
    (hf : ((bs.filter isFreeish).map Block.size).sum ≤ st.total_size)
    (hm : st.min_free_bytes ≤ st.total_size) :
    (common_update_stats bs st).min_free_bytes ≤
      (common_update_stats bs st).total_size := by
  simp only [common_update_stats]
  try dsimp only
  split_ifs <;> omega

/-! ### heap_5: `update_global_stats` rules and the capacity bound -/

lemma heap5_ugs_total (s : Heap5.H5State) :
    (Heap5.update_global_stats s).stats.total_size =
      s.stats.total_size := rfl

lemma heap5_ugs_blocks (s : Heap5.H5State) :
    (Heap5.update_global_stats s).blocks = s.blocks := rfl

/-- heap_5's `update_global_stats` never increases a nonzero
`min_free_bytes` (same `== 0` re-seeding rule as the shared
recomputation). -/
lemma heap5_ugs_min_nonincrease (s : Heap5.H5State)
    (hnz : s.stats.min_free_bytes ≠ 0) :
    (Heap5.update_global_stats s).stats.min_free_bytes ≤
      s.stats.min_free_bytes := by
  simp only [Heap5.update_global_stats]
  try dsimp only
  split_ifs with hc
  · rcases hc with hc | hc
    · exact absurd hc hnz
    · omega
  · exact Nat.le_refl _

lemma heap5_region_zero (b : Block) (l : List Nat)
    (h : b.region_id ∉ l) :
    (l.map fun r => if (isFreeish b && decide (b.region_id = r)) = true
      then b.size else 0).sum = 0 := by
  induction l with
  | nil => rfl
  | cons r t ih =>
    simp only [List.map_cons, List.sum_cons]
    rw [ih (fun hm => h (List.mem_cons_of_mem r hm))]
    have hr : ¬ b.region_id = r := fun he => h (he ▸ List.mem_cons_self r t)
    rw [if_neg (by simp [hr])]

lemma heap5_region_single_le (b : Block) (l : List Nat) (h : l.Nodup) :
    (l.map fun r => if (isFreeish b && decide (b.region_id = r)) = true
      then b.size else 0).sum ≤ b.size := by
  induction l with
  | nil => exact Nat.zero_le _
  | cons r t ih =>
    obtain ⟨hnm, hnd⟩ := List.nodup_cons.mp h
    simp only [List.map_cons, List.sum_cons]
    by_cases hr : b.region_id = r
    · rw [heap5_region_zero b t (by rw [hr]; exact hnm)]
      split_ifs <;> omega
    · rw [if_neg (by simp [hr])]
      have h2 := ih hnd
      omega

/-- Over pairwise-distinct regions, the per-region free totals sum to at
most the whole table's size total. -/
lemma heap5_regions_free_le (rs : List Nat) (hnd : rs.Nodup) :
    ∀ (bs : List Block),
    (rs.map fun r => ((bs.filter fun b =>
      isFreeish b && decide (b.region_id = r)).map Block.size).sum).sum ≤
    (bs.map Block.size).sum := by
  intro bs
  induction bs with
  | nil => simp
  | cons b t ih =>
    have hterm : (rs.map fun r => (((b :: t).filter fun b2 =>
        isFreeish b2 && decide (b2.region_id = r)).map Block.size).sum) =
        rs.map fun r =>
          (if (isFreeish b && decide (b.region_id = r)) = true
            then b.size else 0) +
          ((t.filter fun b2 =>
            isFreeish b2 && decide (b2.region_id = r)).map
              Block.size).sum := by
      refine List.map_congr_left ?_
      intro r hr
      rw [List.filter_cons]
      split_ifs with hc
      · simp [List.sum_cons]
      · simp
    rw [hterm, List.sum_map_add]
    simp only [List.map_cons, List.sum_cons]
    have h1 := heap5_region_single_le b rs hnd
    omega

/-- heap_5's recomputation keeps `min_free_bytes ≤ total_size` whenever the
table's sizes sum to at most `total_size`. -/
lemma heap5_ugs_min_le (s : Heap5.H5State)
    (hsum : (s.blocks.map Block.size).sum ≤ s.stats.total_size)
    (hm : s.stats.min_free_bytes ≤ s.stats.total_size) :
    (Heap5.update_global_stats s).stats.min_free_bytes ≤
      (Heap5.update_global_stats s).stats.total_size := by
  have hfree : (((List.range Heap5.region_count).map fun r =>
      Heap5.update_region_stats s.blocks r
        (s.regions.getD r default)).map Heap5.RegionStats.free_bytes).sum ≤
      s.stats.total_size := by
    rw [List.map_map]
    have heq : ((List.range Heap5.region_count).map
        (Heap5.RegionStats.free_bytes ∘ fun r =>
          Heap5.update_region_stats s.blocks r
            (s.regions.getD r default))) =
        (List.range Heap5.region_count).map fun r =>
          ((s.blocks.filter fun b =>
            isFreeish b && decide (b.region_id = r)).map
              Block.size).sum := by
      refine List.map_congr_left ?_
      intro r hr
      show (((s.blocks.filter fun b =>
        decide (b.region_id = r)).filter isFreeish).map Block.size).sum = _
      rw [List.filter_filter]
    rw [heq]
    exact le_trans
      (heap5_regions_free_le _ (List.nodup_range _) s.blocks) hsum
  simp only [Heap5.update_global_stats]
  try dsimp only
  split_ifs <;> omega

/-! ### heap_5: the table's sizes sum is conserved by every operation -/

lemma coalesceLeft5_sum (vs : List Block) (k region_id : Nat)
    (bs1 : List Block) (idx1 : Nat) (m1 : Bool)
    (heq : Heap5.coalesceLeft vs k region_id = (bs1, idx1, m1)) :
    (bs1.map Block.size).sum ≤ (vs.map Block.size).sum := by
  rw [Heap5.coalesceLeft] at heq
  by_cases h0 : 0 < k
  · rw [if_pos h0] at heq
    cases hg1 : vs.get? (k - 1) with
    | none =>
      simp only [hg1] at heq
      simp only [Prod.mk.injEq] at heq
      obtain ⟨hbs, -, -⟩ := heq
      subst hbs
      exact Nat.le_refl _
    | some g =>
      cases hg2 : vs.get? k with
      | none =>
        simp only [hg1, hg2] at heq
        simp only [Prod.mk.injEq] at heq
        obtain ⟨hbs, -, -⟩ := heq
        subst hbs
        exact Nat.le_refl _
      | some cur =>
        simp only [hg1, hg2] at heq
        by_cases hgd : (decide (g.region_id = region_id) && isFreeish g &&
            decide (g.offset + g.size = cur.offset)) = true
        · rw [if_pos hgd] at heq
          simp only [Prod.mk.injEq] at heq
          obtain ⟨hbs, -, -⟩ := heq
          subst hbs
          rw [List.get?_eq_getElem?] at hg1 hg2
          obtain ⟨hg1l, hg1e⟩ := List.getElem?_eq_some_iff.mp hg1
          obtain ⟨hg2l, hg2e⟩ := List.getElem?_eq_some_iff.mp hg2
          have hmapped : (((vs.set (k - 1)
              { g with size := g.size + cur.size
                       state := BlockState.FREE }).eraseIdx k).map
              Block.size) =
              (((vs.map Block.size).set (k - 1)
                (g.size + cur.size)).eraseIdx k) := by
            rw [nat_map_eraseIdx, List.map_set]
          rw [hmapped]
          have hlen1 : k - 1 < (vs.map Block.size).length := by
            rw [List.length_map]
            omega
          have hlen2 : k <
              ((vs.map Block.size).set (k - 1)
                (g.size + cur.size)).length := by
            rw [List.length_set, List.length_map]
            omega
          have hA := nat_sum_set_add (vs.map Block.size) (k - 1)
            (g.size + cur.size) hlen1
          have hB := nat_sum_eraseIdx_add
            ((vs.map Block.size).set (k - 1) (g.size + cur.size)) k hlen2
          have hgd1 : (vs.map Block.size).getD (k - 1) 0 = g.size := by
            rw [List.getD_eq_getElem?_getD, List.getElem?_map, hg1]
            rfl
          have hgd2 : ((vs.map Block.size).set (k - 1)
              (g.size + cur.size)).getD k 0 = cur.size := by
            rw [List.getD_eq_getElem?_getD, List.getElem?_set,
              if_neg (by omega), List.getElem?_map, hg2]
            rfl
          omega
        · rw [if_neg hgd] at heq
          simp only [Prod.mk.injEq] at heq
          obtain ⟨hbs, -, -⟩ := heq
          subst hbs
          exact Nat.le_refl _
  · rw [if_neg h0] at heq
    simp only [Prod.mk.injEq] at heq
    obtain ⟨hbs, -, -⟩ := heq
    subst hbs
    exact Nat.le_refl _

lemma coalesceRight5_sum (vs : List Block) (k region_id : Nat)
    (bs2 : List Block) (m2 : Bool)
    (heq : Heap5.coalesceRight vs k region_id = (bs2, m2)) :
    (bs2.map Block.size).sum ≤ (vs.map Block.size).sum := by
  rw [Heap5.coalesceRight] at heq
  by_cases hb : k + 1 < vs.length
  · rw [if_pos hb] at heq
    cases hg1 : vs.get? k with
    | none =>
      simp only [hg1] at heq
      simp only [Prod.mk.injEq] at heq
      obtain ⟨hbs, -⟩ := heq
      subst hbs
      exact Nat.le_refl _
    | some cur =>
      cases hg2 : vs.get? (k + 1) with
      | none =>
        simp only [hg1, hg2] at heq
        simp only [Prod.mk.injEq] at heq
        obtain ⟨hbs, -⟩ := heq
        subst hbs
        exact Nat.le_refl _
      | some rb =>
        simp only [hg1, hg2] at heq
        by_cases hgd : (decide (rb.region_id = region_id) &&
            isFreeish rb &&
            decide (cur.offset + cur.size = rb.offset)) = true
        · rw [if_pos hgd] at heq
          simp only [Prod.mk.injEq] at heq
          obtain ⟨hbs, -⟩ := heq
          subst hbs
          rw [List.get?_eq_getElem?] at hg1 hg2
          obtain ⟨hg1l, hg1e⟩ := List.getElem?_eq_some_iff.mp hg1
          obtain ⟨hg2l, hg2e⟩ := List.getElem?_eq_some_iff.mp hg2
          have hmapped : (((vs.set k
              { cur with size := cur.size + rb.size
                         state := BlockState.FREE }).eraseIdx (k + 1)).map
              Block.size) =
              (((vs.map Block.size).set k
                (cur.size + rb.size)).eraseIdx (k + 1)) := by
            rw [nat_map_eraseIdx, List.map_set]
          rw [hmapped]
          have hlen1 : k < (vs.map Block.size).length := by
            rw [List.length_map]
            omega
          have hlen2 : k + 1 <
              ((vs.map Block.size).set k (cur.size + rb.size)).length := by
            rw [List.length_set, List.length_map]
            omega
          have hA := nat_sum_set_add (vs.map Block.size) k
            (cur.size + rb.size) hlen1
          have hB := nat_sum_eraseIdx_add
            ((vs.map Block.size).set k (cur.size + rb.size)) (k + 1) hlen2
          have hgd1 : (vs.map Block.size).getD k 0 = cur.size := by
            rw [List.getD_eq_getElem?_getD, List.getElem?_map, hg1]
            rfl
          have hgd2 : ((vs.map Block.size).set k
              (cur.size + rb.size)).getD (k + 1) 0 = rb.size := by
            rw [List.getD_eq_getElem?_getD, List.getElem?_set,
              if_neg (by omega), List.getElem?_map, hg2]
            rfl
          omega
        · rw [if_neg hgd] at heq
          simp only [Prod.mk.injEq] at heq
          obtain ⟨hbs, -⟩ := heq
          subst hbs
          exact Nat.le_refl _
  · rw [if_neg hb] at heq
    simp only [Prod.mk.injEq] at heq
    obtain ⟨hbs, -⟩ := heq
    subst hbs
    exact Nat.le_refl _

lemma heap5_inc_sum (s : Heap5.H5State) (lo rid : Nat) :
    (((Heap5.immediate_neighbor_coalesce s lo rid).blocks).map
      Block.size).sum ≤ (s.blocks.map Block.size).sum := by
  have hsort : ((common_sort_blocks s.blocks).map Block.size).sum =
      (s.blocks.map Block.size).sum :=
    ((common_sort_blocks_perm s.blocks).map Block.size).sum_eq
  cases hfind : (common_sort_blocks s.blocks).findIdx?
      (fun b => decide (b.offset = lo) && decide (b.region_id = rid)) with
  | none =>
    simp only [Heap5.immediate_neighbor_coalesce, hfind]
    omega
  | some idx =>
    simp only [Heap5.immediate_neighbor_coalesce, hfind]
    have hL := coalesceLeft5_sum (common_sort_blocks s.blocks) idx rid
      (Heap5.coalesceLeft (common_sort_blocks s.blocks) idx rid).1
      (Heap5.coalesceLeft (common_sort_blocks s.blocks) idx rid).2.1
      (Heap5.coalesceLeft (common_sort_blocks s.blocks) idx rid).2.2 rfl
    have hR := coalesceRight5_sum
      (Heap5.coalesceLeft (common_sort_blocks s.blocks) idx rid).1
      (Heap5.coalesceLeft (common_sort_blocks s.blocks) idx rid).2.1 rid
      (Heap5.coalesceRight
        (Heap5.coalesceLeft (common_sort_blocks s.blocks) idx rid).1
        (Heap5.coalesceLeft (common_sort_blocks s.blocks) idx rid).2.1
        rid).1
      (Heap5.coalesceRight
        (Heap5.coalesceLeft (common_sort_blocks s.blocks) idx rid).1
        (Heap5.coalesceLeft (common_sort_blocks s.blocks) idx rid).2.1
        rid).2 rfl
    split_ifs <;> (try dsimp only) <;> omega

lemma heap5_inc_min (s : Heap5.H5State) (lo rid : Nat) :
    (Heap5.immediate_neighbor_coalesce s lo rid).stats.min_free_bytes =
      s.stats.min_free_bytes := by
  cases hfind : (common_sort_blocks s.blocks).findIdx?
      (fun b => decide (b.offset = lo) && decide (b.region_id = rid)) with
  | none =>
    simp only [Heap5.immediate_neighbor_coalesce, hfind]
  | some idx =>
    simp only [Heap5.immediate_neighbor_coalesce, hfind]
    split
    · rw [common_add_log_with_region_min]
    · rfl

lemma heap5_inc_total (s : Heap5.H5State) (lo rid : Nat) :
    (Heap5.immediate_neighbor_coalesce s lo rid).stats.total_size =
      s.stats.total_size := by
  cases hfind : (common_sort_blocks s.blocks).findIdx?
      (fun b => decide (b.offset = lo) && decide (b.region_id = rid)) with
  | none =>
    simp only [Heap5.immediate_neighbor_coalesce, hfind]
  | some idx =>
    simp only [Heap5.immediate_neighbor_coalesce, hfind]
    split
    · rw [common_add_log_with_region_total]
    · rfl

/-- Replacing row `j` with a smaller row and appending a remainder that
together stay within the old row's size keeps the size total bounded. -/
lemma sum_append_set_le (bs : List Block) (j : Nat) (b rem marked : Block)
    (hget : bs[j]? = some b) (hsz : marked.size + rem.size ≤ b.size) :
    (((bs ++ [rem]).set j marked).map Block.size).sum ≤
      (bs.map Block.size).sum := by
  obtain ⟨hjl, hjb⟩ := List.getElem?_eq_some_iff.mp hget
  rw [List.map_set, List.map_append]
  have hjlen2 : j < (bs.map Block.size ++
      [rem].map Block.size).length := by
    rw [List.length_append, List.length_map, List.length_map]
    simp only [List.length_cons, List.length_nil]
    omega
  have hA := nat_sum_set_add (bs.map Block.size ++ [rem].map Block.size)
    j marked.size hjlen2
  have hgd : (bs.map Block.size ++ [rem].map Block.size).getD j 0 =
      b.size := by
    rw [List.getD_eq_getElem?_getD,
      List.getElem?_append_left (by rw [List.length_map]; exact hjl),
      List.getElem?_map, List.getElem?_eq_getElem hjl]
    rw [hjb]
    rfl
  have hsum_app : (bs.map Block.size ++ [rem].map Block.size).sum =
      (bs.map Block.size).sum + rem.size := by
    rw [List.sum_append]
    simp
  omega

/-- Replacing row `j` with a row of no larger size keeps the size total
bounded. -/
lemma sum_set_le (bs : List Block) (j : Nat) (b marked : Block)
    (hget : bs[j]? = some b) (hsz : marked.size ≤ b.size) :
    ((bs.set j marked).map Block.size).sum ≤
      (bs.map Block.size).sum := by
  obtain ⟨hjl, hjb⟩ := List.getElem?_eq_some_iff.mp hget
  rw [List.map_set]
  have hA := nat_sum_set_add (bs.map Block.size) j marked.size
    (by rw [List.length_map]; exact hjl)
  have hgd : (bs.map Block.size).getD j 0 = b.size := by
    rw [List.getD_eq_getElem?_getD, List.getElem?_map,
      List.getElem?_eq_getElem hjl]
    rw [hjb]
    rfl
  omega

lemma heap5_malloc_total (s : Heap5.H5State) (n fl : Nat) :
    (Heap5.heap_malloc_flags s n fl).2.stats.total_size =
      s.stats.total_size := by
  cases hsearch : Heap5.heap5_search s.free_lists fl
      (align8 n + headerSize) with
  | none =>
    simp [Heap5.heap_malloc_flags, hsearch,
      common_add_log_with_region_total]
  | some out =>
    obtain ⟨r, i, nd⟩ := out
    cases hfind : s.blocks.findIdx? (fun b =>
        decide (b.region_id = r) && decide (b.offset = nd.1) &&
        isFreeish b) with
    | none =>
      simp [Heap5.heap_malloc_flags, hsearch, hfind, heap5_ugs_total,
        common_add_log_with_region_total]
    | some j =>
      cases hget : s.blocks[j]? with
      | none =>
        simp [Heap5.heap_malloc_flags, hsearch, hfind,
          List.get?_eq_getElem?, hget, heap5_ugs_total,
          common_add_log_with_region_total]
      | some b =>
        simp only [Heap5.heap_malloc_flags, hsearch, hfind,
          List.get?_eq_getElem?, hget]
        split_ifs <;>
          simp [heap5_ugs_total, common_add_log_with_region_total]

lemma heap5_malloc_sum (s : Heap5.H5State) (n fl : Nat) :
    (((Heap5.heap_malloc_flags s n fl).2.blocks).map Block.size).sum ≤
      (s.blocks.map Block.size).sum := by
  cases hsearch : Heap5.heap5_search s.free_lists fl
      (align8 n + headerSize) with
  | none =>
    simp [Heap5.heap_malloc_flags, hsearch]
  | some out =>
    obtain ⟨r, i, nd⟩ := out
    cases hfind : s.blocks.findIdx? (fun b =>
        decide (b.region_id = r) && decide (b.offset = nd.1) &&
        isFreeish b) with
    | none =>
      simp only [Heap5.heap_malloc_flags, hsearch, hfind,
        heap5_ugs_blocks]
      exact Nat.le_of_eq
        (((common_sort_blocks_perm _).map Block.size).sum_eq)
    | some j =>
      cases hget : s.blocks[j]? with
      | none =>
        simp only [Heap5.heap_malloc_flags, hsearch, hfind,
          List.get?_eq_getElem?, hget, heap5_ugs_blocks]
        exact Nat.le_of_eq
          (((common_sort_blocks_perm _).map Block.size).sum_eq)
      | some b =>
        simp only [Heap5.heap_malloc_flags, hsearch, hfind,
          List.get?_eq_getElem?, hget, heap5_ugs_blocks]
        split_ifs with hc
        · rw [((common_sort_blocks_perm _).map Block.size).sum_eq]
          refine sum_append_set_le s.blocks j b _ _ hget ?_
          show align8 n + headerSize +
            (b.size - (align8 n + headerSize)) ≤ b.size
          omega
        · rw [((common_sort_blocks_perm _).map Block.size).sum_eq]
          refine sum_set_le s.blocks j b _ hget ?_
          show b.size ≤ b.size
          exact Nat.le_refl _

lemma heap5_malloc_min_le (s : Heap5.H5State) (n fl : Nat)
    (hsum : (s.blocks.map Block.size).sum ≤ s.stats.total_size)
    (hm : s.stats.min_free_bytes ≤ s.stats.total_size) :
    (Heap5.heap_malloc_flags s n fl).2.stats.min_free_bytes ≤
      (Heap5.heap_malloc_flags s n fl).2.stats.total_size := by
  cases hsearch : Heap5.heap5_search s.free_lists fl
      (align8 n + headerSize) with
  | none =>
    simp only [Heap5.heap_malloc_flags, hsearch]
    show (common_add_log_with_region _ _ _ _ _ _ _ _ _).2.min_free_bytes ≤
      (common_add_log_with_region _ _ _ _ _ _ _ _ _).2.total_size
    rw [common_add_log_with_region_min, common_add_log_with_region_total]
    exact hm
  | some out =>
    obtain ⟨r, i, nd⟩ := out
    cases hfind : s.blocks.findIdx? (fun b =>
        decide (b.region_id = r) && decide (b.offset = nd.1) &&
        isFreeish b) with
    | none =>
      simp only [Heap5.heap_malloc_flags, hsearch, hfind]
      refine heap5_ugs_min_le _ ?_ ?_
      · try dsimp only
        rw [common_add_log_with_region_total,
          ((common_sort_blocks_perm _).map Block.size).sum_eq]
        exact hsum
      · try dsimp only
        rw [common_add_log_with_region_min,
          common_add_log_with_region_total]
        exact hm
    | some j =>
      cases hget : s.blocks[j]? with
      | none =>
        simp only [Heap5.heap_malloc_flags, hsearch, hfind,
          List.get?_eq_getElem?, hget]
        refine heap5_ugs_min_le _ ?_ ?_
        · try dsimp only
          rw [common_add_log_with_region_total,
            ((common_sort_blocks_perm _).map Block.size).sum_eq]
          exact hsum
        · try dsimp only
          rw [common_add_log_with_region_min,
            common_add_log_with_region_total]
          exact hm
      | some b =>
        simp only [Heap5.heap_malloc_flags, hsearch, hfind,
          List.get?_eq_getElem?, hget]
        split_ifs with hc
        · refine heap5_ugs_min_le _ ?_ ?_
          · try dsimp only
            rw [common_add_log_with_region_total,
              ((common_sort_blocks_perm _).map Block.size).sum_eq]
            refine le_trans (sum_append_set_le s.blocks j b _ _ hget ?_)
              hsum
            show align8 n + headerSize +
              (b.size - (align8 n + headerSize)) ≤ b.size
            omega
          · try dsimp only
            rw [common_add_log_with_region_min,
              common_add_log_with_region_total]
            exact hm
        · refine heap5_ugs_min_le _ ?_ ?_
          · try dsimp only
            rw [common_add_log_with_region_total,
              ((common_sort_blocks_perm _).map Block.size).sum_eq]
            refine le_trans (sum_set_le s.blocks j b _ hget ?_) hsum
            show b.size ≤ b.size
            exact Nat.le_refl _
          · try dsimp only
            rw [common_add_log_with_region_min,
              common_add_log_with_region_total]
            exact hm

lemma heap5_free_total (s : Heap5.H5State) (p : Nat × Nat) :
    (Heap5.heap_free s p).stats.total_size = s.stats.total_size := by
  cases hfind : s.blocks.findIdx? (fun b =>
      decide (b.offset = p.2 - headerSize) &&
      decide (b.region_id = (if p.1 < Heap5.region_count ∧
        p.2 - headerSize < Heap5.regionSize p.1 then p.1 else 0)) &&
      decide (b.state = BlockState.ALLOCATED)) with
  | none =>
    simp [Heap5.heap_free, hfind, heap5_ugs_total,
      common_add_log_with_region_total, heap5_inc_total]
  | some j =>
    cases hget : s.blocks[j]? with
    | none =>
      simp [Heap5.heap_free, hfind, List.get?_eq_getElem?, hget,
        heap5_ugs_total, common_add_log_with_region_total,
        heap5_inc_total]
    | some b =>
      simp [Heap5.heap_free, hfind, List.get?_eq_getElem?, hget,
        heap5_ugs_total, common_add_log_with_region_total,
        heap5_inc_total]

lemma heap5_free_sum (s : Heap5.H5State) (p : Nat × Nat) :
    (((Heap5.heap_free s p).blocks).map Block.size).sum ≤
      (s.blocks.map Block.size).sum := by
  cases hfind : s.blocks.findIdx? (fun b =>
      decide (b.offset = p.2 - headerSize) &&
      decide (b.region_id = (if p.1 < Heap5.region_count ∧
        p.2 - headerSize < Heap5.regionSize p.1 then p.1 else 0)) &&
      decide (b.state = BlockState.ALLOCATED)) with
  | none =>
    simp only [Heap5.heap_free, hfind, heap5_ugs_blocks]
    rw [((common_sort_blocks_perm _).map Block.size).sum_eq]
    exact heap5_inc_sum _ _ _
  | some j =>
    cases hget : s.blocks[j]? with
    | none =>
      simp only [Heap5.heap_free, hfind, List.get?_eq_getElem?, hget,
        heap5_ugs_blocks]
      rw [((common_sort_blocks_perm _).map Block.size).sum_eq]
      exact heap5_inc_sum _ _ _
    | some b =>
      simp only [Heap5.heap_free, hfind, List.get?_eq_getElem?, hget,
        heap5_ugs_blocks]
      rw [((common_sort_blocks_perm _).map Block.size).sum_eq]
      refine le_trans (heap5_inc_sum _ _ _) ?_
      try dsimp only
      rw [map_fn_set_eq Block.size s.blocks j b
        { b with state := BlockState.FREED, allocation_id := 0,
                 requested_size := 0 } hget rfl]

lemma heap5_free_min_le (s : Heap5.H5State) (p : Nat × Nat)
    (hsum : (s.blocks.map Block.size).sum ≤ s.stats.total_size)
    (hm : s.stats.min_free_bytes ≤ s.stats.total_size) :
    (Heap5.heap_free s p).stats.min_free_bytes ≤
      (Heap5.heap_free s p).stats.total_size := by
  cases hfind : s.blocks.findIdx? (fun b =>
      decide (b.offset = p.2 - headerSize) &&
      decide (b.region_id = (if p.1 < Heap5.region_count ∧
        p.2 - headerSize < Heap5.regionSize p.1 then p.1 else 0)) &&
      decide (b.state = BlockState.ALLOCATED)) with
  | none =>
    simp only [Heap5.heap_free, hfind]
    refine heap5_ugs_min_le _ ?_ ?_
    · try dsimp only
      rw [common_add_log_with_region_total, heap5_inc_total,
        ((common_sort_blocks_perm _).map Block.size).sum_eq]
      refine le_trans (heap5_inc_sum _ _ _) ?_
      exact hsum
    · try dsimp only
      rw [common_add_log_with_region_min,
        common_add_log_with_region_total, heap5_inc_min,
        heap5_inc_total]
      exact hm
  | some j =>
    cases hget : s.blocks[j]? with
    | none =>
      simp only [Heap5.heap_free, hfind, List.get?_eq_getElem?, hget]
      refine heap5_ugs_min_le _ ?_ ?_
      · try dsimp only
        rw [common_add_log_with_region_total, heap5_inc_total,
          ((common_sort_blocks_perm _).map Block.size).sum_eq]
        refine le_trans (heap5_inc_sum _ _ _) ?_
        exact hsum
      · try dsimp only
        rw [common_add_log_with_region_min,
          common_add_log_with_region_total, heap5_inc_min,
          heap5_inc_total]
        exact hm
    | some b =>
      simp only [Heap5.heap_free, hfind, List.get?_eq_getElem?, hget]
      refine heap5_ugs_min_le _ ?_ ?_
      · try dsimp only
        rw [common_add_log_with_region_total, heap5_inc_total,
          ((common_sort_blocks_perm _).map Block.size).sum_eq]
        refine le_trans (heap5_inc_sum _ _ _) ?_
        try dsimp only
        rw [map_fn_set_eq Block.size s.blocks j b
          { b with state := BlockState.FREED, allocation_id := 0,
                   requested_size := 0 } hget rfl]
        exact hsum
      · try dsimp only
        rw [common_add_log_with_region_min,
          common_add_log_with_region_total, heap5_inc_min,
          heap5_inc_total]
        exact hm

lemma heap5_init_min_le (S : Nat) :
    (Heap5.heap_init S).stats.min_free_bytes ≤
      (Heap5.heap_init S).stats.total_size := by
  have h : Heap5.heap_init S = Heap5.heap_init 0 := rfl
  rw [h]
  decide

lemma heap5_init_sum (S : Nat) :
    (((Heap5.heap_init S).blocks).map Block.size).sum ≤
      (Heap5.heap_init S).stats.total_size := by
  have h : Heap5.heap_init S = Heap5.heap_init 0 := rfl
  rw [h]
  decide

lemma heap5_run_min_le (S : Nat) (ops : List H5Op) :
    (Heap5.run S ops).stats.min_free_bytes ≤
      (Heap5.run S ops).stats.total_size := by
  suffices h : ∀ (l : List H5Op) (s : Heap5.H5State),
      (s.blocks.map Block.size).sum ≤ s.stats.total_size →
      s.stats.min_free_bytes ≤ s.stats.total_size →
      ((l.foldl Heap5.step s).blocks.map Block.size).sum ≤
        (l.foldl Heap5.step s).stats.total_size ∧
      (l.foldl Heap5.step s).stats.min_free_bytes ≤
        (l.foldl Heap5.step s).stats.total_size by
    exact (h ops _ (heap5_init_sum S) (heap5_init_min_le S)).2
  intro l
  induction l with
  | nil =>
    intro s hsum hm
    exact ⟨hsum, hm⟩
  | cons op rest ih =>
    intro s hsum hm
    rw [List.foldl_cons]
    cases op with
    | malloc n fl =>
      refine ih _ ?_ ?_
      · show (((Heap5.heap_malloc_flags s n fl).2.blocks).map
            Block.size).sum ≤
          (Heap5.heap_malloc_flags s n fl).2.stats.total_size
        rw [heap5_malloc_total]
        exact le_trans (heap5_malloc_sum s n fl) hsum
      · exact heap5_malloc_min_le s n fl hsum hm
    | free p =>
      refine ih _ ?_ ?_
      · show (((Heap5.heap_free s p).blocks).map Block.size).sum ≤
          (Heap5.heap_free s p).stats.total_size
        rw [heap5_free_total]
        exact le_trans (heap5_free_sum s p) hsum
      · exact heap5_free_min_le s p hsum hm

/-- An index returned by `findIdx?` points at an element satisfying the
predicate. -/
lemma findIdx_found {α : Type} (q : α → Bool) :
    ∀ (l : List α) (i : Nat), l.findIdx? q = some i →
      ∃ x, l[i]? = some x ∧ q x = true := by
  intro l
  induction l with
  | nil =>
    intro i h
    simp at h
  | cons a t ih =>
    intro i h
    rw [List.findIdx?_cons, List.findIdx?_succ] at h
    by_cases hqa : q a = true
    · rw [if_pos hqa] at h
      injection h with h1
      subst h1
      exact ⟨a, by simp, hqa⟩
    · rw [if_neg hqa] at h
      cases hfi : t.findIdx? q with
      | none =>
        rw [hfi] at h
        simp at h
      | some i2 =>
        rw [hfi] at h
        simp only [Option.map_some'] at h
        injection h with h1
        subst h1
        obtain ⟨x, hx, hqx⟩ := ih i2 hfi
        refine ⟨x, ?_, hqx⟩
        rw [List.getElem?_cons_succ]
        exact hx

/-! ### heap_3: the shadow table's size total never grows, and
`min_free_bytes` stays below `total_size` at every reachable state -/

lemma heap3_free_preserve (s : Heap3.H3Full) (ptr : Nat)
    (hsum : (s.core.blocks.map Block.size).sum ≤ s.core.stats.total_size)
    (hm : s.core.stats.min_free_bytes ≤ s.core.stats.total_size) :
    ((Heap3.heap_free s ptr).core.blocks.map Block.size).sum ≤
      (Heap3.heap_free s ptr).core.stats.total_size ∧
    (Heap3.heap_free s ptr).core.stats.min_free_bytes ≤
      (Heap3.heap_free s ptr).core.stats.total_size := by
  cases hnode : s.allocation_list.find?
      (fun nd2 => decide (nd2.ptr = ptr)) with
  | none =>
    simp only [Heap3.heap_free, hnode]
    refine ⟨?_, ?_⟩
    · rw [common_update_stats_total, common_add_log_total]
      exact hsum
    · refine update_stats_min_le_of_free_le _ _ ?_ ?_
      · rw [common_add_log_total]
        exact le_trans (filter_freeish_sum_le _) hsum
      · rw [common_add_log_min, common_add_log_total]
        exact hm
  | some node =>
    cases hfind : s.core.blocks.findIdx? (fun b =>
        decide (b.allocation_id = node.id) &&
        decide (b.state = BlockState.ALLOCATED)) with
    | none =>
      simp only [Heap3.heap_free, hnode, hfind]
      refine ⟨?_, ?_⟩
      · rw [common_update_stats_total, common_add_log_total]
        exact hsum
      · refine update_stats_min_le_of_free_le _ _ ?_ ?_
        · rw [common_add_log_total]
          exact le_trans (filter_freeish_sum_le _) hsum
        · rw [common_add_log_min, common_add_log_total]
          exact hm
    | some i =>
      cases hget : s.core.blocks[i]? with
      | none =>
        simp only [Heap3.heap_free, hnode, hfind,
          List.get?_eq_getElem?, hget]
        refine ⟨?_, ?_⟩
        · rw [common_update_stats_total, common_add_log_total]
          exact hsum
        · refine update_stats_min_le_of_free_le _ _ ?_ ?_
          · rw [common_add_log_total]
            exact le_trans (filter_freeish_sum_le _) hsum
          · rw [common_add_log_min, common_add_log_total]
            exact hm
      | some b =>
        simp only [Heap3.heap_free, hnode, hfind,
          List.get?_eq_getElem?, hget]
        have hmap := map_fn_set_eq Block.size s.core.blocks i b
          { b with state := BlockState.FREED, allocation_id := 0,
                   requested_size := 0 } hget rfl
        refine ⟨?_, ?_⟩
        · rw [common_update_stats_total, common_add_log_total, hmap]
          exact hsum
        · refine update_stats_min_le_of_free_le _ _ ?_ ?_
          · rw [common_add_log_total]
            refine le_trans (filter_freeish_sum_le _) ?_
            rw [hmap]
            exact hsum
          · rw [common_add_log_min, common_add_log_total]
            exact hm

lemma heap3_malloc_preserve (s : Heap3.H3Full) (ptr : Option Nat)
    (nodeOk : Bool) (n : Nat)
    (hsum : (s.core.blocks.map Block.size).sum ≤ s.core.stats.total_size)
    (hm : s.core.stats.min_free_bytes ≤ s.core.stats.total_size) :
    ((Heap3.heap_malloc s ptr nodeOk n).core.blocks.map Block.size).sum ≤
      (Heap3.heap_malloc s ptr nodeOk n).core.stats.total_size ∧
    (Heap3.heap_malloc s ptr nodeOk n).core.stats.min_free_bytes ≤
      (Heap3.heap_malloc s ptr nodeOk n).core.stats.total_size := by
  cases ptr with
  | none =>
    simp only [Heap3.heap_malloc]
    refine ⟨?_, ?_⟩
    · rw [common_update_stats_total, common_add_log_total,
        ((common_sort_blocks_perm _).map Block.size).sum_eq]
      exact hsum
    · refine update_stats_min_le_of_free_le _ _ ?_ ?_
      · rw [common_add_log_total]
        refine le_trans (filter_freeish_sum_le _) ?_
        rw [((common_sort_blocks_perm _).map Block.size).sum_eq]
        exact hsum
      · rw [common_add_log_min, common_add_log_total]
        exact hm
  | some pv =>
    cases hfind : s.core.blocks.findIdx? (fun b =>
        decide (b.state = BlockState.FREE) &&
        decide (align8 n ≤ b.size)) with
    | none =>
      simp only [Heap3.heap_malloc, hfind]
      split_ifs <;>
        (refine ⟨?_, ?_⟩
         · rw [common_update_stats_total, common_add_log_total,
             ((common_sort_blocks_perm _).map Block.size).sum_eq]
           exact hsum
         · refine update_stats_min_le_of_free_le _ _ ?_ ?_
           · rw [common_add_log_total]
             refine le_trans (filter_freeish_sum_le _) ?_
             rw [((common_sort_blocks_perm _).map Block.size).sum_eq]
             exact hsum
           · rw [common_add_log_min, common_add_log_total]
             exact hm)
    | some i =>
      obtain ⟨bf, hbf, hqf⟩ := findIdx_found _ s.core.blocks i hfind
      cases hget : s.core.blocks[i]? with
      | none =>
        rw [hget] at hbf
        cases hbf
      | some b =>
        have hbfb : bf = b := by
          have h3 := hbf.symm.trans hget
          injection h3
        rw [hbfb] at hqf
        have hsz : align8 n ≤ b.size :=
          of_decide_eq_true ((Bool.and_eq_true _ _).mp hqf).2
        obtain ⟨hilt, -⟩ := List.getElem?_eq_some_iff.mp hget
        simp only [Heap3.heap_malloc, hfind, List.get?_eq_getElem?, hget]
        have hset := nat_sum_set_add (s.core.blocks.map Block.size) i
          (align8 n) (by rw [List.length_map]; exact hilt)
        have hgdi : (s.core.blocks.map Block.size).getD i 0 = b.size := by
          rw [List.getD_eq_getElem?_getD, List.getElem?_map, hget]
          rfl
        split_ifs <;>
          (refine ⟨?_, ?_⟩
           · rw [common_update_stats_total, common_add_log_total,
               ((common_sort_blocks_perm _).map Block.size).sum_eq]
             first
               | exact hsum
               | (refine le_trans ?_ hsum
                  try dsimp only
                  first
                    | (rw [List.map_append, List.map_set,
                        List.sum_append]
                       try dsimp only
                       simp only [List.map_cons, List.map_nil,
                         List.sum_cons, List.sum_nil]
                       omega)
                    | (rw [List.map_set]
                       try dsimp only
                       omega))
           · refine update_stats_min_le_of_free_le _ _ ?_ ?_
             · rw [common_add_log_total]
               refine le_trans (filter_freeish_sum_le _) ?_
               rw [((common_sort_blocks_perm _).map Block.size).sum_eq]
               first
                 | exact hsum
                 | (refine le_trans ?_ hsum
                    try dsimp only
                    first
                      | (rw [List.map_append, List.map_set,
                          List.sum_append]
                         try dsimp only
                         simp only [List.map_cons, List.map_nil,
                           List.sum_cons, List.sum_nil]
                         omega)
                      | (rw [List.map_set]
                         try dsimp only
                         omega))
             · rw [common_add_log_min, common_add_log_total]
               exact hm)

lemma heap3_init_bounds (S : Nat) :
    ((Heap3.heap_init_full S).core.blocks.map Block.size).sum ≤
      (Heap3.heap_init_full S).core.stats.total_size ∧
    (Heap3.heap_init_full S).core.stats.min_free_bytes ≤
      (Heap3.heap_init_full S).core.stats.total_size := by
  refine ⟨?_, ?_⟩
  · show ([(⟨0, S, BlockState.FREE, 0, 0, 0, 0⟩ : Block)].map
        Block.size).sum ≤ (common_add_log _ _ _ _ _ _ _).2.total_size
    rw [common_add_log_total, common_update_stats_total]
    simp
  · show (common_add_log _ _ _ _ _ _ _).2.min_free_bytes ≤
      (common_add_log _ _ _ _ _ _ _).2.total_size
    rw [common_add_log_min, common_add_log_total]
    refine update_stats_min_le_of_free_le _ _ ?_ ?_
    · simp [isFreeish]
    · exact Nat.le_refl _

lemma heap3_run_min_le (S : Nat) (ops : List H3Op) :
    (Heap3.run S ops).core.stats.min_free_bytes ≤
      (Heap3.run S ops).core.stats.total_size := by
  suffices h : ∀ (l : List H3Op) (s : Heap3.H3Full),
      (s.core.blocks.map Block.size).sum ≤ s.core.stats.total_size →
      s.core.stats.min_free_bytes ≤ s.core.stats.total_size →
      ((l.foldl Heap3.step s).core.blocks.map Block.size).sum ≤
        (l.foldl Heap3.step s).core.stats.total_size ∧
      (l.foldl Heap3.step s).core.stats.min_free_bytes ≤
        (l.foldl Heap3.step s).core.stats.total_size by
    exact (h ops _ (heap3_init_bounds S).1 (heap3_init_bounds S).2).2
  intro l
  induction l with
  | nil =>
    intro s hsum hm
    exact ⟨hsum, hm⟩
  | cons op rest ih =>
    intro s hsum hm
    rw [List.foldl_cons]
    cases op with
    | malloc ptr nodeOk n =>
      exact ih _ (heap3_malloc_preserve s ptr nodeOk n hsum hm).1
        (heap3_malloc_preserve s ptr nodeOk n hsum hm).2
    | free ptr =>
      exact ih _ (heap3_free_preserve s ptr hsum hm).1
        (heap3_free_preserve s ptr hsum hm).2

/-! ## Claim C3: monotonicity of `min_free_bytes` -/

/-- **C3, counterexample.**  `min_free_bytes` is *not* non-increasing within
one init epoch: on heap_2 (`part_000`), `init(256)` then `malloc(240)`
drives `min_free_bytes` to 0 (the 256-byte span is consumed whole, so
`free_bytes` hits 0), and the subsequent `free` of that block *raises*
`min_free_bytes` back to 256 — the `min_free_bytes == 0 || ...` branch of
`common_update_stats` (heap_common.h:140-148) treats 0 as "unset" and
re-seeds the minimum from the current free total.  The second state is one
single `free` step after the first, inside the same epoch. -/
theorem c3_min_free_counterexample :
    (Heap2.run 256 [HOp.malloc 240]).stats.min_free_bytes = 0 ∧
    (Heap2.run 256 [HOp.malloc 240, HOp.free 8]).stats.min_free_bytes =
      256 ∧
    Heap2.run 256 [HOp.malloc 240, HOp.free 8] =
      Heap2.step (Heap2.run 256 [HOp.malloc 240]) (HOp.free 8) := by
  refine ⟨by decide, by decide, rfl⟩

/-- **C3, amended.**  What does hold within one init epoch:
`min_free_bytes` never exceeds `total_size` in any of the five variants —
proved for arbitrary operation sequences over heap_1, heap_2, heap_3
(with the host allocator's results supplied as oracle inputs), heap_4 and
heap_5; for heap_1 the bump allocator moreover keeps
`min_free_bytes = total_size - heap_offset` at every reachable state and
every single `malloc`/`free` step leaves it non-increasing (the cursor
never moves back).  The recomputations never increase a *nonzero*
minimum: both the shared `common_update_stats` rule (heap_1/2/3/4) and
heap_5's `update_global_stats` rule can raise the minimum only through
their `== 0` re-seeding branch — which is exactly how the claimed
monotonicity fails. -/
theorem c3_min_free_amended :
    (∀ (S : Nat) (ops : List HOp),
      (Heap1.run S ops).stats.min_free_bytes =
        (Heap1.run S ops).stats.total_size -
          (Heap1.run S ops).heap_offset ∧
      (Heap1.run S ops).stats.min_free_bytes ≤
        (Heap1.run S ops).stats.total_size ∧
      (∀ op : HOp,
        (Heap1.step (Heap1.run S ops) op).stats.min_free_bytes ≤
          (Heap1.run S ops).stats.min_free_bytes)) ∧
    (∀ (bs : List Block) (st : Stats), st.min_free_bytes ≠ 0 →
      (common_update_stats bs st).min_free_bytes ≤ st.min_free_bytes) ∧
    (∀ s : Heap5.H5State, s.stats.min_free_bytes ≠ 0 →
      (Heap5.update_global_stats s).stats.min_free_bytes ≤
        s.stats.min_free_bytes) ∧
    (∀ (S : Nat) (ops : List HOp),
      (Heap2.run S ops).stats.min_free_bytes ≤
        (Heap2.run S ops).stats.total_size) ∧
    (∀ (S : Nat) (ops : List H3Op),
      (Heap3.run S ops).core.stats.min_free_bytes ≤
        (Heap3.run S ops).core.stats.total_size) ∧
    (∀ (S : Nat) (ops : List HOp),
      (Heap4.run S ops).stats.min_free_bytes ≤
        (Heap4.run S ops).stats.total_size) ∧
    (∀ (S : Nat) (ops : List H5Op),
      (Heap5.run S ops).stats.min_free_bytes ≤
        (Heap5.run S ops).stats.total_size) := by
  refine ⟨?_, ?_, ?_, heap2_run_min_le, heap3_run_min_le,
    heap4_run_min_le, heap5_run_min_le⟩
  · intro S ops
    have hM := heap1_run_min S ops
    refine ⟨hM, by omega, ?_⟩
    intro op
    have hM2 := heap1_step_min (Heap1.run S ops) op hM
    have hT := heap1_step_total (Heap1.run S ops) op
    have hO := heap1_step_offset (Heap1.run S ops) op
    omega
  · intro bs st hnz
    show (if st.min_free_bytes = 0 ∨ _ < st.min_free_bytes then _
      else st.min_free_bytes) ≤ st.min_free_bytes
    split_ifs with hc
    · rcases hc with hc | hc
      · exact absurd hc hnz
      · omega
    · exact Nat.le_refl _
  · intro s hnz
    exact heap5_ugs_min_nonincrease s hnz

/-- **C3, witness** for the amended statement's hypothesis-guarded rules:
a statistics record with `min_free_bytes = 8 ≠ 0` over an empty table is
not increased by the shared recomputation, and a fresh heap_5 state (whose
minimum is 32768 ≠ 0) is not increased by `update_global_stats`. -/
theorem c3_min_free_amended_witness :
    ({ zeroStats with total_size := 16, min_free_bytes := 8 } :
      Stats).min_free_bytes ≠ 0 ∧
    (common_update_stats []
      { zeroStats with
          total_size := 16
          min_free_bytes := 8 }).min_free_bytes ≤
      ({ zeroStats with total_size := 16, min_free_bytes := 8 } :
        Stats).min_free_bytes ∧
    (Heap5.heap_init 0).stats.min_free_bytes ≠ 0 ∧
    (Heap5.update_global_stats
      (Heap5.heap_init 0)).stats.min_free_bytes ≤
      (Heap5.heap_init 0).stats.min_free_bytes :=
  ⟨by decide, c3_min_free_amended.2.1 [] _ (by decide),
   by decide, c3_min_free_amended.2.2.1 (Heap5.heap_init 0) (by decide)⟩


/-! ### The full-coalesce sweep leaves no mergeable pair, and rebuilds the
free list from the FREE rows -/

lemma convSweep_freeish (c : Block) :
    isFreeish (if c.state = BlockState.FREED then
      { c with state := BlockState.FREE, allocation_id := 0 } else c) =
      isFreeish c := by
  split_ifs with h
  · simp [isFreeish, h]
  · rfl

lemma convSweep_not_FREED (c : Block) :
    (if c.state = BlockState.FREED then
      { c with state := BlockState.FREE, allocation_id := 0 }
      else c).state ≠ BlockState.FREED := by
  split_ifs with h
  · simp
  · exact h

lemma sweepGo_head (l : List Block) :
    ∀ x : Block, ∃ h rest2, (Heap4.sweepGo (some x) l).1 = h :: rest2 ∧
      h.offset = x.offset ∧
      (isFreeish h = true → isFreeish x = true) := by
  induction l with
  | nil =>
    intro x
    exact ⟨x, [], rfl, rfl, fun hh => hh⟩
  | cons c rest ih =>
    intro x
    rw [Heap4.sweepGo]
    by_cases hm : x.state = BlockState.FREE ∧ isFreeish c = true ∧
        x.offset + x.size = c.offset
    · rw [if_pos hm]
      obtain ⟨h, r2, heq, hoff, _⟩ := ih { x with
        size := x.size + c.size
        state := BlockState.FREE
        allocation_id := 0 }
      refine ⟨h, r2, ?_, by rw [hoff], fun _ => by simp [isFreeish, hm.1]⟩
      show (Heap4.sweepGo (some _) rest).1 = h :: r2
      exact heq
    · rw [if_neg hm]
      exact ⟨x, (Heap4.sweepGo (some (if c.state = BlockState.FREED then
        { c with state := BlockState.FREE, allocation_id := 0 }
        else c)) rest).1, rfl, rfl, fun hh => hh⟩

lemma sweepGo_noAdj (l : List Block) :
    ∀ x : Block, x.state ≠ BlockState.FREED →
      NoAdjFreePair (Heap4.sweepGo (some x) l).1 := by
  induction l with
  | nil =>
    intro x _
    show NoAdjFreePair [x]
    trivial
  | cons c rest ih =>
    intro x hx
    rw [Heap4.sweepGo]
    by_cases hm : x.state = BlockState.FREE ∧ isFreeish c = true ∧
        x.offset + x.size = c.offset
    · rw [if_pos hm]
      show NoAdjFreePair (Heap4.sweepGo (some _) rest).1
      exact ih _ (by simp)
    · rw [if_neg hm]
      obtain ⟨h, r2, heq, hoff, hfr⟩ := sweepGo_head rest
        (if c.state = BlockState.FREED then
          { c with state := BlockState.FREE, allocation_id := 0 } else c)
      show NoAdjFreePair (x :: (Heap4.sweepGo (some _) rest).1)
      rw [heq]
      refine ⟨?_, by rw [← heq]; exact ih _ (convSweep_not_FREED c)⟩
      rintro ⟨hfx, hfh, hadj⟩
      have hfc : isFreeish c = true := by
        rw [← convSweep_freeish c]
        exact hfr hfh
      have hxFREE : x.state = BlockState.FREE := by
        simp only [isFreeish, decide_eq_true_eq] at hfx
        rcases hfx with h1 | h1
        · exact h1
        · exact absurd h1 hx
      have hoff2 : h.offset = c.offset := by
        rw [hoff, convSweep_offset]
      exact hm ⟨hxFREE, hfc, by rw [← hoff2]; exact hadj⟩

lemma full_coalesce_noAdj (s : Heap4.H4State) :
    NoAdjFreePair (Heap4.full_coalesce s).blocks := by
  show NoAdjFreePair (Heap4.sweepGo none (common_sort_blocks s.blocks)).1
  cases hl : common_sort_blocks s.blocks with
  | nil =>
    trivial
  | cons b rest =>
    rw [Heap4.sweepGo]
    exact sweepGo_noAdj rest _ (convSweep_not_FREED b)

lemma foldl_push_free (l : List Block) :
    ∀ init : List (Nat × Nat),
      l.foldl (fun acc b => if b.state = BlockState.FREE then
        (b.offset, b.size) :: acc else acc) init =
      ((l.filter fun b => decide (b.state = BlockState.FREE)).reverse.map
        fun b => (b.offset, b.size)) ++ init := by
  induction l with
  | nil =>
    intro init
    simp
  | cons b rest ih =>
    intro init
    rw [List.foldl_cons]
    by_cases hb : b.state = BlockState.FREE
    · rw [if_pos hb, ih]
      simp [List.filter_cons, hb]
    · rw [if_neg hb, ih]
      simp [List.filter_cons, hb]


lemma heap4_alloc_with_fst (s1 : Heap4.H4State) (i : Nat) (nd : Nat × Nat)
    (n : Nat) :
    (Heap4.heap4_alloc_with s1 i nd n).1 = some (nd.1 + headerSize) := rfl

lemma searchState_eq_pos (s : Heap4.H4State)
    (hp : (Heap4.update_stats s).coalesce_pending = true)
    (hf : (30 : ℚ) < extFragQ (Heap4.update_stats s).stats.free_bytes
      (Heap4.update_stats s).stats.largest_free_block) :
    Heap4.searchState s =
      Heap4.update_stats (Heap4.full_coalesce (Heap4.update_stats s)) := by
  have hcond : ((Heap4.update_stats s).coalesce_pending &&
      decide ((30 : ℚ) < extFragQ
        (Heap4.update_stats s).stats.free_bytes
        (Heap4.update_stats s).stats.largest_free_block)) = true := by
    rw [hp, decide_eq_true hf]
    rfl
  simp only [Heap4.searchState, hcond, if_true]

lemma searchState_eq_neg (s : Heap4.H4State)
    (hno : ¬ ((Heap4.update_stats s).coalesce_pending = true ∧
      (30 : ℚ) < extFragQ (Heap4.update_stats s).stats.free_bytes
        (Heap4.update_stats s).stats.largest_free_block)) :
    Heap4.searchState s = Heap4.update_stats s := by
  have hcond : ((Heap4.update_stats s).coalesce_pending &&
      decide ((30 : ℚ) < extFragQ
        (Heap4.update_stats s).stats.free_bytes
        (Heap4.update_stats s).stats.largest_free_block)) = false := by
    rcases Bool.eq_false_or_eq_true
        (Heap4.update_stats s).coalesce_pending with hp | hp
    · have hb : ¬ ((30 : ℚ) < extFragQ
          (Heap4.update_stats s).stats.free_bytes
          (Heap4.update_stats s).stats.largest_free_block) :=
        fun hb => hno ⟨hp, hb⟩
      rw [hp, decide_eq_false hb]
      rfl
    · rw [hp]
      rfl
  simp only [Heap4.searchState, hcond, Bool.false_eq_true, if_false]

/-- The exact fragmentation value at the counterexample state: 224 free
bytes whose largest span is 112 give `(1 - 112/224) * 100 = 50 > 30`. -/
lemma extFragQ_gt_thirty : (30 : ℚ) < extFragQ 224 112 := by
  rw [extFragQ, if_pos (by norm_num)]
  norm_num

/-! ## Claim C9: the deferred full coalesce of heap_4 -/

/-- **C9, counterexample.**  A pending, above-threshold malloc *does* run
the full sweep (the pending flag comes back cleared), but when the sweep
performs zero merges nothing is logged: after `init(560)`, five
100-byte allocations, frees of the first and third block, the next
`malloc(16)` sees `coalesce_pending` with external fragmentation above 30%,
the sweep's merge count is 0 (the two freed blocks are not adjacent), and
the resulting log contains no `FULL_COALESCE` entry at all — the claim's
"logs a FULL_COALESCE entry carrying the number of merges" fails for the
zero-merge sweep (`part_001`:96-99 logs only when `coalesce_count > 0`). -/
theorem c9_full_coalesce_counterexample :
    (Heap4.run 560 [HOp.malloc 100, HOp.malloc 100, HOp.malloc 100,
      HOp.malloc 100, HOp.malloc 100, HOp.free 8,
      HOp.free 232]).coalesce_pending = true ∧
    (30 : ℚ) < extFragQ
      (Heap4.update_stats (Heap4.run 560 [HOp.malloc 100, HOp.malloc 100,
        HOp.malloc 100, HOp.malloc 100, HOp.malloc 100, HOp.free 8,
        HOp.free 232])).stats.free_bytes
      (Heap4.update_stats (Heap4.run 560 [HOp.malloc 100, HOp.malloc 100,
        HOp.malloc 100, HOp.malloc 100, HOp.malloc 100, HOp.free 8,
        HOp.free 232])).stats.largest_free_block ∧
    (Heap4.sweepGo none (common_sort_blocks
      (Heap4.update_stats (Heap4.run 560 [HOp.malloc 100, HOp.malloc 100,
        HOp.malloc 100, HOp.malloc 100, HOp.malloc 100, HOp.free 8,
        HOp.free 232])).blocks)).2 = 0 ∧
    (Heap4.run 560 [HOp.malloc 100, HOp.malloc 100, HOp.malloc 100,
      HOp.malloc 100, HOp.malloc 100, HOp.free 8, HOp.free 232,
      HOp.malloc 16]).coalesce_pending = false ∧
    (Heap4.run 560 [HOp.malloc 100, HOp.malloc 100, HOp.malloc 100,
      HOp.malloc 100, HOp.malloc 100, HOp.free 8, HOp.free 232,
      HOp.malloc 16]).logs.countP
      (fun e => decide (e.action = LogAction.FULL_COALESCE)) = 0 := by
  have h1 : (Heap4.update_stats (Heap4.run 560 [HOp.malloc 100,
      HOp.malloc 100, HOp.malloc 100, HOp.malloc 100, HOp.malloc 100,
      HOp.free 8, HOp.free 232])).stats.free_bytes = 224 := by decide
  have h2 : (Heap4.update_stats (Heap4.run 560 [HOp.malloc 100,
      HOp.malloc 100, HOp.malloc 100, HOp.malloc 100, HOp.malloc 100,
      HOp.free 8, HOp.free 232])).stats.largest_free_block = 112 := by
    decide
  have hfrag : (30 : ℚ) < extFragQ
      (Heap4.update_stats (Heap4.run 560 [HOp.malloc 100, HOp.malloc 100,
        HOp.malloc 100, HOp.malloc 100, HOp.malloc 100, HOp.free 8,
        HOp.free 232])).stats.free_bytes
      (Heap4.update_stats (Heap4.run 560 [HOp.malloc 100, HOp.malloc 100,
        HOp.malloc 100, HOp.malloc 100, HOp.malloc 100, HOp.free 8,
        HOp.free 232])).stats.largest_free_block := by
    rw [h1, h2]
    exact extFragQ_gt_thirty
  have hss := searchState_eq_pos (Heap4.run 560 [HOp.malloc 100,
    HOp.malloc 100, HOp.malloc 100, HOp.malloc 100, HOp.malloc 100,
    HOp.free 8, HOp.free 232]) (by decide) hfrag
  refine ⟨by decide, hfrag, by decide, ?_, ?_⟩
  · show (Heap4.heap_malloc (Heap4.run 560 [HOp.malloc 100, HOp.malloc 100,
      HOp.malloc 100, HOp.malloc 100, HOp.malloc 100, HOp.free 8,
      HOp.free 232]) 16).2.coalesce_pending = false
    simp only [Heap4.heap_malloc, hss]
    decide
  · show ((Heap4.heap_malloc (Heap4.run 560 [HOp.malloc 100,
      HOp.malloc 100, HOp.malloc 100, HOp.malloc 100, HOp.malloc 100,
      HOp.free 8, HOp.free 232]) 16).2.logs.countP
      (fun e => decide (e.action = LogAction.FULL_COALESCE))) = 0
    simp only [Heap4.heap_malloc, hss]
    decide

/-- **C9, amended.**  What `part_001` actually does.  (1) `full_coalesce`
clears the pending flag, leaves a table in which no two consecutive rows
are both free space and physically contiguous (every adjacent free/freed
run has been merged), rebuilds the free list exactly from the `FREE` rows
of the new table (pushed in table order), and — only when at least one
merge happened and the log has room — appends one `FULL_COALESCE` entry
whose size field is the merge count; a zero-merge sweep leaves the log
untouched.  (2) The sweep runs before the first search of a `malloc`
exactly when a coalesce is pending and external fragmentation exceeds 30%.
(3) A `malloc` returns null only after the initial best-fit search failed
and, when a coalesce was pending, one forced full coalesce plus one retried
search also failed.  (4) When the retried search finds a span, the call
succeeds with a pointer into that span. -/
theorem c9_full_coalesce_amended :
    (∀ s : Heap4.H4State,
      (Heap4.full_coalesce s).coalesce_pending = false ∧
      NoAdjFreePair (Heap4.full_coalesce s).blocks ∧
      (Heap4.full_coalesce s).free_list =
        (((Heap4.full_coalesce s).blocks.filter
          fun b => decide (b.state = BlockState.FREE)).reverse.map
          fun b => (b.offset, b.size)) ∧
      (0 < (Heap4.sweepGo none (common_sort_blocks s.blocks)).2 →
        s.logs.length < MAX_LOG_ENTRIES →
        ∃ e : LogEntry, (Heap4.full_coalesce s).logs = s.logs ++ [e] ∧
          e.action = LogAction.FULL_COALESCE ∧
          e.size = (Heap4.sweepGo none (common_sort_blocks s.blocks)).2 ∧
          e.success = true) ∧
      ((Heap4.sweepGo none (common_sort_blocks s.blocks)).2 = 0 →
        (Heap4.full_coalesce s).logs = s.logs)) ∧
    (∀ s : Heap4.H4State,
      ((Heap4.update_stats s).coalesce_pending = true ∧
        (30 : ℚ) < extFragQ (Heap4.update_stats s).stats.free_bytes
          (Heap4.update_stats s).stats.largest_free_block →
        Heap4.searchState s =
          Heap4.update_stats
            (Heap4.full_coalesce (Heap4.update_stats s))) ∧
      (¬ ((Heap4.update_stats s).coalesce_pending = true ∧
          (30 : ℚ) < extFragQ (Heap4.update_stats s).stats.free_bytes
            (Heap4.update_stats s).stats.largest_free_block) →
        Heap4.searchState s = Heap4.update_stats s)) ∧
    (∀ (s : Heap4.H4State) (n : Nat),
      (Heap4.heap_malloc s n).1 = none →
        best_fit_search (Heap4.searchState s).free_list
          (align8 n + headerSize) = none ∧
        ((Heap4.searchState s).coalesce_pending = true →
          best_fit_search
            (Heap4.full_coalesce (Heap4.searchState s)).free_list
            (align8 n + headerSize) = none)) ∧
    (∀ (s : Heap4.H4State) (n i : Nat) (nd : Nat × Nat),
      best_fit_search (Heap4.searchState s).free_list
        (align8 n + headerSize) = none →
      (Heap4.searchState s).coalesce_pending = true →
      best_fit_search
        (Heap4.full_coalesce (Heap4.searchState s)).free_list
        (align8 n + headerSize) = some (i, nd) →
      (Heap4.heap_malloc s n).1 = some (nd.1 + headerSize)) := by
  refine ⟨?_, ?_, ?_, ?_⟩
  · intro s
    refine ⟨rfl, full_coalesce_noAdj s, ?_, ?_, ?_⟩
    · show (Heap4.sweepGo none (common_sort_blocks s.blocks)).1.foldl
        (fun acc b => if b.state = BlockState.FREE then
          (b.offset, b.size) :: acc else acc) [] = _
      rw [foldl_push_free, List.append_nil]
      rfl
    · intro hz hlen
      have hlog : (Heap4.full_coalesce s).logs = s.logs ++
          [⟨LogAction.FULL_COALESCE, 0,
            (Heap4.sweepGo none (common_sort_blocks s.blocks)).2, 0,
            s.stats.timestamp_counter, true, 0, 0⟩] := by
        show (if 0 < (Heap4.sweepGo none (common_sort_blocks s.blocks)).2
          then common_add_log s.logs _ LogAction.FULL_COALESCE 0 _ 0 true
          else (s.logs, _)).1 = _
        rw [if_pos hz, common_add_log, common_add_log_with_region,
          if_neg (Nat.not_le.mpr hlen)]
      exact ⟨_, hlog, rfl, rfl, rfl⟩
    · intro hz
      show (if 0 < (Heap4.sweepGo none (common_sort_blocks s.blocks)).2
        then common_add_log s.logs _ .FULL_COALESCE 0 _ 0 true
        else (s.logs, _)).1 = s.logs
      rw [if_neg (by omega)]
  · intro s
    exact ⟨fun h => searchState_eq_pos s h.1 h.2, searchState_eq_neg s⟩
  · intro s n h
    cases hsearch : best_fit_search (Heap4.searchState s).free_list
        (align8 n + headerSize) with
    | some ind =>
      obtain ⟨i, nd⟩ := ind
      simp only [Heap4.heap_malloc, hsearch] at h
      rw [heap4_alloc_with_fst] at h
      simp at h
    | none =>
      refine ⟨rfl, ?_⟩
      intro hpend
      cases hsearch2 : best_fit_search
          (Heap4.full_coalesce (Heap4.searchState s)).free_list
          (align8 n + headerSize) with
      | some ind2 =>
        obtain ⟨i2, nd2⟩ := ind2
        simp only [Heap4.heap_malloc, hsearch, hpend, if_true,
          hsearch2] at h
        rw [heap4_alloc_with_fst] at h
        simp at h
      | none => rfl
  · intro s n i nd hsearch hpend hsearch2
    simp only [Heap4.heap_malloc, hsearch, hpend, if_true, hsearch2]
    exact heap4_alloc_with_fst _ _ _ _


/-- **C9, witness** for the amended statement's trigger clause: at the
post-`free` state of the counterexample trace (coalesce pending, 50%
external fragmentation), the next malloc's opening phase is exactly one
full coalesce plus a statistics recomputation. -/
theorem c9_full_coalesce_amended_witness :
    ((Heap4.update_stats (Heap4.run 560 [HOp.malloc 100, HOp.malloc 100,
      HOp.malloc 100, HOp.malloc 100, HOp.malloc 100, HOp.free 8,
      HOp.free 232])).coalesce_pending = true ∧
      (30 : ℚ) < extFragQ
        (Heap4.update_stats (Heap4.run 560 [HOp.malloc 100, HOp.malloc 100,
      HOp.malloc 100, HOp.malloc 100, HOp.malloc 100, HOp.free 8,
      HOp.free 232])).stats.free_bytes
        (Heap4.update_stats (Heap4.run 560 [HOp.malloc 100, HOp.malloc 100,
      HOp.malloc 100, HOp.malloc 100, HOp.malloc 100, HOp.free 8,
      HOp.free 232])).stats.largest_free_block) ∧
    Heap4.searchState (Heap4.run 560 [HOp.malloc 100, HOp.malloc 100,
      HOp.malloc 100, HOp.malloc 100, HOp.malloc 100, HOp.free 8,
      HOp.free 232]) =
      Heap4.update_stats
        (Heap4.full_coalesce (Heap4.update_stats (Heap4.run 560 [HOp.malloc 100, HOp.malloc 100,
      HOp.malloc 100, HOp.malloc 100, HOp.malloc 100, HOp.free 8,
      HOp.free 232]))) := by
  have hfrag : (30 : ℚ) < extFragQ
      (Heap4.update_stats (Heap4.run 560 [HOp.malloc 100, HOp.malloc 100,
      HOp.malloc 100, HOp.malloc 100, HOp.malloc 100, HOp.free 8,
      HOp.free 232])).stats.free_bytes
      (Heap4.update_stats (Heap4.run 560 [HOp.malloc 100, HOp.malloc 100,
      HOp.malloc 100, HOp.malloc 100, HOp.malloc 100, HOp.free 8,
      HOp.free 232])).stats.largest_free_block := by
    rw [show (Heap4.update_stats (Heap4.run 560 [HOp.malloc 100, HOp.malloc 100,
      HOp.malloc 100, HOp.malloc 100, HOp.malloc 100, HOp.free 8,
      HOp.free 232])).stats.free_bytes = 224 from
        by decide,
      show (Heap4.update_stats (Heap4.run 560 [HOp.malloc 100, HOp.malloc 100,
      HOp.malloc 100, HOp.malloc 100, HOp.malloc 100, HOp.free 8,
      HOp.free 232])).stats.largest_free_block = 112 from
        by decide]
    exact extFragQ_gt_thirty
  exact ⟨⟨by decide, hfrag⟩,
    (c9_full_coalesce_amended.2.1 (Heap4.run 560 [HOp.malloc 100, HOp.malloc 100,
      HOp.malloc 100, HOp.malloc 100, HOp.malloc 100, HOp.free 8,
      HOp.free 232])).1 ⟨by decide, hfrag⟩⟩


/-! ### Claim C8: utilities for the immediate-neighbor coalesce -/

lemma nat_set_getElem_self (l : List Nat) (k : Nat) (h : k < l.length) :
    l.set k l[k] = l := by
  apply List.ext_getElem?
  intro i
  rw [List.getElem?_set]
  split_ifs with h1
  · subst h1
    rw [List.getElem?_eq_getElem h]
  · rfl

lemma map_offset_set_eq (bs : List Block) (j : Nat) (b b' : Block)
    (hb : bs[j]? = some b) (ho : b'.offset = b.offset) :
    (bs.set j b').map Block.offset = bs.map Block.offset := by
  obtain ⟨hj, hjb⟩ := List.getElem?_eq_some_iff.mp hb
  rw [List.map_set, ho]
  have hj2 : j < (bs.map Block.offset).length := by
    rw [List.length_map]
    exact hj
  have hbo : (bs.map Block.offset)[j] = b.offset := by
    simp [hjb]
  rw [← hbo]
  exact nat_set_getElem_self _ _ hj2

lemma pairwise_lt_of_map_eq (l₁ l₂ : List Block)
    (h : l₁.map Block.offset = l₂.map Block.offset)
    (hp : l₂.Pairwise fun a c => a.offset < c.offset) :
    l₁.Pairwise fun a c => a.offset < c.offset := by
  have h1 : (l₁.map Block.offset).Pairwise (· < ·) := by
    rw [h, List.pairwise_map]
    exact hp
  rw [List.pairwise_map] at h1
  exact h1

lemma sorted_le_of_map_eq (l₁ l₂ : List Block)
    (h : l₁.map Block.offset = l₂.map Block.offset)
    (hp : l₂.Sorted blockLE) :
    l₁.Sorted blockLE := by
  have h1 : (l₁.map Block.offset).Pairwise (· ≤ ·) := by
    rw [h, List.pairwise_map]
    exact hp
  rw [List.pairwise_map] at h1
  exact h1

lemma sort_of_sorted (l : List Block) (h : l.Sorted blockLE) :
    common_sort_blocks l = l :=
  List.Sorted.insertionSort_eq h

lemma noAdjFreePair_iff_get (l : List Block) :
    NoAdjFreePair l ↔ ∀ (i : Nat) (x y : Block), l[i]? = some x →
      l[i + 1]? = some y →
      ¬ (isFreeish x = true ∧ isFreeish y = true ∧
        x.offset + x.size = y.offset) := by
  induction l with
  | nil =>
    constructor
    · intro _ i x y hx _
      rw [List.getElem?_nil] at hx
      cases hx
    · intro _
      trivial
  | cons a t ih =>
    cases t with
    | nil =>
      constructor
      · intro _ i x y hx hy
        cases i with
        | zero => simp at hy
        | succ i2 => simp at hx
      · intro _
        trivial
    | cons b t2 =>
      constructor
      · intro h i x y hx hy
        obtain ⟨h1, h2⟩ := h
        cases i with
        | zero =>
          simp only [List.getElem?_cons_zero] at hx
          simp only [List.getElem?_cons_succ,
            List.getElem?_cons_zero] at hy
          cases hx
          cases hy
          exact h1
        | succ i2 =>
          rw [List.getElem?_cons_succ] at hx hy
          exact (ih.mp h2) i2 x y hx hy
      · intro h
        refine ⟨h 0 a b (by simp) (by simp), ih.mpr ?_⟩
        intro i x y hx hy
        refine h (i + 1) x y ?_ ?_
        · rw [List.getElem?_cons_succ]
          exact hx
        · rw [List.getElem?_cons_succ]
          exact hy

lemma noAdjFreePair5_iff_get (l : List Block) :
    NoAdjFreePair5 l ↔ ∀ (i : Nat) (x y : Block), l[i]? = some x →
      l[i + 1]? = some y →
      ¬ (x.region_id = y.region_id ∧ isFreeish x = true ∧
        isFreeish y = true ∧ x.offset + x.size = y.offset) := by
  induction l with
  | nil =>
    constructor
    · intro _ i x y hx _
      rw [List.getElem?_nil] at hx
      cases hx
    · intro _
      trivial
  | cons a t ih =>
    cases t with
    | nil =>
      constructor
      · intro _ i x y hx hy
        cases i with
        | zero => simp at hy
        | succ i2 => simp at hx
      · intro _
        trivial
    | cons b t2 =>
      constructor
      · intro h i x y hx hy
        obtain ⟨h1, h2⟩ := h
        cases i with
        | zero =>
          simp only [List.getElem?_cons_zero] at hx
          simp only [List.getElem?_cons_succ,
            List.getElem?_cons_zero] at hy
          cases hx
          cases hy
          exact h1
        | succ i2 =>
          rw [List.getElem?_cons_succ] at hx hy
          exact (ih.mp h2) i2 x y hx hy
      · intro h
        refine ⟨h 0 a b (by simp) (by simp), ih.mpr ?_⟩
        intro i x y hx hy
        refine h (i + 1) x y ?_ ?_
        · rw [List.getElem?_cons_succ]
          exact hx
        · rw [List.getElem?_cons_succ]
          exact hy

/-- When the immediate-neighbor coalesce merges nothing, the failed guards
together with the freed-row localization rule out every mergeable pair. -/
lemma noAdj_of_guards (vs : List Block) (k : Nat) (cur : Block)
    (hk : vs[k]? = some cur)
    (hOK : ∀ i x y, vs[i]? = some x → vs[i + 1]? = some y →
      isFreeish x = true → isFreeish y = true →
      x.offset + x.size = y.offset → i = k ∨ i + 1 = k)
    (hlref : ∀ l, vs[k - 1]? = some l → 0 < k →
      ¬ (isFreeish l = true ∧ l.offset + l.size = cur.offset))
    (hrref : ∀ r, vs[k + 1]? = some r →
      ¬ (isFreeish r = true ∧ cur.offset + cur.size = r.offset)) :
    NoAdjFreePair vs := by
  rw [noAdjFreePair_iff_get]
  intro i x y hx hy
  rintro ⟨hfx, hfy, hadj⟩
  rcases hOK i x y hx hy hfx hfy hadj with rfl | hik
  · have hxcur : x = cur := by
      have h2 := hx.symm.trans hk
      injection h2
    subst hxcur
    exact hrref y hy ⟨hfy, hadj⟩
  · have hycur : y = cur := by
      rw [hik] at hy
      have h2 := hy.symm.trans hk
      injection h2
    subst hycur
    refine hlref x ?_ (by omega) ⟨hfx, hadj⟩
    rw [show k - 1 = i by omega]
    exact hx

/-- After merging only the left neighbor, no mergeable pair remains. -/
lemma noAdj_left_only (vs : List Block) (k : Nat) (cur l : Block)
    (hk : vs[k]? = some cur) (hgl : vs[k - 1]? = some l) (h0 : 0 < k)
    (hOK : ∀ i x y, vs[i]? = some x → vs[i + 1]? = some y →
      isFreeish x = true → isFreeish y = true →
      x.offset + x.size = y.offset → i = k ∨ i + 1 = k)
    (hlf : isFreeish l = true) (hladj : l.offset + l.size = cur.offset)
    (hrref : ∀ r, vs[k + 1]? = some r →
      ¬ (isFreeish r = true ∧ cur.offset + cur.size = r.offset)) :
    NoAdjFreePair ((vs.set (k - 1)
      { l with size := l.size + cur.size
               state := BlockState.FREE }).eraseIdx k) := by
  obtain ⟨hklen, _⟩ := List.getElem?_eq_some_iff.mp hk
  obtain ⟨hgllen, _⟩ := List.getElem?_eq_some_iff.mp hgl
  have hfin : ∀ i, ((vs.set (k - 1)
      { l with size := l.size + cur.size
               state := BlockState.FREE }).eraseIdx k)[i]? =
      if i < k - 1 then vs[i]? else if i = k - 1 then
        some { l with size := l.size + cur.size
                      state := BlockState.FREE }
      else vs[i + 1]? := by
    intro i
    simp only [List.getElem?_eraseIdx, List.getElem?_set]
    split_ifs <;> first | rfl | omega
  rw [noAdjFreePair_iff_get]
  intro i x y hx hy
  rintro ⟨hfx, hfy, hadj⟩
  rw [hfin] at hx hy
  by_cases hA : i + 1 < k - 1
  · rw [if_pos (by omega)] at hx
    rw [if_pos hA] at hy
    rcases hOK i x y hx hy hfx hfy hadj with h2 | h2 <;> omega
  by_cases hB : i + 1 = k - 1
  · rw [if_pos (by omega)] at hx
    rw [if_neg (by omega), if_pos hB] at hy
    injection hy with hy2
    subst hy2
    have hgl2 : vs[i + 1]? = some l := by
      rw [hB]
      exact hgl
    rcases hOK i x l hx hgl2 hfx hlf hadj with h2 | h2 <;> omega
  by_cases hC : i = k - 1
  · rw [if_neg (by omega), if_pos hC] at hx
    rw [if_neg (by omega), if_neg (by omega)] at hy
    injection hx with hx2
    subst hx2
    have hadj2 : l.offset + (l.size + cur.size) = y.offset := hadj
    have hy3 : vs[k + 1]? = some y := by
      rw [show k + 1 = i + 1 + 1 by omega]
      exact hy
    exact hrref y hy3 ⟨hfy, by omega⟩
  · rw [if_neg (by omega), if_neg (by omega)] at hx
    rw [if_neg (by omega), if_neg (by omega)] at hy
    have hy4 : vs[i + 1 + 1]? = some y := hy
    rcases hOK (i + 1) x y hx hy4 hfx hfy hadj with h2 | h2 <;> omega

/-- After merging only the right neighbor, no mergeable pair remains. -/
lemma noAdj_right_only (vs : List Block) (k : Nat) (cur r : Block)
    (hk : vs[k]? = some cur) (hgr : vs[k + 1]? = some r)
    (hOK : ∀ i x y, vs[i]? = some x → vs[i + 1]? = some y →
      isFreeish x = true → isFreeish y = true →
      x.offset + x.size = y.offset → i = k ∨ i + 1 = k)
    (hrf : isFreeish r = true) (hradj : cur.offset + cur.size = r.offset)
    (hlref : ∀ l, vs[k - 1]? = some l → 0 < k →
      ¬ (isFreeish l = true ∧ l.offset + l.size = cur.offset)) :
    NoAdjFreePair ((vs.set k
      { cur with size := cur.size + r.size
                 state := BlockState.FREE }).eraseIdx (k + 1)) := by
  obtain ⟨hklen, _⟩ := List.getElem?_eq_some_iff.mp hk
  have hfin : ∀ i, ((vs.set k
      { cur with size := cur.size + r.size
                 state := BlockState.FREE }).eraseIdx (k + 1))[i]? =
      if i < k then vs[i]? else if i = k then
        some { cur with size := cur.size + r.size
                        state := BlockState.FREE }
      else vs[i + 1]? := by
    intro i
    simp only [List.getElem?_eraseIdx, List.getElem?_set]
    split_ifs <;> first | rfl | omega
  rw [noAdjFreePair_iff_get]
  intro i x y hx hy
  rintro ⟨hfx, hfy, hadj⟩
  rw [hfin] at hx hy
  by_cases hA : i + 1 < k
  · rw [if_pos (by omega)] at hx
    rw [if_pos hA] at hy
    rcases hOK i x y hx hy hfx hfy hadj with h2 | h2 <;> omega
  by_cases hB : i + 1 = k
  · rw [if_pos (by omega)] at hx
    rw [if_neg (by omega), if_pos hB] at hy
    injection hy with hy2
    subst hy2
    refine hlref x ?_ (by omega) ⟨hfx, hadj⟩
    rw [show k - 1 = i by omega]
    exact hx
  by_cases hC : i = k
  · rw [if_neg (by omega), if_pos hC] at hx
    rw [if_neg (by omega), if_neg (by omega)] at hy
    injection hx with hx2
    subst hx2
    have hadj2 : cur.offset + (cur.size + r.size) = y.offset := hadj
    have hy3 : vs[k + 1 + 1]? = some y := by
      rw [show k + 1 + 1 = i + 1 + 1 by omega]
      exact hy
    rcases hOK (k + 1) r y hgr hy3 hrf hfy (by omega) with h2 | h2 <;>
      omega
  · rw [if_neg (by omega), if_neg (by omega)] at hx
    rw [if_neg (by omega), if_neg (by omega)] at hy
    have hy4 : vs[i + 1 + 1]? = some y := hy
    rcases hOK (i + 1) x y hx hy4 hfx hfy hadj with h2 | h2 <;> omega

/-- After merging both neighbors, no mergeable pair remains. -/
lemma noAdj_both (vs : List Block) (k : Nat) (cur l r : Block)
    (hk : vs[k]? = some cur) (hgl : vs[k - 1]? = some l) (h0 : 0 < k)
    (hvr : vs[k + 1]? = some r)
    (hOK : ∀ i x y, vs[i]? = some x → vs[i + 1]? = some y →
      isFreeish x = true → isFreeish y = true →
      x.offset + x.size = y.offset → i = k ∨ i + 1 = k)
    (hlf : isFreeish l = true) (hladj : l.offset + l.size = cur.offset)
    (hrf : isFreeish r = true)
    (hradj2 : l.offset + (l.size + cur.size) = r.offset) :
    NoAdjFreePair ((((vs.set (k - 1)
      { l with size := l.size + cur.size
               state := BlockState.FREE }).eraseIdx k).set (k - 1)
      { { l with size := l.size + cur.size
                 state := BlockState.FREE } with
          size := { l with size := l.size + cur.size
                           state := BlockState.FREE }.size + r.size
          state := BlockState.FREE }).eraseIdx (k - 1 + 1)) := by
  obtain ⟨hklen, _⟩ := List.getElem?_eq_some_iff.mp hk
  obtain ⟨hgllen, _⟩ := List.getElem?_eq_some_iff.mp hgl
  obtain ⟨hvrlen, _⟩ := List.getElem?_eq_some_iff.mp hvr
  have hfin : ∀ i, ((((vs.set (k - 1)
      { l with size := l.size + cur.size
               state := BlockState.FREE }).eraseIdx k).set (k - 1)
      { { l with size := l.size + cur.size
                 state := BlockState.FREE } with
          size := { l with size := l.size + cur.size
                           state := BlockState.FREE }.size + r.size
          state := BlockState.FREE }).eraseIdx (k - 1 + 1))[i]? =
      if i < k - 1 then vs[i]? else if i = k - 1 then
        some { { l with size := l.size + cur.size
                        state := BlockState.FREE } with
            size := { l with size := l.size + cur.size
                             state := BlockState.FREE }.size + r.size
            state := BlockState.FREE }
      else vs[i + 2]? := by
    intro i
    simp only [List.getElem?_eraseIdx, List.getElem?_set,
      List.length_eraseIdx, List.length_set]
    split_ifs <;> first | rfl | omega
  rw [noAdjFreePair_iff_get]
  intro i x y hx hy
  rintro ⟨hfx, hfy, hadj⟩
  rw [hfin] at hx hy
  by_cases hA : i + 1 < k - 1
  · rw [if_pos (by omega)] at hx
    rw [if_pos hA] at hy
    rcases hOK i x y hx hy hfx hfy hadj with h2 | h2 <;> omega
  by_cases hB : i + 1 = k - 1
  · rw [if_pos (by omega)] at hx
    rw [if_neg (by omega), if_pos hB] at hy
    injection hy with hy2
    subst hy2
    have hgl2 : vs[i + 1]? = some l := by
      rw [hB]
      exact hgl
    rcases hOK i x l hx hgl2 hfx hlf hadj with h2 | h2 <;> omega
  by_cases hC : i = k - 1
  · rw [if_neg (by omega), if_pos hC] at hx
    rw [if_neg (by omega), if_neg (by omega)] at hy
    injection hx with hx2
    subst hx2
    have hadj2 : l.offset + (l.size + cur.size + r.size) = y.offset :=
      hadj
    have hy3 : vs[k + 1 + 1]? = some y := by
      rw [show k + 1 + 1 = i + 1 + 2 by omega]
      exact hy
    rcases hOK (k + 1) r y hvr hy3 hrf hfy (by omega) with h2 | h2 <;>
      omega
  · rw [if_neg (by omega), if_neg (by omega)] at hx
    rw [if_neg (by omega), if_neg (by omega)] at hy
    have hy4 : vs[i + 2 + 1]? = some y := by
      rw [show i + 2 + 1 = i + 1 + 2 by omega]
      exact hy
    rcases hOK (i + 2) x y hx hy4 hfx hfy hadj with h2 | h2 <;> omega


/-- The right-neighbor phase clears all mergeable pairs, given that every
candidate pair touches row `k` and the left pair is already refuted. -/
lemma coalesceRight_clear (vs : List Block) (k : Nat) (st : Stats)
    (cur : Block) (hk : vs[k]? = some cur)
    (hOK : ∀ i x y, vs[i]? = some x → vs[i + 1]? = some y →
      isFreeish x = true → isFreeish y = true →
      x.offset + x.size = y.offset → i = k ∨ i + 1 = k)
    (hlref : ∀ l, vs[k - 1]? = some l → 0 < k →
      ¬ (isFreeish l = true ∧ l.offset + l.size = cur.offset)) :
    NoAdjFreePair (Heap4.coalesceRight vs k st).1 := by
  obtain ⟨hklen, hkel⟩ := List.getElem?_eq_some_iff.mp hk
  have hkget : vs.get? k = some cur := by
    rw [List.get?_eq_getElem?]
    exact hk
  rw [Heap4.coalesceRight]
  by_cases hb : k + 1 < vs.length
  · rw [if_pos hb]
    have hvr : vs[k + 1]? = some vs[k + 1] := List.getElem?_eq_getElem hb
    have hvrget : vs.get? (k + 1) = some vs[k + 1] := by
      rw [List.get?_eq_getElem?]
      exact hvr
    simp only [hkget, hvrget]
    by_cases hg : (isFreeish vs[k + 1] &&
        decide (cur.offset + cur.size = vs[k + 1].offset)) = true
    · rw [if_pos hg]
      exact noAdj_right_only vs k cur vs[k + 1] hk hvr hOK
        ((Bool.and_eq_true _ _).mp hg).1
        (of_decide_eq_true ((Bool.and_eq_true _ _).mp hg).2) hlref
    · rw [if_neg hg]
      refine noAdj_of_guards vs k cur hk hOK hlref ?_
      intro r hr
      rintro ⟨h1, h2⟩
      have hrr : r = vs[k + 1] := by
        have h3 := hr.symm.trans hvr
        injection h3
      subst hrr
      exact hg (by rw [h1, decide_eq_true h2]; rfl)
  · rw [if_neg hb]
    refine noAdj_of_guards vs k cur hk hOK hlref ?_
    intro r hr
    rw [List.getElem?_eq_none (by omega)] at hr
    cases hr

/-- The full immediate-neighbor coalesce pipeline clears every mergeable
pair when all candidates touch the freed row `k`. -/
lemma coalesce_clear4 (vs : List Block) (k : Nat) (st : Stats)
    (cur : Block) (bs1 : List Block) (idx1 : Nat) (st1 : Stats) (m1 : Bool)
    (heq : Heap4.coalesceLeft vs k st = (bs1, idx1, st1, m1))
    (hk : vs[k]? = some cur)
    (hOK : ∀ i x y, vs[i]? = some x → vs[i + 1]? = some y →
      isFreeish x = true → isFreeish y = true →
      x.offset + x.size = y.offset → i = k ∨ i + 1 = k) :
    NoAdjFreePair (Heap4.coalesceRight bs1 idx1 st1).1 := by
  obtain ⟨hklen, hkel⟩ := List.getElem?_eq_some_iff.mp hk
  have hkget : vs.get? k = some cur := by
    rw [List.get?_eq_getElem?]
    exact hk
  rw [Heap4.coalesceLeft] at heq
  by_cases h0 : 0 < k
  · rw [if_pos h0] at heq
    obtain ⟨g, hgeq⟩ : ∃ g, vs[k - 1]? = some g :=
      ⟨vs[k - 1], List.getElem?_eq_getElem (by omega)⟩
    have hglget : vs.get? (k - 1) = some g := by
      rw [List.get?_eq_getElem?]
      exact hgeq
    simp only [hglget, hkget] at heq
    by_cases hg : (isFreeish g &&
        decide (g.offset + g.size = cur.offset)) = true
    · rw [if_pos hg] at heq
      simp only [Prod.mk.injEq] at heq
      obtain ⟨hbs, hidx, hst, -⟩ := heq
      subst hbs hidx hst
      have hlf : isFreeish g = true :=
        ((Bool.and_eq_true _ _).mp hg).1
      have hladj : g.offset + g.size = cur.offset :=
        of_decide_eq_true ((Bool.and_eq_true _ _).mp hg).2
      have hdesc : ∀ i, ((vs.set (k - 1)
          { g with size := g.size + cur.size
                   state := BlockState.FREE }).eraseIdx k)[i]? =
          if i < k - 1 then vs[i]? else if i = k - 1 then
            some { g with size := g.size + cur.size
                          state := BlockState.FREE }
          else vs[i + 1]? := by
        intro i
        simp only [List.getElem?_eraseIdx, List.getElem?_set]
        split_ifs <;> first | rfl | omega
      refine coalesceRight_clear _ (k - 1) _
        { g with size := g.size + cur.size
                 state := BlockState.FREE } ?_ ?_ ?_
      · rw [hdesc]
        rw [if_neg (by omega), if_pos rfl]
      · intro i x y hx hy hfx hfy hadj
        rw [hdesc] at hx hy
        by_cases hA : i + 1 < k - 1
        · rw [if_pos (by omega)] at hx
          rw [if_pos hA] at hy
          rcases hOK i x y hx hy hfx hfy hadj with h2 | h2 <;> omega
        by_cases hB : i + 1 = k - 1
        · right
          exact hB
        by_cases hC : i = k - 1
        · left
          exact hC
        · rw [if_neg (by omega), if_neg (by omega)] at hx
          rw [if_neg (by omega), if_neg (by omega)] at hy
          have hy4 : vs[i + 1 + 1]? = some y := hy
          rcases hOK (i + 1) x y hx hy4 hfx hfy hadj with h2 | h2 <;>
            omega
      · intro l' hl' h0'
        rintro ⟨h1, h2⟩
        rw [hdesc] at hl'
        rw [if_pos (by omega)] at hl'
        have hadjM : l'.offset + l'.size = g.offset := h2
        have hgl2 : vs[k - 1 - 1 + 1]? = some g := by
          rw [show k - 1 - 1 + 1 = k - 1 by omega]
          exact hgeq
        rcases hOK (k - 1 - 1) l' g hl' hgl2 h1 hlf hadjM
          with h2 | h2 <;> omega
    · rw [if_neg hg] at heq
      simp only [Prod.mk.injEq] at heq
      obtain ⟨hbs, hidx, hst, -⟩ := heq
      subst hbs hidx hst
      refine coalesceRight_clear vs k st cur hk hOK ?_
      intro l' hl' h0'
      rintro ⟨h1, h2⟩
      have hll : l' = g := by
        have h3 := hl'.symm.trans hgeq
        injection h3
      rw [hll] at h1 h2
      exact hg (by rw [h1, decide_eq_true h2]; rfl)
  · rw [if_neg h0] at heq
    simp only [Prod.mk.injEq] at heq
    obtain ⟨hbs, hidx, hst, -⟩ := heq
    subst hbs hidx hst
    refine coalesceRight_clear vs k st cur hk hOK ?_
    intro l' hl' h0'
    exact absurd h0' h0

/-- If the predicate holds at index `j` and at no other index, `findIdx?`
returns `j`. -/
lemma findIdx_of_unique {α : Type} (q : α → Bool) :
    ∀ (l : List α) (j : Nat) (x : α), l[j]? = some x → q x = true →
      (∀ i y, l[i]? = some y → q y = true → i = j) →
      l.findIdx? q = some j := by
  intro l
  induction l with
  | nil =>
    intro j x hx _ _
    simp at hx
  | cons a t ih =>
    intro j x hx hqx hu
    rw [List.findIdx?_cons, List.findIdx?_succ]
    cases j with
    | zero =>
      rw [List.getElem?_cons_zero] at hx
      injection hx with h1
      subst h1
      rw [if_pos hqx]
    | succ j2 =>
      have hqa : ¬ q a = true := by
        intro hqa
        exact absurd (hu 0 a (by simp) hqa) (by omega)
      rw [if_neg hqa]
      rw [List.getElem?_cons_succ] at hx
      have hrec : t.findIdx? q = some j2 := by
        refine ih j2 x hx hqx ?_
        intro i y hy hqy
        have h2 := hu (i + 1) y (by rw [List.getElem?_cons_succ]; exact hy) hqy
        omega
      rw [hrec]
      rfl

/-- In a table whose offsets are `Nodup`, two rows with the same offset sit
at the same index. -/
lemma offset_index_inj (bs : List Block)
    (hnd : (bs.map Block.offset).Nodup) (i j : Nat) (x y : Block)
    (hi : bs[i]? = some x) (hj : bs[j]? = some y)
    (hxy : x.offset = y.offset) : i = j := by
  obtain ⟨hil, hie⟩ := List.getElem?_eq_some_iff.mp hi
  obtain ⟨hjl, hje⟩ := List.getElem?_eq_some_iff.mp hj
  have hi2 : i < (bs.map Block.offset).length := by
    rw [List.length_map]
    exact hil
  have hj2 : j < (bs.map Block.offset).length := by
    rw [List.length_map]
    exact hjl
  have he : (bs.map Block.offset)[i] = (bs.map Block.offset)[j] := by
    simp only [List.getElem_map]
    rw [hie, hje, hxy]
  exact (List.Nodup.getElem_inj_iff hnd).mp he

/-- heap_5 variant: in a table whose (region, offset) pairs are `Nodup`,
two rows with the same region and offset sit at the same index. -/
lemma regoff_index_inj (bs : List Block)
    (hnd : (bs.map fun b => (b.region_id, b.offset)).Nodup)
    (i j : Nat) (x y : Block)
    (hi : bs[i]? = some x) (hj : bs[j]? = some y)
    (hr : x.region_id = y.region_id) (hxy : x.offset = y.offset) : i = j := by
  obtain ⟨hil, hie⟩ := List.getElem?_eq_some_iff.mp hi
  obtain ⟨hjl, hje⟩ := List.getElem?_eq_some_iff.mp hj
  have hi2 : i < (bs.map fun b => (b.region_id, b.offset)).length := by
    rw [List.length_map]
    exact hil
  have hj2 : j < (bs.map fun b => (b.region_id, b.offset)).length := by
    rw [List.length_map]
    exact hjl
  have he : (bs.map fun b => (b.region_id, b.offset))[i] =
      (bs.map fun b => (b.region_id, b.offset))[j] := by
    simp only [List.getElem_map]
    rw [hie, hje, hr, hxy]
  exact (List.Nodup.getElem_inj_iff hnd).mp he

/-- Deleting a row keeps the table offset-sorted. -/
lemma sorted_eraseIdx (l : List Block) (i : Nat) (h : l.Sorted blockLE) :
    (l.eraseIdx i).Sorted blockLE :=
  h.sublist (List.eraseIdx_sublist l i)

/-- Replacing a row by one with the same offset keeps the table
offset-sorted. -/
lemma sorted_set_offset (bs : List Block) (j : Nat) (b b2 : Block)
    (hb : bs[j]? = some b) (ho : b2.offset = b.offset)
    (hs : bs.Sorted blockLE) : (bs.set j b2).Sorted blockLE :=
  sorted_le_of_map_eq _ _ (map_offset_set_eq bs j b b2 hb ho) hs

/-- In a table with no mergeable pair, after swapping row `j` for one with
the same offset and size, every mergeable pair touches row `j`. -/
lemma marked_hOK (bs : List Block) (j : Nat) (b bF : Block)
    (hNA : NoAdjFreePair bs) (hj : bs[j]? = some b)
    (ho : bF.offset = b.offset) (hsz : bF.size = b.size) :
    ∀ i x y, (bs.set j bF)[i]? = some x → (bs.set j bF)[i + 1]? = some y →
      isFreeish x = true → isFreeish y = true →
      x.offset + x.size = y.offset → i = j ∨ i + 1 = j := by
  intro i x y hx hy hfx hfy hadj
  by_cases hij : i = j
  · exact Or.inl hij
  by_cases hij1 : i + 1 = j
  · exact Or.inr hij1
  exfalso
  have hx2 : bs[i]? = some x := by
    rw [List.getElem?_set] at hx
    rwa [if_neg (by omega)] at hx
  have hy2 : bs[i + 1]? = some y := by
    rw [List.getElem?_set] at hy
    rwa [if_neg (by omega)] at hy
  exact (noAdjFreePair_iff_get bs).mp hNA i x y hx2 hy2 ⟨hfx, hfy, hadj⟩

/-- The left-merge phase keeps the table offset-sorted. -/
lemma coalesceLeft_sorted (vs : List Block) (k : Nat) (st : Stats)
    (bs1 : List Block) (idx1 : Nat) (st1 : Stats) (m1 : Bool)
    (heq : Heap4.coalesceLeft vs k st = (bs1, idx1, st1, m1))
    (hs : vs.Sorted blockLE) : bs1.Sorted blockLE := by
  rw [Heap4.coalesceLeft] at heq
  by_cases h0 : 0 < k
  · rw [if_pos h0] at heq
    cases hg1 : vs.get? (k - 1) with
    | none =>
      simp only [hg1] at heq
      simp only [Prod.mk.injEq] at heq
      obtain ⟨hbs, -, -, -⟩ := heq
      subst hbs
      exact hs
    | some g =>
      cases hg2 : vs.get? k with
      | none =>
        simp only [hg1, hg2] at heq
        simp only [Prod.mk.injEq] at heq
        obtain ⟨hbs, -, -, -⟩ := heq
        subst hbs
        exact hs
      | some cur =>
        simp only [hg1, hg2] at heq
        by_cases hgd : (isFreeish g &&
            decide (g.offset + g.size = cur.offset)) = true
        · rw [if_pos hgd] at heq
          simp only [Prod.mk.injEq] at heq
          obtain ⟨hbs, -, -, -⟩ := heq
          subst hbs
          have hg1b : vs[k - 1]? = some g := by
            rw [← List.get?_eq_getElem?]
            exact hg1
          exact sorted_eraseIdx _ _
            (sorted_set_offset vs (k - 1) g _ hg1b rfl hs)
        · rw [if_neg hgd] at heq
          simp only [Prod.mk.injEq] at heq
          obtain ⟨hbs, -, -, -⟩ := heq
          subst hbs
          exact hs
  · rw [if_neg h0] at heq
    simp only [Prod.mk.injEq] at heq
    obtain ⟨hbs, -, -, -⟩ := heq
    subst hbs
    exact hs

/-- The right-merge phase keeps the table offset-sorted. -/
lemma coalesceRight_sorted (vs : List Block) (k : Nat) (st : Stats)
    (bs2 : List Block) (st2 : Stats) (m2 : Bool)
    (heq : Heap4.coalesceRight vs k st = (bs2, st2, m2))
    (hs : vs.Sorted blockLE) : bs2.Sorted blockLE := by
  rw [Heap4.coalesceRight] at heq
  by_cases hb : k + 1 < vs.length
  · rw [if_pos hb] at heq
    cases hg1 : vs.get? k with
    | none =>
      simp only [hg1] at heq
      simp only [Prod.mk.injEq] at heq
      obtain ⟨hbs, -, -⟩ := heq
      subst hbs
      exact hs
    | some cur =>
      cases hg2 : vs.get? (k + 1) with
      | none =>
        simp only [hg1, hg2] at heq
        simp only [Prod.mk.injEq] at heq
        obtain ⟨hbs, -, -⟩ := heq
        subst hbs
        exact hs
      | some rb =>
        simp only [hg1, hg2] at heq
        by_cases hgd : (isFreeish rb &&
            decide (cur.offset + cur.size = rb.offset)) = true
        · rw [if_pos hgd] at heq
          simp only [Prod.mk.injEq] at heq
          obtain ⟨hbs, -, -⟩ := heq
          subst hbs
          have hg1b : vs[k]? = some cur := by
            rw [← List.get?_eq_getElem?]
            exact hg1
          exact sorted_eraseIdx _ _
            (sorted_set_offset vs k cur _ hg1b rfl hs)
        · rw [if_neg hgd] at heq
          simp only [Prod.mk.injEq] at heq
          obtain ⟨hbs, -, -⟩ := heq
          subst hbs
          exact hs
  · rw [if_neg hb] at heq
    simp only [Prod.mk.injEq] at heq
    obtain ⟨hbs, -, -⟩ := heq
    subst hbs
    exact hs

/-- heap_4's `immediate_neighbor_coalesce` on a sorted table whose
mergeable pairs all touch the freed row clears every mergeable pair, and
keeps the table sorted. -/
lemma inc_blocks4 (t : Heap4.H4State) (o : Nat) (k : Nat) (bF : Block)
    (hsm : t.blocks.Sorted blockLE)
    (hfind2 : t.blocks.findIdx? (fun b2 => decide (b2.offset = o)) = some k)
    (hkm : t.blocks[k]? = some bF)
    (hOK : ∀ i x y, t.blocks[i]? = some x → t.blocks[i + 1]? = some y →
      isFreeish x = true → isFreeish y = true →
      x.offset + x.size = y.offset → i = k ∨ i + 1 = k) :
    NoAdjFreePair ((Heap4.immediate_neighbor_coalesce t o).blocks) ∧
    ((Heap4.immediate_neighbor_coalesce t o).blocks).Sorted blockLE := by
  have h1 := coalesce_clear4 t.blocks k t.stats bF
    (Heap4.coalesceLeft t.blocks k t.stats).1
    (Heap4.coalesceLeft t.blocks k t.stats).2.1
    (Heap4.coalesceLeft t.blocks k t.stats).2.2.1
    (Heap4.coalesceLeft t.blocks k t.stats).2.2.2
    rfl hkm hOK
  have hls := coalesceLeft_sorted t.blocks k t.stats
    (Heap4.coalesceLeft t.blocks k t.stats).1
    (Heap4.coalesceLeft t.blocks k t.stats).2.1
    (Heap4.coalesceLeft t.blocks k t.stats).2.2.1
    (Heap4.coalesceLeft t.blocks k t.stats).2.2.2
    rfl hsm
  have h2 := coalesceRight_sorted
    (Heap4.coalesceLeft t.blocks k t.stats).1
    (Heap4.coalesceLeft t.blocks k t.stats).2.1
    (Heap4.coalesceLeft t.blocks k t.stats).2.2.1
    (Heap4.coalesceRight (Heap4.coalesceLeft t.blocks k t.stats).1
      (Heap4.coalesceLeft t.blocks k t.stats).2.1
      (Heap4.coalesceLeft t.blocks k t.stats).2.2.1).1
    (Heap4.coalesceRight (Heap4.coalesceLeft t.blocks k t.stats).1
      (Heap4.coalesceLeft t.blocks k t.stats).2.1
      (Heap4.coalesceLeft t.blocks k t.stats).2.2.1).2.1
    (Heap4.coalesceRight (Heap4.coalesceLeft t.blocks k t.stats).1
      (Heap4.coalesceLeft t.blocks k t.stats).2.1
      (Heap4.coalesceLeft t.blocks k t.stats).2.2.1).2.2
    rfl hls
  rw [Heap4.immediate_neighbor_coalesce]
  rw [sort_of_sorted _ hsm, hfind2]
  dsimp only
  split_ifs <;> exact ⟨h1, h2⟩

/-- heap_4 `heap_free` on a valid allocated pointer of a well-formed,
coalesce-clean table: immediately after the immediate-neighbor-coalesce
step no mergeable pair remains, and the final (re-sorted) table is exactly
that step's output. -/
lemma heap4_free_noAdj (s : Heap4.H4State) (p : Nat) (j : Nat) (b : Block)
    (hs : s.blocks.Sorted blockLE)
    (hnd : (s.blocks.map Block.offset).Nodup)
    (hNA : NoAdjFreePair s.blocks)
    (hfind : s.blocks.findIdx? (fun b2 =>
      decide (b2.offset = p - headerSize) &&
      decide (b2.state = BlockState.ALLOCATED)) = some j)
    (hget : s.blocks[j]? = some b) :
    NoAdjFreePair ((Heap4.heap_free s p).blocks) ∧
    (Heap4.heap_free s p).blocks = (Heap4.immediate_neighbor_coalesce
      { s with
        blocks := s.blocks.set j
          { b with state := BlockState.FREED, allocation_id := 0, requested_size := 0 },
        stats := { s.stats with
          free_block_count := s.stats.free_block_count + 1 },
        free_list := (p - headerSize,
          memRead s.heap_memory (p - headerSize) + headerSize) ::
          s.free_list,
        heap_memory := memWrite s.heap_memory (p - headerSize)
          (memRead s.heap_memory (p - headerSize) + headerSize) }
      (p - headerSize)).blocks := by
  obtain ⟨b0, hb0, hq⟩ := findIdx_found _ s.blocks j hfind
  have hb0b : b0 = b := by
    have h3 := hb0.symm.trans hget
    injection h3
  rw [hb0b] at hq
  have hq2 := (Bool.and_eq_true _ _).mp hq
  have hbo : b.offset = p - headerSize := of_decide_eq_true hq2.1
  obtain ⟨hjlen, -⟩ := List.getElem?_eq_some_iff.mp hget
  have hmap := map_offset_set_eq s.blocks j b
    { b with state := BlockState.FREED, allocation_id := 0, requested_size := 0 } hget rfl
  have hsm : (s.blocks.set j
      { b with state := BlockState.FREED, allocation_id := 0, requested_size := 0 }).Sorted blockLE :=
    sorted_set_offset s.blocks j b _ hget rfl hs
  have hndm : ((s.blocks.set j
      { b with state := BlockState.FREED, allocation_id := 0, requested_size := 0 }).map Block.offset).Nodup := by
    rw [hmap]
    exact hnd
  have hkm : (s.blocks.set j
      { b with state := BlockState.FREED, allocation_id := 0, requested_size := 0 })[j]? = some
      { b with state := BlockState.FREED, allocation_id := 0, requested_size := 0 } := by
    rw [List.getElem?_set]
    split_ifs <;> first | rfl | omega
  have hfind2 : (s.blocks.set j
      { b with state := BlockState.FREED, allocation_id := 0, requested_size := 0 }).findIdx?
      (fun b2 => decide (b2.offset = p - headerSize)) = some j := by
    refine findIdx_of_unique _ _ j
      { b with state := BlockState.FREED, allocation_id := 0, requested_size := 0 } hkm ?_ ?_
    · rw [decide_eq_true_eq]
      exact hbo
    · intro i2 y hy hqy
      refine offset_index_inj _ hndm i2 j y
        { b with state := BlockState.FREED, allocation_id := 0, requested_size := 0 } hy hkm ?_
      have hyo : y.offset = p - headerSize := of_decide_eq_true hqy
      rw [hyo]
      exact hbo.symm
  have hOKm := marked_hOK s.blocks j b
    { b with state := BlockState.FREED, allocation_id := 0, requested_size := 0 } hNA hget rfl rfl
  have hinc := inc_blocks4
    { s with
        blocks := s.blocks.set j
          { b with state := BlockState.FREED, allocation_id := 0, requested_size := 0 },
        stats := { s.stats with
          free_block_count := s.stats.free_block_count + 1 },
        free_list := (p - headerSize,
          memRead s.heap_memory (p - headerSize) + headerSize) ::
          s.free_list,
        heap_memory := memWrite s.heap_memory (p - headerSize)
          (memRead s.heap_memory (p - headerSize) + headerSize) }
    (p - headerSize) j
    { b with state := BlockState.FREED, allocation_id := 0, requested_size := 0 } hsm hfind2 hkm hOKm
  have hget2 : s.blocks.get? j = some b := by
    rw [List.get?_eq_getElem?]
    exact hget
  have hfb : (Heap4.heap_free s p).blocks = common_sort_blocks
      ((Heap4.immediate_neighbor_coalesce
        { s with
        blocks := s.blocks.set j
          { b with state := BlockState.FREED, allocation_id := 0, requested_size := 0 },
        stats := { s.stats with
          free_block_count := s.stats.free_block_count + 1 },
        free_list := (p - headerSize,
          memRead s.heap_memory (p - headerSize) + headerSize) ::
          s.free_list,
        heap_memory := memWrite s.heap_memory (p - headerSize)
          (memRead s.heap_memory (p - headerSize) + headerSize) }
        (p - headerSize)).blocks) := by
    rw [Heap4.heap_free]
    simp only [hfind, hget2]
  refine ⟨?_, ?_⟩
  · rw [hfb, sort_of_sorted _ hinc.2]
    exact hinc.1
  · rw [hfb, sort_of_sorted _ hinc.2]

/-- heap_5: when the region-aware coalesce merges nothing, the failed
guards together with the freed-row localization rule out every same-region
mergeable pair. -/
lemma noAdj5_of_guards (vs : List Block) (k : Nat) (cur : Block)
    (region_id : Nat) (hk : vs[k]? = some cur)
    (hkr : cur.region_id = region_id)
    (hOK : ∀ i x y, vs[i]? = some x → vs[i + 1]? = some y →
      x.region_id = y.region_id → isFreeish x = true → isFreeish y = true →
      x.offset + x.size = y.offset → i = k ∨ i + 1 = k)
    (hlref : ∀ l, vs[k - 1]? = some l → 0 < k →
      ¬ (l.region_id = region_id ∧ isFreeish l = true ∧
        l.offset + l.size = cur.offset))
    (hrref : ∀ r, vs[k + 1]? = some r →
      ¬ (r.region_id = region_id ∧ isFreeish r = true ∧
        cur.offset + cur.size = r.offset)) :
    NoAdjFreePair5 vs := by
  rw [noAdjFreePair5_iff_get]
  intro i x y hx hy
  rintro ⟨hreg, hfx, hfy, hadj⟩
  rcases hOK i x y hx hy hreg hfx hfy hadj with rfl | hik
  · have hxcur : x = cur := by
      have h2 := hx.symm.trans hk
      injection h2
    subst hxcur
    exact hrref y hy ⟨by rw [← hreg, hkr], hfy, hadj⟩
  · have hycur : y = cur := by
      rw [hik] at hy
      have h2 := hy.symm.trans hk
      injection h2
    subst hycur
    refine hlref x ?_ (by omega) ⟨by rw [hreg, hkr], hfx, hadj⟩
    rw [show k - 1 = i by omega]
    exact hx

/-- heap_5: after merging only the right neighbor, no same-region
mergeable pair remains. -/
lemma noAdj5_right_only (vs : List Block) (k : Nat) (cur r : Block)
    (region_id : Nat)
    (hk : vs[k]? = some cur) (hgr : vs[k + 1]? = some r)
    (hkr : cur.region_id = region_id)
    (hOK : ∀ i x y, vs[i]? = some x → vs[i + 1]? = some y →
      x.region_id = y.region_id → isFreeish x = true → isFreeish y = true →
      x.offset + x.size = y.offset → i = k ∨ i + 1 = k)
    (hrreg : r.region_id = region_id)
    (hrf : isFreeish r = true) (hradj : cur.offset + cur.size = r.offset)
    (hlref : ∀ l, vs[k - 1]? = some l → 0 < k →
      ¬ (l.region_id = region_id ∧ isFreeish l = true ∧
        l.offset + l.size = cur.offset)) :
    NoAdjFreePair5 ((vs.set k
      { cur with size := cur.size + r.size
                 state := BlockState.FREE }).eraseIdx (k + 1)) := by
  obtain ⟨hklen, _⟩ := List.getElem?_eq_some_iff.mp hk
  have hfin : ∀ i, ((vs.set k
      { cur with size := cur.size + r.size
                 state := BlockState.FREE }).eraseIdx (k + 1))[i]? =
      if i < k then vs[i]? else if i = k then
        some { cur with size := cur.size + r.size
                        state := BlockState.FREE }
      else vs[i + 1]? := by
    intro i
    simp only [List.getElem?_eraseIdx, List.getElem?_set]
    split_ifs <;> first | rfl | omega
  rw [noAdjFreePair5_iff_get]
  intro i x y hx hy
  rintro ⟨hreg, hfx, hfy, hadj⟩
  rw [hfin] at hx hy
  by_cases hA : i + 1 < k
  · rw [if_pos (by omega)] at hx
    rw [if_pos hA] at hy
    rcases hOK i x y hx hy hreg hfx hfy hadj with h2 | h2 <;> omega
  by_cases hB : i + 1 = k
  · rw [if_pos (by omega)] at hx
    rw [if_neg (by omega), if_pos hB] at hy
    injection hy with hy2
    subst hy2
    refine hlref x ?_ (by omega) ⟨by rw [hreg]; exact hkr, hfx, hadj⟩
    rw [show k - 1 = i by omega]
    exact hx
  by_cases hC : i = k
  · rw [if_neg (by omega), if_pos hC] at hx
    rw [if_neg (by omega), if_neg (by omega)] at hy
    injection hx with hx2
    subst hx2
    have hadj2 : cur.offset + (cur.size + r.size) = y.offset := hadj
    have hy3 : vs[k + 1 + 1]? = some y := by
      rw [show k + 1 + 1 = i + 1 + 1 by omega]
      exact hy
    have hreg2 : r.region_id = y.region_id := by
      rw [hrreg, ← hreg]
      exact hkr.symm
    rcases hOK (k + 1) r y hgr hy3 hreg2 hrf hfy (by omega) with h2 | h2 <;>
      omega
  · rw [if_neg (by omega), if_neg (by omega)] at hx
    rw [if_neg (by omega), if_neg (by omega)] at hy
    have hy4 : vs[i + 1 + 1]? = some y := hy
    rcases hOK (i + 1) x y hx hy4 hreg hfx hfy hadj with h2 | h2 <;> omega

/-- heap_5: the right-neighbor phase clears all same-region mergeable
pairs, given that every candidate pair touches row `k` and the left pair
is already refuted. -/
lemma coalesceRight5_clear (vs : List Block) (k region_id : Nat)
    (cur : Block) (hk : vs[k]? = some cur)
    (hkr : cur.region_id = region_id)
    (hOK : ∀ i x y, vs[i]? = some x → vs[i + 1]? = some y →
      x.region_id = y.region_id → isFreeish x = true → isFreeish y = true →
      x.offset + x.size = y.offset → i = k ∨ i + 1 = k)
    (hlref : ∀ l, vs[k - 1]? = some l → 0 < k →
      ¬ (l.region_id = region_id ∧ isFreeish l = true ∧
        l.offset + l.size = cur.offset)) :
    NoAdjFreePair5 (Heap5.coalesceRight vs k region_id).1 := by
  obtain ⟨hklen, hkel⟩ := List.getElem?_eq_some_iff.mp hk
  have hkget : vs.get? k = some cur := by
    rw [List.get?_eq_getElem?]
    exact hk
  rw [Heap5.coalesceRight]
  by_cases hb : k + 1 < vs.length
  · rw [if_pos hb]
    have hvr : vs[k + 1]? = some vs[k + 1] := List.getElem?_eq_getElem hb
    have hvrget : vs.get? (k + 1) = some vs[k + 1] := by
      rw [List.get?_eq_getElem?]
      exact hvr
    simp only [hkget, hvrget]
    by_cases hg : (decide (vs[k + 1].region_id = region_id) &&
        isFreeish vs[k + 1] &&
        decide (cur.offset + cur.size = vs[k + 1].offset)) = true
    · rw [if_pos hg]
      have hg1 := (Bool.and_eq_true _ _).mp hg
      have hg2 := (Bool.and_eq_true _ _).mp hg1.1
      exact noAdj5_right_only vs k cur vs[k + 1] region_id hk hvr hkr hOK
        (of_decide_eq_true hg2.1) hg2.2
        (of_decide_eq_true hg1.2) hlref
    · rw [if_neg hg]
      refine noAdj5_of_guards vs k cur region_id hk hkr hOK hlref ?_
      intro r hr
      rintro ⟨h0, h1, h2⟩
      have hrr : r = vs[k + 1] := by
        have h3 := hr.symm.trans hvr
        injection h3
      subst hrr
      exact hg (by rw [decide_eq_true h0, h1, decide_eq_true h2]; rfl)
  · rw [if_neg hb]
    refine noAdj5_of_guards vs k cur region_id hk hkr hOK hlref ?_
    intro r hr
    rw [List.getElem?_eq_none (by omega)] at hr
    cases hr

/-- heap_5: the full region-aware coalesce pipeline clears every
same-region mergeable pair when all candidates touch the freed row `k`. -/
lemma coalesce5_clear (vs : List Block) (k region_id : Nat)
    (cur : Block) (bs1 : List Block) (idx1 : Nat) (m1 : Bool)
    (heq : Heap5.coalesceLeft vs k region_id = (bs1, idx1, m1))
    (hk : vs[k]? = some cur)
    (hkr : cur.region_id = region_id)
    (hOK : ∀ i x y, vs[i]? = some x → vs[i + 1]? = some y →
      x.region_id = y.region_id → isFreeish x = true → isFreeish y = true →
      x.offset + x.size = y.offset → i = k ∨ i + 1 = k) :
    NoAdjFreePair5 (Heap5.coalesceRight bs1 idx1 region_id).1 := by
  obtain ⟨hklen, hkel⟩ := List.getElem?_eq_some_iff.mp hk
  have hkget : vs.get? k = some cur := by
    rw [List.get?_eq_getElem?]
    exact hk
  rw [Heap5.coalesceLeft] at heq
  by_cases h0 : 0 < k
  · rw [if_pos h0] at heq
    obtain ⟨g, hgeq⟩ : ∃ g, vs[k - 1]? = some g :=
      ⟨vs[k - 1], List.getElem?_eq_getElem (by omega)⟩
    have hglget : vs.get? (k - 1) = some g := by
      rw [List.get?_eq_getElem?]
      exact hgeq
    simp only [hglget, hkget] at heq
    by_cases hg : (decide (g.region_id = region_id) && isFreeish g &&
        decide (g.offset + g.size = cur.offset)) = true
    · rw [if_pos hg] at heq
      simp only [Prod.mk.injEq] at heq
      obtain ⟨hbs, hidx, -⟩ := heq
      subst hbs hidx
      have hg1 := (Bool.and_eq_true _ _).mp hg
      have hg2 := (Bool.and_eq_true _ _).mp hg1.1
      have hgreg : g.region_id = region_id := of_decide_eq_true hg2.1
      have hlf : isFreeish g = true := hg2.2
      have hladj : g.offset + g.size = cur.offset :=
        of_decide_eq_true hg1.2
      have hdesc : ∀ i, ((vs.set (k - 1)
          { g with size := g.size + cur.size
                   state := BlockState.FREE }).eraseIdx k)[i]? =
          if i < k - 1 then vs[i]? else if i = k - 1 then
            some { g with size := g.size + cur.size
                          state := BlockState.FREE }
          else vs[i + 1]? := by
        intro i
        simp only [List.getElem?_eraseIdx, List.getElem?_set]
        split_ifs <;> first | rfl | omega
      refine coalesceRight5_clear _ (k - 1) region_id
        { g with size := g.size + cur.size
                 state := BlockState.FREE } ?_ ?_ ?_ ?_
      · rw [hdesc]
        rw [if_neg (by omega), if_pos rfl]
      · exact hgreg
      · intro i x y hx hy hreg2 hfx hfy hadj
        rw [hdesc] at hx hy
        by_cases hA : i + 1 < k - 1
        · rw [if_pos (by omega)] at hx
          rw [if_pos hA] at hy
          rcases hOK i x y hx hy hreg2 hfx hfy hadj with h2 | h2 <;> omega
        by_cases hB : i + 1 = k - 1
        · right
          exact hB
        by_cases hC : i = k - 1
        · left
          exact hC
        · rw [if_neg (by omega), if_neg (by omega)] at hx
          rw [if_neg (by omega), if_neg (by omega)] at hy
          have hy4 : vs[i + 1 + 1]? = some y := hy
          rcases hOK (i + 1) x y hx hy4 hreg2 hfx hfy hadj with h2 | h2 <;>
            omega
      · intro l2 hl2 h02
        rintro ⟨hr1, h1, h2⟩
        rw [hdesc] at hl2
        rw [if_pos (by omega)] at hl2
        have hadjM : l2.offset + l2.size = g.offset := h2
        have hgl2 : vs[k - 1 - 1 + 1]? = some g := by
          rw [show k - 1 - 1 + 1 = k - 1 by omega]
          exact hgeq
        have hregM : l2.region_id = g.region_id := by
          rw [hr1, hgreg]
        rcases hOK (k - 1 - 1) l2 g hl2 hgl2 hregM h1 hlf hadjM
          with h2 | h2 <;> omega
    · rw [if_neg hg] at heq
      simp only [Prod.mk.injEq] at heq
      obtain ⟨hbs, hidx, -⟩ := heq
      subst hbs hidx
      refine coalesceRight5_clear vs k region_id cur hk hkr hOK ?_
      intro l2 hl2 h02
      rintro ⟨hr1, h1, h2⟩
      have hll : l2 = g := by
        have h3 := hl2.symm.trans hgeq
        injection h3
      rw [hll] at hr1 h1 h2
      exact hg (by rw [decide_eq_true hr1, h1, decide_eq_true h2]; rfl)
  · rw [if_neg h0] at heq
    simp only [Prod.mk.injEq] at heq
    obtain ⟨hbs, hidx, -⟩ := heq
    subst hbs hidx
    refine coalesceRight5_clear vs k region_id cur hk hkr hOK ?_
    intro l2 hl2 h02
    exact absurd h02 h0

/-- heap_5's left-merge phase keeps the table offset-sorted. -/
lemma coalesceLeft5_sorted (vs : List Block) (k region_id : Nat)
    (bs1 : List Block) (idx1 : Nat) (m1 : Bool)
    (heq : Heap5.coalesceLeft vs k region_id = (bs1, idx1, m1))
    (hs : vs.Sorted blockLE) : bs1.Sorted blockLE := by
  rw [Heap5.coalesceLeft] at heq
  by_cases h0 : 0 < k
  · rw [if_pos h0] at heq
    cases hg1 : vs.get? (k - 1) with
    | none =>
      simp only [hg1] at heq
      simp only [Prod.mk.injEq] at heq
      obtain ⟨hbs, -, -⟩ := heq
      subst hbs
      exact hs
    | some g =>
      cases hg2 : vs.get? k with
      | none =>
        simp only [hg1, hg2] at heq
        simp only [Prod.mk.injEq] at heq
        obtain ⟨hbs, -, -⟩ := heq
        subst hbs
        exact hs
      | some cur =>
        simp only [hg1, hg2] at heq
        by_cases hgd : (decide (g.region_id = region_id) && isFreeish g &&
            decide (g.offset + g.size = cur.offset)) = true
        · rw [if_pos hgd] at heq
          simp only [Prod.mk.injEq] at heq
          obtain ⟨hbs, -, -⟩ := heq
          subst hbs
          have hg1b : vs[k - 1]? = some g := by
            rw [← List.get?_eq_getElem?]
            exact hg1
          exact sorted_eraseIdx _ _
            (sorted_set_offset vs (k - 1) g _ hg1b rfl hs)
        · rw [if_neg hgd] at heq
          simp only [Prod.mk.injEq] at heq
          obtain ⟨hbs, -, -⟩ := heq
          subst hbs
          exact hs
  · rw [if_neg h0] at heq
    simp only [Prod.mk.injEq] at heq
    obtain ⟨hbs, -, -⟩ := heq
    subst hbs
    exact hs

/-- heap_5's right-merge phase keeps the table offset-sorted. -/
lemma coalesceRight5_sorted (vs : List Block) (k region_id : Nat)
    (bs2 : List Block) (m2 : Bool)
    (heq : Heap5.coalesceRight vs k region_id = (bs2, m2))
    (hs : vs.Sorted blockLE) : bs2.Sorted blockLE := by
  rw [Heap5.coalesceRight] at heq
  by_cases hb : k + 1 < vs.length
  · rw [if_pos hb] at heq
    cases hg1 : vs.get? k with
    | none =>
      simp only [hg1] at heq
      simp only [Prod.mk.injEq] at heq
      obtain ⟨hbs, -⟩ := heq
      subst hbs
      exact hs
    | some cur =>
      cases hg2 : vs.get? (k + 1) with
      | none =>
        simp only [hg1, hg2] at heq
        simp only [Prod.mk.injEq] at heq
        obtain ⟨hbs, -⟩ := heq
        subst hbs
        exact hs
      | some rb =>
        simp only [hg1, hg2] at heq
        by_cases hgd : (decide (rb.region_id = region_id) && isFreeish rb &&
            decide (cur.offset + cur.size = rb.offset)) = true
        · rw [if_pos hgd] at heq
          simp only [Prod.mk.injEq] at heq
          obtain ⟨hbs, -⟩ := heq
          subst hbs
          have hg1b : vs[k]? = some cur := by
            rw [← List.get?_eq_getElem?]
            exact hg1
          exact sorted_eraseIdx _ _
            (sorted_set_offset vs k cur _ hg1b rfl hs)
        · rw [if_neg hgd] at heq
          simp only [Prod.mk.injEq] at heq
          obtain ⟨hbs, -⟩ := heq
          subst hbs
          exact hs
  · rw [if_neg hb] at heq
    simp only [Prod.mk.injEq] at heq
    obtain ⟨hbs, -⟩ := heq
    subst hbs
    exact hs

/-- heap_5: in a table with no same-region mergeable pair, after swapping
row `j` for one with the same offset, size and region, every same-region
mergeable pair touches row `j`. -/
lemma marked_hOK5 (bs : List Block) (j : Nat) (bF : Block)
    (hNA : NoAdjFreePair5 bs) :
    ∀ i x y, (bs.set j bF)[i]? = some x → (bs.set j bF)[i + 1]? = some y →
      x.region_id = y.region_id → isFreeish x = true → isFreeish y = true →
      x.offset + x.size = y.offset → i = j ∨ i + 1 = j := by
  intro i x y hx hy hreg hfx hfy hadj
  by_cases hij : i = j
  · exact Or.inl hij
  by_cases hij1 : i + 1 = j
  · exact Or.inr hij1
  exfalso
  have hx2 : bs[i]? = some x := by
    rw [List.getElem?_set] at hx
    rwa [if_neg (by omega)] at hx
  have hy2 : bs[i + 1]? = some y := by
    rw [List.getElem?_set] at hy
    rwa [if_neg (by omega)] at hy
  exact (noAdjFreePair5_iff_get bs).mp hNA i x y hx2 hy2
    ⟨hreg, hfx, hfy, hadj⟩

/-- heap_5's `immediate_neighbor_coalesce` on a sorted table whose
same-region mergeable pairs all touch the freed row clears every
same-region mergeable pair, and keeps the table sorted. -/
lemma inc_blocks5 (t : Heap5.H5State) (o region_id : Nat) (k : Nat)
    (bF : Block)
    (hsm : t.blocks.Sorted blockLE)
    (hfind2 : t.blocks.findIdx? (fun b2 =>
      decide (b2.offset = o) && decide (b2.region_id = region_id)) = some k)
    (hkm : t.blocks[k]? = some bF)
    (hkr : bF.region_id = region_id)
    (hOK : ∀ i x y, t.blocks[i]? = some x → t.blocks[i + 1]? = some y →
      x.region_id = y.region_id → isFreeish x = true → isFreeish y = true →
      x.offset + x.size = y.offset → i = k ∨ i + 1 = k) :
    NoAdjFreePair5 ((Heap5.immediate_neighbor_coalesce t o region_id).blocks) ∧
    ((Heap5.immediate_neighbor_coalesce t o region_id).blocks).Sorted
      blockLE := by
  have h1 := coalesce5_clear t.blocks k region_id bF
    (Heap5.coalesceLeft t.blocks k region_id).1
    (Heap5.coalesceLeft t.blocks k region_id).2.1
    (Heap5.coalesceLeft t.blocks k region_id).2.2
    rfl hkm hkr hOK
  have hls := coalesceLeft5_sorted t.blocks k region_id
    (Heap5.coalesceLeft t.blocks k region_id).1
    (Heap5.coalesceLeft t.blocks k region_id).2.1
    (Heap5.coalesceLeft t.blocks k region_id).2.2
    rfl hsm
  have h2 := coalesceRight5_sorted
    (Heap5.coalesceLeft t.blocks k region_id).1
    (Heap5.coalesceLeft t.blocks k region_id).2.1 region_id
    (Heap5.coalesceRight (Heap5.coalesceLeft t.blocks k region_id).1
      (Heap5.coalesceLeft t.blocks k region_id).2.1 region_id).1
    (Heap5.coalesceRight (Heap5.coalesceLeft t.blocks k region_id).1
      (Heap5.coalesceLeft t.blocks k region_id).2.1 region_id).2
    rfl hls
  rw [Heap5.immediate_neighbor_coalesce]
  rw [sort_of_sorted _ hsm, hfind2]
  dsimp only
  split_ifs <;> exact ⟨h1, h2⟩

/-- Setting an index to the element already there is the identity, for
(region, offset) pair lists. -/
lemma pair_set_getElem_self (l : List (Nat × Nat)) (k : Nat)
    (h : k < l.length) : l.set k l[k] = l := by
  apply List.ext_getElem?
  intro i
  rw [List.getElem?_set]
  split_ifs with h1
  · subst h1
    rw [List.getElem?_eq_getElem h]
  · rfl

/-- Replacing a row by one with the same region and offset leaves the
(region, offset) pair rendering of the table unchanged. -/
lemma map_regoff_set_eq (bs : List Block) (j : Nat) (b b2 : Block)
    (hb : bs[j]? = some b) (ho : b2.offset = b.offset)
    (hr : b2.region_id = b.region_id) :
    (bs.set j b2).map (fun x => (x.region_id, x.offset)) =
      bs.map (fun x => (x.region_id, x.offset)) := by
  obtain ⟨hj, hjb⟩ := List.getElem?_eq_some_iff.mp hb
  rw [List.map_set]
  have hj2 : j < (bs.map fun x => (x.region_id, x.offset)).length := by
    rw [List.length_map]
    exact hj
  have hbo : (bs.map fun x => (x.region_id, x.offset))[j] =
      (b2.region_id, b2.offset) := by
    simp only [List.getElem_map]
    rw [hjb, ho, hr]
  rw [← hbo]
  exact pair_set_getElem_self _ _ hj2

/-- heap_5 `heap_free` on a valid allocated pointer of a well-formed,
coalesce-clean table: immediately after the region-aware
immediate-neighbor-coalesce step no same-region mergeable pair remains,
and the final (re-sorted) table is exactly that step's output. -/
lemma heap5_free_noAdj (s : Heap5.H5State) (p : Nat × Nat) (j : Nat)
    (b : Block)
    (hp : p.1 < Heap5.region_count ∧ p.2 - headerSize < Heap5.regionSize p.1)
    (hs : s.blocks.Sorted blockLE)
    (hnd : (s.blocks.map fun x => (x.region_id, x.offset)).Nodup)
    (hNA : NoAdjFreePair5 s.blocks)
    (hfind : s.blocks.findIdx? (fun b2 =>
      decide (b2.offset = p.2 - headerSize) &&
      decide (b2.region_id = p.1) &&
      decide (b2.state = BlockState.ALLOCATED)) = some j)
    (hget : s.blocks[j]? = some b) :
    NoAdjFreePair5 ((Heap5.heap_free s p).blocks) ∧
    (Heap5.heap_free s p).blocks = (Heap5.immediate_neighbor_coalesce
      { s with
        blocks := s.blocks.set j
          { b with state := BlockState.FREED, allocation_id := 0, requested_size := 0 },
        free_lists := s.free_lists.set p.1
          ((p.2 - headerSize,
            Heap5.mem5Read s.heap_memory (p.1, p.2 - headerSize) + headerSize) ::
            s.free_lists.getD p.1 []),
        heap_memory := Heap5.mem5Write s.heap_memory (p.1, p.2 - headerSize)
          (Heap5.mem5Read s.heap_memory (p.1, p.2 - headerSize) + headerSize) }
      (p.2 - headerSize) p.1).blocks := by
  obtain ⟨b0, hb0, hq⟩ := findIdx_found _ s.blocks j hfind
  have hb0b : b0 = b := by
    have h3 := hb0.symm.trans hget
    injection h3
  rw [hb0b] at hq
  have hq1 := (Bool.and_eq_true _ _).mp hq
  have hq2 := (Bool.and_eq_true _ _).mp hq1.1
  have hbo : b.offset = p.2 - headerSize := of_decide_eq_true hq2.1
  have hbr : b.region_id = p.1 := of_decide_eq_true hq2.2
  obtain ⟨hjlen, -⟩ := List.getElem?_eq_some_iff.mp hget
  have hmap := map_regoff_set_eq s.blocks j b
    { b with state := BlockState.FREED, allocation_id := 0, requested_size := 0 } hget rfl rfl
  have hsm : (s.blocks.set j
      { b with state := BlockState.FREED, allocation_id := 0, requested_size := 0 }).Sorted blockLE :=
    sorted_set_offset s.blocks j b _ hget rfl hs
  have hndm : ((s.blocks.set j
      { b with state := BlockState.FREED, allocation_id := 0, requested_size := 0 }).map
      fun x => (x.region_id, x.offset)).Nodup := by
    rw [hmap]
    exact hnd
  have hkm : (s.blocks.set j
      { b with state := BlockState.FREED, allocation_id := 0, requested_size := 0 })[j]? = some
      { b with state := BlockState.FREED, allocation_id := 0, requested_size := 0 } := by
    rw [List.getElem?_set]
    split_ifs <;> first | rfl | omega
  have hfind2 : (s.blocks.set j
      { b with state := BlockState.FREED, allocation_id := 0, requested_size := 0 }).findIdx?
      (fun b2 => decide (b2.offset = p.2 - headerSize) &&
        decide (b2.region_id = p.1)) = some j := by
    refine findIdx_of_unique _ _ j
      { b with state := BlockState.FREED, allocation_id := 0, requested_size := 0 } hkm ?_ ?_
    · rw [Bool.and_eq_true, decide_eq_true_eq, decide_eq_true_eq]
      exact ⟨hbo, hbr⟩
    · intro i2 y hy hqy
      rw [Bool.and_eq_true, decide_eq_true_eq, decide_eq_true_eq] at hqy
      refine regoff_index_inj _ hndm i2 j y
        { b with state := BlockState.FREED, allocation_id := 0, requested_size := 0 } hy hkm ?_ ?_
      · rw [hqy.2]
        exact hbr.symm
      · rw [hqy.1]
        exact hbo.symm
  have hOKm := marked_hOK5 s.blocks j
    { b with state := BlockState.FREED, allocation_id := 0, requested_size := 0 } hNA
  have hinc := inc_blocks5
    { s with
        blocks := s.blocks.set j
          { b with state := BlockState.FREED, allocation_id := 0, requested_size := 0 },
        free_lists := s.free_lists.set p.1
          ((p.2 - headerSize,
            Heap5.mem5Read s.heap_memory (p.1, p.2 - headerSize) + headerSize) ::
            s.free_lists.getD p.1 []),
        heap_memory := Heap5.mem5Write s.heap_memory (p.1, p.2 - headerSize)
          (Heap5.mem5Read s.heap_memory (p.1, p.2 - headerSize) + headerSize) }
    (p.2 - headerSize) p.1 j
    { b with state := BlockState.FREED, allocation_id := 0, requested_size := 0 } hsm hfind2 hkm hbr hOKm
  have hget2 : s.blocks.get? j = some b := by
    rw [List.get?_eq_getElem?]
    exact hget
  have hrid : (if p.1 < Heap5.region_count ∧ p.2 - headerSize < Heap5.regionSize p.1
      then p.1 else 0) = p.1 := if_pos hp
  have hfb : (Heap5.heap_free s p).blocks = common_sort_blocks
      ((Heap5.immediate_neighbor_coalesce
        { s with
        blocks := s.blocks.set j
          { b with state := BlockState.FREED, allocation_id := 0, requested_size := 0 },
        free_lists := s.free_lists.set p.1
          ((p.2 - headerSize,
            Heap5.mem5Read s.heap_memory (p.1, p.2 - headerSize) + headerSize) ::
            s.free_lists.getD p.1 []),
        heap_memory := Heap5.mem5Write s.heap_memory (p.1, p.2 - headerSize)
          (Heap5.mem5Read s.heap_memory (p.1, p.2 - headerSize) + headerSize) }
        (p.2 - headerSize) p.1).blocks) := by
    rw [Heap5.heap_free]
    simp only [hrid, hfind, hget2]
    rfl
  refine ⟨?_, ?_⟩
  · rw [hfb, sort_of_sorted _ hinc.2]
    exact hinc.1
  · rw [hfb, sort_of_sorted _ hinc.2]

/-- **C8.** For Allocators 4 and 5, a `free(ptr)` on a valid allocated
pointer — identified by the table row `j` its header addresses — of an
offset-sorted, duplicate-free table with no mergeable adjacent pair leaves,
immediately after the immediate-neighbor-coalesce step, no two adjacent
table entries (of the same region for Allocator 5) that are both
`FREE`/`FREED` and physically contiguous; moreover the table `heap_free`
finally stores is exactly that step's output, so the property holds of the
freed heap's offset-sorted table. -/
theorem c8_coalesce_clears :
    (∀ (s : Heap4.H4State) (p j : Nat) (b : Block),
      s.blocks.Sorted blockLE →
      (s.blocks.map Block.offset).Nodup →
      NoAdjFreePair s.blocks →
      s.blocks.findIdx? (fun b2 =>
        decide (b2.offset = p - headerSize) &&
        decide (b2.state = BlockState.ALLOCATED)) = some j →
      s.blocks[j]? = some b →
      NoAdjFreePair ((Heap4.heap_free s p).blocks) ∧
      (Heap4.heap_free s p).blocks = (Heap4.immediate_neighbor_coalesce
        { s with
          blocks := s.blocks.set j
            { b with state := BlockState.FREED, allocation_id := 0, requested_size := 0 },
          stats := { s.stats with
            free_block_count := s.stats.free_block_count + 1 },
          free_list := (p - headerSize,
            memRead s.heap_memory (p - headerSize) + headerSize) ::
            s.free_list,
          heap_memory := memWrite s.heap_memory (p - headerSize)
            (memRead s.heap_memory (p - headerSize) + headerSize) }
        (p - headerSize)).blocks) ∧
    (∀ (s : Heap5.H5State) (p : Nat × Nat) (j : Nat) (b : Block),
      p.1 < Heap5.region_count ∧
        p.2 - headerSize < Heap5.regionSize p.1 →
      s.blocks.Sorted blockLE →
      (s.blocks.map fun x => (x.region_id, x.offset)).Nodup →
      NoAdjFreePair5 s.blocks →
      s.blocks.findIdx? (fun b2 =>
        decide (b2.offset = p.2 - headerSize) &&
        decide (b2.region_id = p.1) &&
        decide (b2.state = BlockState.ALLOCATED)) = some j →
      s.blocks[j]? = some b →
      NoAdjFreePair5 ((Heap5.heap_free s p).blocks) ∧
      (Heap5.heap_free s p).blocks = (Heap5.immediate_neighbor_coalesce
        { s with
          blocks := s.blocks.set j
            { b with state := BlockState.FREED, allocation_id := 0, requested_size := 0 },
          free_lists := s.free_lists.set p.1
            ((p.2 - headerSize,
              Heap5.mem5Read s.heap_memory (p.1, p.2 - headerSize) +
                headerSize) ::
              s.free_lists.getD p.1 []),
          heap_memory := Heap5.mem5Write s.heap_memory
            (p.1, p.2 - headerSize)
            (Heap5.mem5Read s.heap_memory (p.1, p.2 - headerSize) +
              headerSize) }
        (p.2 - headerSize) p.1).blocks) := by
  constructor
  · intro s p j b hs hnd hNA hfind hget
    exact heap4_free_noAdj s p j b hs hnd hNA hfind hget
  · intro s p j b hp hs hnd hNA hfind hget
    exact heap5_free_noAdj s p j b hp hs hnd hNA hfind hget

/-- Witness for C8: a concrete three-row table (freed, allocated, free) in
each allocator; freeing the middle block's pointer merges all three rows,
and the resulting tables have no mergeable adjacent pair. -/
theorem c8_coalesce_clears_witness :
    NoAdjFreePair ((Heap4.heap_free
      ({ heap_memory := [],
         blocks := [⟨0, 16, BlockState.FREED, 0, 0, 0, 0⟩,
           ⟨16, 16, BlockState.ALLOCATED, 1, 0, 8, 0⟩,
           ⟨32, 16, BlockState.FREE, 0, 0, 0, 0⟩],
         logs := [],
         stats := zeroStats,
         free_list := [],
         coalesce_pending := false } : Heap4.H4State) 24).blocks) ∧
    NoAdjFreePair5 ((Heap5.heap_free
      ({ blocks := [⟨0, 16, BlockState.FREED, 0, 0, 0, 0⟩,
           ⟨16, 16, BlockState.ALLOCATED, 1, 0, 8, 0⟩,
           ⟨32, 16, BlockState.FREE, 0, 0, 0, 0⟩],
         logs := [],
         stats := zeroStats,
         regions := [],
         free_lists := [[], [], []],
         heap_memory := [],
         coalesce_pending := false } : Heap5.H5State) (0, 24)).blocks) :=
  ⟨(c8_coalesce_clears.1
      ({ heap_memory := [],
         blocks := [⟨0, 16, BlockState.FREED, 0, 0, 0, 0⟩,
           ⟨16, 16, BlockState.ALLOCATED, 1, 0, 8, 0⟩,
           ⟨32, 16, BlockState.FREE, 0, 0, 0, 0⟩],
         logs := [],
         stats := zeroStats,
         free_list := [],
         coalesce_pending := false } : Heap4.H4State) 24 1
      (⟨16, 16, BlockState.ALLOCATED, 1, 0, 8, 0⟩ : Block) (by decide) (by decide)
      ⟨by decide, by decide, trivial⟩ (by decide) (by decide)).1,
   (c8_coalesce_clears.2
      ({ blocks := [⟨0, 16, BlockState.FREED, 0, 0, 0, 0⟩,
           ⟨16, 16, BlockState.ALLOCATED, 1, 0, 8, 0⟩,
           ⟨32, 16, BlockState.FREE, 0, 0, 0, 0⟩],
         logs := [],
         stats := zeroStats,
         regions := [],
         free_lists := [[], [], []],
         heap_memory := [],
         coalesce_pending := false } : Heap5.H5State) (0, 24) 1
      (⟨16, 16, BlockState.ALLOCATED, 1, 0, 8, 0⟩ : Block) (by decide) (by decide) (by decide)
      ⟨by decide, by decide, trivial⟩ (by decide) (by decide)).1⟩

end HeapModel
